import Mathlib

/-!
# JankyBorders animated gradients: colour interpolation, hex decoding, animation loop

A shallow embedding of `src/gradient_animation.c` and of the colour decoder of
`src/parse.c`, together with the properties the specification states about them.

Conventions of the embedding.

* `uint8_t` and `uint32_t` values are natural numbers; the conversions the C code
  performs are written out as `% 256` and `% 2 ^ 32`.
* `int` values are integers.  The increment `x++` is the two's complement one of the
  compiled code: the sum reduced to 32 bits, so `2147483647 + 1` is `-2147483648` (in
  ISO C that overflow is undefined).
* A finite `double` is the rational number it denotes.  Every operation on the time
  fields (`+=`, `-=`, `*`, `/`) rounds its exact result to a `double` (`round_double`:
  IEEE 754 binary64, to nearest, ties to even); infinities and NaN are outside the model.
  The interpolation formula is computed exactly, which agrees with IEEE arithmetic: the
  channels are 8-bit and `step`, `max_steps` are 32-bit, so the exact value of
  `c1 + (c2 - c1) * step / max_steps + 0.5` is either an integer or at least `2 ^ (-32)`
  away from one, which rounding to 53 bits cannot bridge.
* `rand()` is a list of the non-negative numbers it will return, consumed from the
  front; a computation that needs more draws than the list holds has no result.
-/

namespace JankyBorders

/-! ## Colour utilities (`gradient_animation.c`) -/

/-- Conversion `(uint8_t)v` of a `double`: the fractional part is discarded
(truncation toward zero) and the integer is reduced to 8 bits. -/
def double_to_uint8 (v : ℚ) : Nat :=
  ((if 0 ≤ v then ⌊v⌋ else ⌈v⌉) % 256).toNat

/-- Embedding of `interpolate_channel`: interpolates a single colour channel. -/
def interpolate_channel (c1 c2 : Nat) (step max_steps : Int) : Nat :=
  if step ≤ 0 then c1
  else if step ≥ max_steps then c2
  else double_to_uint8
    ((c1 : ℚ) + (((c2 : Int) - (c1 : Int) : Int) : ℚ) * (step : ℚ) / (max_steps : ℚ) + 1 / 2)

/-- Embedding of `interpolate_color_value`: interpolates a packed `0xAARRGGBB` value;
alpha is taken from `color_from`, or is `0xFF` when that alpha is zero. -/
def interpolate_color_value (color_from color_to : Nat) (step max_steps : Int) : Nat :=
  let a1 := (color_from >>> 24) &&& 0xFF
  let r1 := (color_from >>> 16) &&& 0xFF
  let g1 := (color_from >>> 8) &&& 0xFF
  let b1 := (color_from >>> 0) &&& 0xFF
  let r2 := (color_to >>> 16) &&& 0xFF
  let g2 := (color_to >>> 8) &&& 0xFF
  let b2 := (color_to >>> 0) &&& 0xFF
  let final_a := if a1 = 0 then 0xFF else a1
  let final_r := interpolate_channel r1 r2 step max_steps
  let final_g := interpolate_channel g1 g2 step max_steps
  let final_b := interpolate_channel b1 b2 step max_steps
  ((final_a <<< 24) ||| (final_r <<< 16) ||| (final_g <<< 8) ||| final_b) % 2 ^ 32

/-- Alpha byte of a packed colour. -/
def alphaOf (c : Nat) : Nat := (c >>> 24) &&& 0xFF

/-- Red byte of a packed colour. -/
def redOf (c : Nat) : Nat := (c >>> 16) &&& 0xFF

/-- Green byte of a packed colour. -/
def greenOf (c : Nat) : Nat := (c >>> 8) &&& 0xFF

/-- Blue byte of a packed colour. -/
def blueOf (c : Nat) : Nat := c &&& 0xFF

/-- The alpha byte `interpolate_color_value` gives its result (`final_a`). -/
def finalAlpha (color_from : Nat) : Nat :=
  if alphaOf color_from = 0 then 0xFF else alphaOf color_from

/-- The exact value `c1 + (c2 - c1) * step / max_steps + 0.5` that `interpolate_channel`
truncates. -/
def lerp (a b : Nat) (s N : Int) : ℚ :=
  (a : ℚ) + ((b : ℚ) - (a : ℚ)) * (s : ℚ) / (N : ℚ) + 1 / 2

/-- Channel values `x` (at the earlier step) and `y` (at the later step) both lie between
the endpoint values `a` and `b`, and `y` is at least as close to `b` as `x` is. -/
def NoOvershootCloser (a b x y : Nat) : Prop :=
  (min a b ≤ x ∧ x ≤ max a b) ∧ (min a b ≤ y ∧ y ≤ max a b)
    ∧ |(y : Int) - (b : Int)| ≤ |(x : Int) - (b : Int)|

/-! ## Hex colour decoding (`parse.c`)

A C string is the list of the codes of its `char`s before the terminating NUL. -/

/-- The `char` codes of a string literal. -/
def cstr (s : String) : List Nat := s.toList.map Char.toNat

/-- C library `tolower` on ASCII. -/
def tolower (c : Nat) : Nat :=
  if 'A'.toNat ≤ c ∧ c ≤ 'Z'.toNat then c + 32 else c

/-- Embedding of `hex_char_to_int`: the value (0-15) of a hex character, `-1` if the
character is not a hex digit. -/
def hex_char_to_int (c : Nat) : Int :=
  let c := tolower c
  if c ≥ '0'.toNat ∧ c ≤ '9'.toNat then (c : Int) - ('0'.toNat : Int)
  else if c ≥ 'a'.toNat ∧ c ≤ 'f'.toNat then (c : Int) - ('a'.toNat : Int) + 10
  else -1

/-- C library `isxdigit`: `0-9`, `a-f`, `A-F`. -/
def isxdigit (c : Nat) : Bool :=
  ('0'.toNat ≤ c ∧ c ≤ '9'.toNat) ∨ ('a'.toNat ≤ c ∧ c ≤ 'f'.toNat)
    ∨ ('A'.toNat ≤ c ∧ c ≤ 'F'.toNat)

/-- C library `isspace` in the C locale: space, `\t`, `\n`, `\v`, `\f`, `\r`. -/
def isspace (c : Nat) : Bool :=
  c = ' '.toNat ∨ (9 ≤ c ∧ c ≤ 13)

/-- The value of a base-16 digit as `strtoul` reads it, `none` for any other character. -/
def strtoul_digit (c : Nat) : Option Nat :=
  if '0'.toNat ≤ c ∧ c ≤ '9'.toNat then some (c - '0'.toNat)
  else if 'a'.toNat ≤ c ∧ c ≤ 'f'.toNat then some (c - 'a'.toNat + 10)
  else if 'A'.toNat ≤ c ∧ c ≤ 'F'.toNat then some (c - 'A'.toNat + 10)
  else none

/-- The digit loop of `strtoul`: reads base-16 digits while there are any; returns the
accumulated value and the unread rest of the string. -/
def strtoul_digits : Nat → List Nat → Nat × List Nat
  | acc, [] => (acc, [])
  | acc, c :: cs =>
    match strtoul_digit c with
    | some d => strtoul_digits (acc * 16 + d) cs
    | none => (acc, c :: cs)

/-- Largest `unsigned long` (64 bits on the platform of the program). -/
def ULONG_MAX : Nat := 2 ^ 64 - 1

/-- C library `strtoul(s, &endptr, 16)` as ISO C specifies it: leading white space is
skipped, then an optional sign and an optional `0x`/`0X` prefix (only when a hex digit
follows it) are accepted before the digits.  A value that does not fit is `ULONG_MAX`;
with a minus sign the value is negated in `unsigned long`.  Without any digit nothing is
converted and `endptr` is the start of the string.  Returns the value and what `endptr`
points to. -/
def strtoul16 (s : List Nat) : Nat × List Nat :=
  let s1 := s.dropWhile isspace
  let signed : Bool × List Nat :=
    match s1 with
    | [] => (false, s1)
    | c :: r => if c = '-'.toNat then (true, r) else if c = '+'.toNat then (false, r)
                else (false, s1)
  let s3 : List Nat :=
    match signed.2 with
    | z :: x :: d :: r =>
      if z = '0'.toNat ∧ (x = 'x'.toNat ∨ x = 'X'.toNat) ∧ (strtoul_digit d).isSome
      then d :: r else signed.2
    | _ => signed.2
  match s3 with
  | [] => (0, s)
  | c :: _ =>
    if (strtoul_digit c).isNone then (0, s)
    else
      let res := strtoul_digits 0 s3
      let v := if res.1 > ULONG_MAX then ULONG_MAX
               else if signed.1 then (2 ^ 64 - res.1) % 2 ^ 64 else res.1
      (v, res.2)

/-- Conversion of an integer to `int` (32 bits, two's complement). -/
def toInt32 (n : Int) : Int := (n + 2 ^ 31) % 2 ^ 32 - 2 ^ 31

/-- Embedding of `hex_string_to_uint32`: `some colour` when the function returns `true`
and stores the colour, `none` when it returns `false` (nothing is stored then). -/
def hex_string_to_uint32 (hex_str : List Nat) : Option Nat :=
  let len : Int := toInt32 (hex_str.length : Int)
  if len = 8 then
    let parsed := strtoul16 hex_str
    if parsed.2 ≠ [] then none
    else some (parsed.1 % 2 ^ 32)
  else if len = 6 then
    let color_val := 0xFF000000
    let parsed := strtoul16 hex_str
    if parsed.2 ≠ [] then none
    else some ((color_val ||| (parsed.1 % 2 ^ 32)) % 2 ^ 32)
  else none

/-- The value of a string of hex digits read in base 16, digit values taken from
`hex_char_to_int`. -/
def hexValue (s : List Nat) : Int :=
  s.foldl (fun acc c => 16 * acc + hex_char_to_int c) 0

/-! ## `double` arithmetic

The time fields of the animation state are `double`s.  A finite `double` is modelled as
the rational it denotes, and each arithmetic operation as the exact operation followed by
the rounding of the result. -/

/-- Rounding of an exact value to an integer: to the nearest one, and to the even one of
the two when the value lies half-way between them. -/
def round_half_even (x : ℚ) : Int :=
  if x - (⌊x⌋ : ℚ) < 1 / 2 then ⌊x⌋
  else if 1 / 2 < x - (⌊x⌋ : ℚ) then ⌊x⌋ + 1
  else if ⌊x⌋ % 2 = 0 then ⌊x⌋
  else ⌊x⌋ + 1

/-- Exponent of the binade of `x` in the `double` format: `⌊log₂ |x|⌋`, and `-1022` for
the subnormal values below `2 ^ (-1022)`. -/
def double_exponent (x : ℚ) : Int := max (Int.log 2 |x|) (-1022)

/-- Spacing of the `double` values in the binade of `x` (53 significant bits). -/
def double_ulp (x : ℚ) : ℚ := 2 ^ (double_exponent x - 52)

/-- The `double` an exact result is rounded to (IEEE 754 binary64, round to nearest, ties
to even): the nearest whole number of spacings of the binade of `x`.  A result of
magnitude `2 ^ 1024` or more, an infinity in C, is outside the model. -/
def round_double (x : ℚ) : ℚ := (round_half_even (x / double_ulp x) : ℚ) * double_ulp x

/-- The `double` sum `a + b`. -/
def double_add (a b : ℚ) : ℚ := round_double (a + b)

/-- The `double` difference `a - b`. -/
def double_sub (a b : ℚ) : ℚ := round_double (a - b)

/-- The `double` product `a * b`. -/
def double_mul (a b : ℚ) : ℚ := round_double (a * b)

/-- The `double` quotient `a / b`. -/
def double_div (a b : ℚ) : ℚ := round_double (a / b)

/-! ## Animation state and palette selection (`gradient_animation.h`, `gradient_animation.c`) -/

/-- Embedding of `struct gradient_animation_state`.  The palette pointer is `none` when
null and otherwise the array it points to. -/
@[ext]
structure gradient_animation_state where
  current_interpolation_step : Int
  time_accumulator_usec : ℚ
  step_duration_usec : ℚ
  current_tl_color : Nat
  current_br_color : Nat
  next_tl_color : Nat
  next_br_color : Nat
  color_palette : Option (List Nat)
  num_palette_colors : Int
  palette_total_steps : Int
  deriving DecidableEq

/-- The `do ... while (idx1 == idx2)` loop of `pick_next_random_colors`: draws
`rand() % n` until the result differs from `idx1`; `none` when the draws run out first. -/
def pick_second (n idx1 : Nat) : List Nat → Option (Nat × List Nat)
  | [] => none
  | r :: rs => if idx1 = r % n then pick_second n idx1 rs else some (r % n, rs)

/-- Embedding of `pick_next_random_colors`: picks two different random colours from the
palette.  The result is the new state and the unused draws; there is no result when the
draws run out or an index lies outside the palette array. -/
def pick_next_random_colors (anim_state : gradient_animation_state) (rng : List Nat) :
    Option (gradient_animation_state × List Nat) :=
  match anim_state.color_palette with
  | none =>
    some ({ anim_state with next_tl_color := 0xFF000000, next_br_color := 0xFF000000 }, rng)
  | some palette =>
    if anim_state.num_palette_colors < 2 then
      some ({ anim_state with next_tl_color := 0xFF000000, next_br_color := 0xFF000000 }, rng)
    else
      match rng with
      | [] => none
      | r1 :: rest =>
        let n := anim_state.num_palette_colors.toNat
        let idx1 := r1 % n
        match pick_second n idx1 rest with
        | none => none
        | some (idx2, rng2) =>
          match palette[idx1]?, palette[idx2]? with
          | some c1, some c2 =>
            some ({ anim_state with next_tl_color := c1, next_br_color := c2 }, rng2)
          | _, _ => none

theorem double_exponent_ge (x : ℚ) : -1022 ≤ double_exponent x := le_max_right _ _

/-- Every rounded value is a whole number of units `2 ^ (-1074)`, the spacing of the
smallest `double` values. -/
theorem round_double_units (x : ℚ) : ∃ k : Int, round_double x = (k : ℚ) / 2 ^ 1074 := by
  have hE := double_exponent_ge x
  obtain ⟨j, hj⟩ : ∃ j : Nat, double_exponent x - 52 = (j : Int) - 1074 :=
    ⟨(double_exponent x + 1022).toNat, by omega⟩
  refine ⟨round_half_even (x / double_ulp x) * 2 ^ j, ?_⟩
  unfold round_double
  have e : double_ulp x = 2 ^ j / 2 ^ 1074 := by
    unfold double_ulp
    rw [hj, zpow_sub₀ (by norm_num), zpow_natCast]
    norm_num
  rw [e]
  push_cast
  ring

/-- A pass of the loop that lowers the accumulator lowers it by at least one unit
`2 ^ (-1074)`: the number of such units the accumulator holds decreases. -/
theorem tick_measure_decreases (acc x : ℚ) (hpos : 0 < acc) (hlt : round_double x < acc) :
    ⌈round_double x * 2 ^ 1074⌉₊ < ⌈acc * 2 ^ 1074⌉₊ := by
  obtain ⟨k, hk⟩ := round_double_units x
  rw [hk] at hlt ⊢
  rw [div_mul_cancel₀ _ (by positivity), Nat.ceil_intCast, Nat.lt_ceil]
  have h1 : (k : ℚ) < acc * 2 ^ 1074 := by
    rwa [div_lt_iff₀ (by positivity)] at hlt
  rcases le_or_lt 0 k with hk0 | hk0
  · have : ((k.toNat : Nat) : ℚ) = (k : ℚ) := by
      have := Int.toNat_of_nonneg hk0
      exact_mod_cast this
    rw [this]
    exact h1
  · have : k.toNat = 0 := Int.toNat_eq_zero.mpr hk0.le
    rw [this]
    push_cast
    positivity

/-- `pick_next_random_colors` writes only the two `next_*` colours. -/
theorem pick_next_random_colors_frame (s s2 : gradient_animation_state) (rng rng2 : List Nat)
    (h : pick_next_random_colors s rng = some (s2, rng2)) :
    s2 = { s with next_tl_color := s2.next_tl_color, next_br_color := s2.next_br_color } := by
  unfold pick_next_random_colors at h
  split at h
  · simp only [Option.some.injEq, Prod.mk.injEq] at h
    rw [← h.1]
  · split at h
    · simp only [Option.some.injEq, Prod.mk.injEq] at h
      rw [← h.1]
    · split at h
      · exact absurd h (by simp)
      · dsimp only at h
        split at h
        · exact absurd h (by simp)
        · split at h
          · simp only [Option.some.injEq, Prod.mk.injEq] at h
            rw [← h.1]
          · exact absurd h (by simp)

/-! ## The tick callback (`gradient_animation.c`) -/

/-- The increment `x++` of an `int` as the compiled code performs it: the sum reduced to
32 bits in two's complement, so `2147483647 + 1` is `-2147483648`. -/
def int_incr (x : Int) : Int := toInt32 (x + 1)

/-- The `while` loop of `gradient_animation_callback`, with the flag
`needs_color_update` as third component.  Each pass takes one step duration from the
accumulator by a `double` subtraction.  A pass whose subtraction leaves the accumulator
as it was (the difference rounds back to the accumulator, which happens when the step
duration is below half the spacing of the `double`s there) is followed by the same pass
for ever: the loop does not end and there is no result. -/
def tick_loop (anim_state : gradient_animation_state) (rng : List Nat)
    (needs_color_update : Bool) : Option (gradient_animation_state × List Nat × Bool) :=
  if hc : anim_state.time_accumulator_usec ≥ anim_state.step_duration_usec
      ∧ anim_state.step_duration_usec > 0 then
    let s1 : gradient_animation_state :=
      { anim_state with
        time_accumulator_usec :=
          double_sub anim_state.time_accumulator_usec anim_state.step_duration_usec
        current_interpolation_step := int_incr anim_state.current_interpolation_step }
    if hlt : s1.time_accumulator_usec < anim_state.time_accumulator_usec then
      if s1.current_interpolation_step > s1.palette_total_steps then
        match hp : pick_next_random_colors
            { s1 with
              current_interpolation_step := 0
              current_tl_color := s1.next_tl_color
              current_br_color := s1.next_br_color } rng with
        | none => none
        | some (s2, rng2) => tick_loop s2 rng2 true
      else tick_loop s1 rng true
    else none
  else some (anim_state, rng, needs_color_update)
termination_by ⌈anim_state.time_accumulator_usec * 2 ^ 1074⌉₊
decreasing_by
  all_goals simp_wf
  · have hf := pick_next_random_colors_frame _ _ _ _ hp
    rw [hf]
    dsimp only
    exact tick_measure_decreases _ _ (lt_of_lt_of_le hc.2 hc.1) hlt
  · exact tick_measure_decreases _ _ (lt_of_lt_of_le hc.2 hc.1) hlt

/-- Modelled from the spec: the colour styles of `struct color_style`; the enumeration is
declared in `border.h`, not among the sources, and its members are named in `parse.c` and
`gradient_animation.c`. -/
inductive color_style_type where
  | COLOR_STYLE_SOLID
  | COLOR_STYLE_GLOW
  | COLOR_STYLE_GRADIENT
  deriving DecidableEq

/-- Modelled from the spec: the gradient directions; the enumeration is declared in
`border.h`, not among the sources, and its members are named in `parse.c` and
`gradient_animation.c`. -/
inductive gradient_direction where
  | TL_TO_BR
  | TR_TO_BL
  deriving DecidableEq

/-- What the block dispatched to the main thread writes into `g_settings.active_window`
before it asks for a repaint. -/
structure gradient_update where
  stype : color_style_type
  color1 : Nat
  color2 : Nat
  direction : gradient_direction
  deriving DecidableEq

/-- Embedding of `gradient_animation_callback`, for a non-null controller and context.
`frame_time` is `anim_controller->frame_time`, the elapsed time the tick delivers, a
`double`.  The result is the new state, the unused draws and the update dispatched to the
main thread, if any; there is no result when the loop does not end or a palette selection
has none. -/
def gradient_animation_callback (frame_time : ℚ) (anim_state : gradient_animation_state)
    (rng : List Nat) : Option (gradient_animation_state × List Nat × Option gradient_update) :=
  let s0 : gradient_animation_state :=
    { anim_state with
      time_accumulator_usec := double_add anim_state.time_accumulator_usec frame_time }
  match tick_loop s0 rng false with
  | none => none
  | some (s1, rng1, needs_color_update) =>
    if needs_color_update = true ∨ s1.current_interpolation_step = 0 then
      let interpolated_tl := interpolate_color_value s1.current_tl_color s1.next_tl_color
        s1.current_interpolation_step s1.palette_total_steps
      let interpolated_br := interpolate_color_value s1.current_br_color s1.next_br_color
        s1.current_interpolation_step s1.palette_total_steps
      some (s1, rng1, some
        { stype := color_style_type.COLOR_STYLE_GRADIENT
          color1 := interpolated_tl
          color2 := interpolated_br
          direction := gradient_direction.TL_TO_BR })
    else some (s1, rng1, none)

/-- A sequence of ticks with the given elapsed times, one call of the callback each. -/
def run_ticks : List ℚ → gradient_animation_state → List Nat →
    Option (gradient_animation_state × List Nat)
  | [], s, rng => some (s, rng)
  | dt :: dts, s, rng =>
    match gradient_animation_callback dt s rng with
    | none => none
    | some (s1, rng1, _) => run_ticks dts s1 rng1

/-! ## Start of the animation (`gradient_animation.c`) -/

/-- Modelled from the spec: `struct settings` is declared in `border.h`, not among the
sources; these are the fields of it that `gradient_animation.c` reads, with the types
their uses in `parse.c` show.  The palette pointer is `none` when null. -/
structure settings where
  animated_gradient_enabled : Bool
  parsed_gradient_colors : Option (List Nat)
  num_parsed_gradient_colors : Int
  animated_gradient_steps : Int
  animated_gradient_duration_sec : ℚ
  deriving DecidableEq

/-- The tick callbacks that can be registered; the animation has one. -/
inductive tick_proc where
  | gradient_animation_callback
  deriving DecidableEq

/-- Modelled from the spec: `struct animation` (declared in `animation.h`, not among the
sources), the subscription to the tick source: whether the display link runs and which
per-tick callback is registered. -/
structure animation where
  link : Bool
  proc : Option tick_proc
  deriving DecidableEq

/-- Modelled from the spec: `animation_init` (in `animation.c`, not among the sources)
resets the subscription. -/
def animation_init (_animator : animation) : animation :=
  { link := false, proc := none }

/-- Modelled from the spec: `animation_start` (in `animation.c`, not among the sources)
subscribes to the tick source and registers the callback. -/
def animation_start (_animator : animation) (proc : tick_proc) : animation :=
  { link := true, proc := some proc }

/-- Embedding of `gradient_animation_init_and_start`.  The result is the animator, the
animation state and the unused draws; all three are the arguments themselves when the
function returns without starting. -/
def gradient_animation_init_and_start (animator : animation)
    (anim_state : gradient_animation_state) (settings_ptr : settings) (rng : List Nat) :
    Option (animation × gradient_animation_state × List Nat) :=
  if settings_ptr.animated_gradient_enabled = false
      ∨ settings_ptr.parsed_gradient_colors = none
      ∨ settings_ptr.num_parsed_gradient_colors < 2 then
    some (animator, anim_state, rng)
  else
    let total_steps : Int :=
      if settings_ptr.animated_gradient_steps > 0 then settings_ptr.animated_gradient_steps
      else 1
    let step_duration : ℚ :=
      if total_steps > 0 ∧ settings_ptr.animated_gradient_duration_sec > 0 then
        double_div (double_mul settings_ptr.animated_gradient_duration_sec 1000000)
          (total_steps : ℚ)
      else 1000000
    let s1 : gradient_animation_state :=
      { anim_state with
        color_palette := settings_ptr.parsed_gradient_colors
        num_palette_colors := settings_ptr.num_parsed_gradient_colors
        palette_total_steps := total_steps
        step_duration_usec := step_duration
        current_interpolation_step := 0
        time_accumulator_usec := 0 }
    match pick_next_random_colors s1 rng with
    | none => none
    | some (s2, rng2) =>
      let s3 : gradient_animation_state :=
        { s2 with
          current_tl_color := s2.next_tl_color
          current_br_color := s2.next_br_color }
      match pick_next_random_colors s3 rng2 with
      | none => none
      | some (s4, rng4) =>
        some (animation_start (animation_init animator) tick_proc.gradient_animation_callback,
          s4, rng4)

/-! ## Auxiliary definitions used in the statements and proofs -/

/-- Value of a run of hex digits continuing the value `acc`, as a natural number. -/
def digitsValue (acc : Nat) (s : List Nat) : Nat :=
  s.foldl (fun a c => a * 16 + (hex_char_to_int c).toNat) acc

/-- The state after `n` loop iterations none of which rolls over or rounds. -/
def advance (s : gradient_animation_state) (n : Nat) : gradient_animation_state :=
  { s with
    time_accumulator_usec := s.time_accumulator_usec - (n : ℚ) * s.step_duration_usec
    current_interpolation_step := s.current_interpolation_step + (n : Int) }

/-- The update the callback dispatches for a post-tick state: both blends at the
current step, style gradient, direction top-left to bottom-right. -/
def update_of (s : gradient_animation_state) : gradient_update :=
  { stype := color_style_type.COLOR_STYLE_GRADIENT
    color1 := interpolate_color_value s.current_tl_color s.next_tl_color
      s.current_interpolation_step s.palette_total_steps
    color2 := interpolate_color_value s.current_br_color s.next_br_color
      s.current_interpolation_step s.palette_total_steps
    direction := gradient_direction.TL_TO_BR }

/-- The state a tick leaves when it fires `n` steps, none of them a rollover, and no
operation on the accumulator rounds. -/
def after_tick (s : gradient_animation_state) (dt : ℚ) (n : Nat) : gradient_animation_state :=
  { s with
    time_accumulator_usec := s.time_accumulator_usec + dt - (n : ℚ) * s.step_duration_usec
    current_interpolation_step := s.current_interpolation_step + (n : Int) }

/-- The state handed to `pick_next_random_colors` at a rollover that leaves `r` in the
accumulator. -/
def promoted (s : gradient_animation_state) (r : ℚ) : gradient_animation_state :=
  { s with
    time_accumulator_usec := r
    current_interpolation_step := 0
    current_tl_color := s.next_tl_color
    current_br_color := s.next_br_color }

/-- The state `gradient_animation_init_and_start` has written when it makes its first
draw: palette, step count, step duration, step and accumulator are configured, the four
colours are still the ones of the state it was given. -/
def configured (anim_state : gradient_animation_state) (settings_ptr : settings) :
    gradient_animation_state :=
  { anim_state with
    color_palette := settings_ptr.parsed_gradient_colors
    num_palette_colors := settings_ptr.num_parsed_gradient_colors
    palette_total_steps :=
      if settings_ptr.animated_gradient_steps > 0 then settings_ptr.animated_gradient_steps
      else 1
    step_duration_usec :=
      if settings_ptr.animated_gradient_duration_sec > 0 then
        double_div (double_mul settings_ptr.animated_gradient_duration_sec 1000000)
          (((if settings_ptr.animated_gradient_steps > 0
                then settings_ptr.animated_gradient_steps else 1 : Int)) : ℚ)
      else 1000000
    current_interpolation_step := 0
    time_accumulator_usec := 0 }

/-- The three conditions under which `gradient_animation_init_and_start` starts. -/
def start_conditions (settings_ptr : settings) : Prop :=
  settings_ptr.animated_gradient_enabled = true
    ∧ settings_ptr.parsed_gradient_colors ≠ none
    ∧ 2 ≤ settings_ptr.num_parsed_gradient_colors

/-- `x` is a whole number of units `2 ^ e`. -/
def whole_units (e : Int) (x : ℚ) : Prop := ∃ n : Int, x = (n : ℚ) * 2 ^ e

/-- `x` is a value of type `double`: rounding leaves it as it is. -/
def is_double (x : ℚ) : Prop := round_double x = x

/-- The times of a tick are exact: the accumulator, the step duration and the delta
are non-negative whole numbers of one unit `2 ^ e`, `e ≥ -1074`, and the accumulated time
is below `2 ^ 53` units.  No addition or subtraction of the tick rounds then. -/
def exact_times (e : Int) (acc dur dt : ℚ) : Prop :=
  -1074 ≤ e ∧ whole_units e acc ∧ whole_units e dur ∧ whole_units e dt
    ∧ 0 ≤ acc ∧ 0 ≤ dt ∧ acc + dt < 2 ^ (e + 53)

/-- A rational that a `double` holds exactly: `m / 2 ^ k` with a mantissa `m` below
`2 ^ 53` in absolute value and `k ≤ 64`. -/
def IsDouble (c : ℚ) : Prop :=
  ∃ (m : Int) (k : Nat), |m| < 2 ^ 53 ∧ k ≤ 64 ∧ c = (m : ℚ) / 2 ^ k

/-- What the proofs use of the rounding of `double` arithmetic: it is monotone and it
leaves the values a `double` holds exactly unchanged.  IEEE 754 rounding has both
properties in every rounding mode. -/
def RoundsLikeDouble (fl : ℚ → ℚ) : Prop :=
  (∀ x y, x ≤ y → fl x ≤ fl y) ∧ (∀ c, IsDouble c → fl c = c)

/-- Embedding of `interpolate_channel` with every `double` operation of the expression
`c1 + (double)(c2 - c1) * step / max_steps + 0.5` rounded by `fl`. -/
def interpolate_channel_rounded (fl : ℚ → ℚ) (c1 c2 : Nat) (step max_steps : Int) : Nat :=
  if step ≤ 0 then c1
  else if step ≥ max_steps then c2
  else double_to_uint8
    (fl (fl ((c1 : ℚ)
      + fl (fl ((((c2 : Int) - (c1 : Int) : Int) : ℚ) * (step : ℚ)) / (max_steps : ℚ)))
      + 1 / 2))

/-- Rounding to the nearest multiple of `2 ^ (-64)`, a rounding that is not the identity. -/
def round_fixed64 (x : ℚ) : ℚ := ((⌊x * 2 ^ 64 + 1 / 2⌋ : Int) : ℚ) / 2 ^ 64

/-! ## A sample state -/

/-- A freshly started state on the palette opaque red, opaque blue: ten steps of one
second each, moving from red to blue at the top left and from blue to red at the bottom
right. -/
def sample_state : gradient_animation_state :=
  { current_interpolation_step := 0
    time_accumulator_usec := 0
    step_duration_usec := 1000000
    current_tl_color := 0xFFFF0000
    current_br_color := 0xFF0000FF
    next_tl_color := 0xFF0000FF
    next_br_color := 0xFFFF0000
    color_palette := some [0xFFFF0000, 0xFF0000FF]
    num_palette_colors := 2
    palette_total_steps := 10 }

/-- Settings that start the animation on the red/blue palette: ten steps, ten seconds. -/
def sample_settings : settings :=
  { animated_gradient_enabled := true
    parsed_gradient_colors := some [0xFFFF0000, 0xFF0000FF]
    num_parsed_gradient_colors := 2
    animated_gradient_steps := 10
    animated_gradient_duration_sec := 10 }

/-- The sample state at step 9 of its 10 steps. -/
def sample_state_late : gradient_animation_state :=
  { sample_state with current_interpolation_step := 9 }

/-- The sample state after a rollover that picked blue and red again, half a second into
the new transition. -/
def sample_state_rolled : gradient_animation_state :=
  { sample_state with
    time_accumulator_usec := 500000
    current_tl_color := 0xFF0000FF
    current_br_color := 0xFFFF0000
    next_tl_color := 0xFF0000FF
    next_br_color := 0xFFFF0000 }

/-- Settings whose two palette colours have alpha byte 0 (as decoded from the 8-digit
strings `00ff0000` and `000000ff`). -/
def transparent_settings : settings :=
  { sample_settings with parsed_gradient_colors := some [0x00FF0000, 0x000000FF] }

/-- The state the start on `transparent_settings` with draws `0, 1, 1, 0` produces. -/
def transparent_state : gradient_animation_state :=
  { sample_state with
    current_tl_color := 0x00FF0000
    current_br_color := 0x000000FF
    next_tl_color := 0x000000FF
    next_br_color := 0x00FF0000
    color_palette := some [0x00FF0000, 0x000000FF] }

/-- A state at the start of the transition from opaque red to opaque blue in 2 steps of
`dur` microseconds. -/
def red_to_blue_state (dur : ℚ) : gradient_animation_state :=
  { sample_state with palette_total_steps := 2, step_duration_usec := dur }

/-! ## Option parsing (`parse.c`)

The model keeps the animation fields of the settings; the other fields and the update
mask that `parse_settings` returns are outside it. -/

/-- Embedding of `str_starts_with`, for non-null strings; the second parameter is the
source's `prefix`. -/
def str_starts_with (string pfx : List Nat) : Bool :=
  if string.length < pfx.length then false
  else if string.take pfx.length = pfx then true
  else false

/-- The strings that successive calls `strsep(&cursor, ",")` return on a string: its
pieces between commas, empty pieces included, until the cursor is null. -/
def strsep_tokens : List Nat → List (List Nat)
  | [] => [[]]
  | c :: cs =>
    if c = ','.toNat then [] :: strsep_tokens cs
    else
      match strsep_tokens cs with
      | [] => [[c]]
      | t :: ts => (c :: t) :: ts

/-- Largest `int` (32 bits). -/
def INT_MAX : Int := 2147483647

/-- The body of the `while` loop of `parse_animated_gradient_colors` for one string
`strsep` returned.  `colors` holds the cells of the buffer written so far (`count` is its
length), `capacity` the number of cells allocated; `alloc_ok bytes` tells whether an
allocation of `bytes` bytes succeeds.  The result is the new buffer and capacity,
`some none` when `realloc` fails (the function then returns `false`), and `none` when an
`int` would overflow. -/
def parse_colors_body (alloc_ok : Nat → Bool) (color_str : List Nat) (colors : List Nat)
    (capacity : Int) : Option (Option (List Nat × Int)) :=
  if color_str.length > 0 then
    match hex_string_to_uint32 color_str with
    | some color_val =>
      if (colors.length : Int) ≥ capacity then
        if capacity * 2 ≤ INT_MAX then
          if alloc_ok ((capacity * 2).toNat * 4) = true then
            if (colors.length : Int) + 1 ≤ INT_MAX then
              some (some (colors ++ [color_val], capacity * 2))
            else none
          else some none
        else none
      else
        if (colors.length : Int) + 1 ≤ INT_MAX then
          some (some (colors ++ [color_val], capacity))
        else none
    | none => some (some (colors, capacity))
  else some (some (colors, capacity))

/-- The `while` loop of `parse_animated_gradient_colors` over the strings `strsep`
returns: `some (some colors)` when the loop ends with the buffer `colors`, `some none`
when `realloc` fails, `none` when an `int` would overflow. -/
def parse_colors_loop (alloc_ok : Nat → Bool) :
    List (List Nat) → List Nat → Int → Option (Option (List Nat))
  | [], colors, _ => some (some colors)
  | color_str :: rest, colors, capacity =>
    match parse_colors_body alloc_ok color_str colors capacity with
    | none => none
    | some none => some none
    | some (some (colors1, capacity1)) => parse_colors_loop alloc_ok rest colors1 capacity1

/-- Embedding of `parse_animated_gradient_colors`: the new settings and the returned
flag.  The palette is the list of the buffer cells that were written.  There is no result
when the token is too long for the 32-bit `token_len` (the copy is then not terminated)
or an `int` would overflow. -/
def parse_animated_gradient_colors (alloc_ok : Nat → Bool) (st : settings)
    (token : List Nat) : Option (settings × Bool) :=
  let st1 : settings :=
    if st.parsed_gradient_colors ≠ none then
      { st with parsed_gradient_colors := none, num_parsed_gradient_colors := 0 }
    else st
  if token.length + 1 ≥ 2 ^ 32 then none
  else
    let capacity : Int := 10
    if alloc_ok (capacity.toNat * 4) = false then
      some ({ st1 with parsed_gradient_colors := none }, false)
    else
      match parse_colors_loop alloc_ok (strsep_tokens token) [] capacity with
      | none => none
      | some none =>
        some ({ st1 with parsed_gradient_colors := none, num_parsed_gradient_colors := 0 },
          false)
      | some (some colors) =>
        let count : Int := colors.length
        if count = 0 then
          some ({ st1 with num_parsed_gradient_colors := count, parsed_gradient_colors := none },
            decide (count > 0))
        else
          some ({ st1 with
                  num_parsed_gradient_colors := count, parsed_gradient_colors := some colors },
            decide (count > 0))

/-- The call `sscanf(s, "<lit>%<conv>", &x) == 1` with a literal text free of white space
before one conversion: the literal must match the start of `s`, then the conversion,
modelled by `conv`, reads what follows.  `some v` when the call returns 1 and stores `v`. -/
def sscanf_one {α : Type} (lit : List Nat) (conv : List Nat → Option α) (s : List Nat) :
    Option α :=
  if s.take lit.length = lit then conv (s.drop lit.length) else none

/-- The body of the loop of `parse_settings` for one argument, as far as the animation
settings are concerned.  `scan_int` and `scan_float` are the C library's `%d` and `%f`
conversions.  Every branch that does not write an animation field returns the settings
unchanged. -/
def parse_argument (scan_int : List Nat → Option Int) (scan_float : List Nat → Option ℚ)
    (alloc_ok : Nat → Bool) (st : settings) (arg : List Nat) : Option settings :=
  if str_starts_with arg (cstr "active_color") = true then some st
  else if str_starts_with arg (cstr "inactive_color") = true then some st
  else if str_starts_with arg (cstr "background_color") = true then some st
  else if str_starts_with arg (cstr "blacklist=") = true then some st
  else if str_starts_with arg (cstr "whitelist=") = true then some st
  else if str_starts_with arg (cstr "animated_gradient_colors=") = true then
    match parse_animated_gradient_colors alloc_ok st
        (arg.drop (cstr "animated_gradient_colors=").length) with
    | none => none
    | some (st1, _) => some st1
  else
    match sscanf_one (cstr "animated_gradient_steps=") scan_int arg with
    | some v => some { st with animated_gradient_steps := if v ≤ 0 then 1 else v }
    | none =>
      match sscanf_one (cstr "animated_gradient_duration=") scan_float arg with
      | some d => some { st with animated_gradient_duration_sec := if d ≤ 0 then 1 else d }
      | none =>
        if str_starts_with arg (cstr "animated_gradient") = true then
          let value := arg.drop (cstr "animated_gradient").length
          let value :=
            match value with
            | c :: r => if c = '='.toNat then r else value
            | [] => value
          if value = cstr "on" then some { st with animated_gradient_enabled := true }
          else if value = cstr "off" then some { st with animated_gradient_enabled := false }
          else some st
        else some st

/-- Embedding of `parse_settings`: the loop over the arguments, as far as the animation
settings are concerned. -/
def parse_settings (scan_int : List Nat → Option Int) (scan_float : List Nat → Option ℚ)
    (alloc_ok : Nat → Bool) : settings → List (List Nat) → Option settings
  | st, [] => some st
  | st, arg :: arguments =>
    match parse_argument scan_int scan_float alloc_ok st arg with
    | none => none
    | some st1 => parse_settings scan_int scan_float alloc_ok st1 arguments

/-- The palette entries `parse_animated_gradient_colors` keeps: the decoded values of the
non-empty entries that `hex_string_to_uint32` accepts, in their order. -/
def accepted_colors (token : List Nat) : List Nat :=
  ((strsep_tokens token).filter (fun e => decide (e ≠ []))).filterMap hex_string_to_uint32

/-- Embedding of `interpolate_channel` in which the division is checked: there is no
result when the divisor `max_steps` is 0 where the division is evaluated. -/
def interpolate_channel_checked (c1 c2 : Nat) (step max_steps : Int) : Option Nat :=
  if step ≤ 0 then some c1
  else if step ≥ max_steps then some c2
  else if max_steps = 0 then none
  else some (double_to_uint8
    ((c1 : ℚ) + (((c2 : Int) - (c1 : Int) : Int) : ℚ) * (step : ℚ) / (max_steps : ℚ) + 1 / 2))

/-- The colours of a state come from the palette `pal`: the state points to `pal` with a
count of at least 2, both current colours are entries of `pal`, and the next colours are
the entries at two different indices. -/
def colours_from_palette (pal : List Nat) (s : gradient_animation_state) : Prop :=
  s.color_palette = some pal ∧ 2 ≤ s.num_palette_colors
    ∧ s.current_tl_color ∈ pal ∧ s.current_br_color ∈ pal
    ∧ ∃ i j : Nat, i ≠ j ∧ pal[i]? = some s.next_tl_color ∧ pal[j]? = some s.next_br_color

/-- The sample state after one full transition and a rollover that picked blue and red
again. -/
def sample_state_next : gradient_animation_state :=
  { sample_state with
    current_tl_color := 0xFF0000FF
    current_br_color := 0xFFFF0000
    next_tl_color := 0xFF0000FF
    next_br_color := 0xFFFF0000 }

/-! ## States and settings of the `double` examples -/

/-- The sample state with `palette_total_steps = INT_MAX`, at step `INT_MAX`: what a
run with `animated_gradient_steps=2147483647` reaches after that many steps. -/
def state_at_int_max : gradient_animation_state :=
  { sample_state with
    current_interpolation_step := 2147483647
    palette_total_steps := 2147483647 }

theorem and_ff (x : Nat) : x &&& 0xFF = x % 256 :=
  Nat.and_pow_two_sub_one_eq_mod x 8

theorem shl_or_eq_add (a x k : Nat) (h : x < 2 ^ k) : a <<< k ||| x = a * 2 ^ k + x := by
  rw [Nat.shiftLeft_eq, Nat.mul_comm, ← Nat.mul_add_lt_is_or h]

theorem pack_eq_add (a r g b : Nat) (hr : r < 256) (hg : g < 256) (hb : b < 256) :
    (a <<< 24) ||| (r <<< 16) ||| (g <<< 8) ||| b
      = a * 2 ^ 24 + r * 2 ^ 16 + g * 2 ^ 8 + b := by
  rw [Nat.lor_assoc, Nat.lor_assoc, shl_or_eq_add g b 8 (by omega),
    shl_or_eq_add r _ 16 (by omega), shl_or_eq_add a _ 24 (by omega)]
  omega

theorem alphaOf_lt (c : Nat) : alphaOf c < 256 := by
  unfold alphaOf; rw [and_ff]; omega

theorem redOf_lt (c : Nat) : redOf c < 256 := by
  unfold redOf; rw [and_ff]; omega

theorem greenOf_lt (c : Nat) : greenOf c < 256 := by
  unfold greenOf; rw [and_ff]; omega

theorem blueOf_lt (c : Nat) : blueOf c < 256 := by
  unfold blueOf; rw [and_ff]; omega

theorem double_to_uint8_lt (v : ℚ) : double_to_uint8 v < 256 := by
  unfold double_to_uint8
  omega

theorem interpolate_channel_lt (c1 c2 : Nat) (step max_steps : Int)
    (h1 : c1 < 256) (h2 : c2 < 256) : interpolate_channel c1 c2 step max_steps < 256 := by
  unfold interpolate_channel
  split_ifs
  · exact h1
  · exact h2
  · exact double_to_uint8_lt _

theorem finalAlpha_lt (c : Nat) : finalAlpha c < 256 := by
  unfold finalAlpha
  have := alphaOf_lt c
  split_ifs <;> omega

/-- The packed result of `interpolate_color_value` as a sum of its four bytes. -/
theorem interpolate_color_value_eq (cf ct : Nat) (step N : Int) :
    interpolate_color_value cf ct step N
      = finalAlpha cf * 2 ^ 24
        + interpolate_channel (redOf cf) (redOf ct) step N * 2 ^ 16
        + interpolate_channel (greenOf cf) (greenOf ct) step N * 2 ^ 8
        + interpolate_channel (blueOf cf) (blueOf ct) step N := by
  have hr := interpolate_channel_lt (redOf cf) (redOf ct) step N (redOf_lt _) (redOf_lt _)
  have hg := interpolate_channel_lt (greenOf cf) (greenOf ct) step N (greenOf_lt _) (greenOf_lt _)
  have hb := interpolate_channel_lt (blueOf cf) (blueOf ct) step N (blueOf_lt _) (blueOf_lt _)
  have ha := finalAlpha_lt cf
  have key := pack_eq_add (finalAlpha cf) _ _ _ hr hg hb
  unfold interpolate_color_value
  simp only [Nat.shiftRight_zero]
  unfold finalAlpha alphaOf redOf greenOf blueOf at *
  rw [key]
  omega

theorem alphaOf_pack (a r g b : Nat) (ha : a < 256) (hr : r < 256) (hg : g < 256)
    (hb : b < 256) : alphaOf (a * 2 ^ 24 + r * 2 ^ 16 + g * 2 ^ 8 + b) = a := by
  unfold alphaOf; rw [and_ff, Nat.shiftRight_eq_div_pow]; omega

theorem redOf_pack (a r g b : Nat) (hr : r < 256) (hg : g < 256)
    (hb : b < 256) : redOf (a * 2 ^ 24 + r * 2 ^ 16 + g * 2 ^ 8 + b) = r := by
  unfold redOf; rw [and_ff, Nat.shiftRight_eq_div_pow]; omega

theorem greenOf_pack (a r g b : Nat) (hg : g < 256)
    (hb : b < 256) : greenOf (a * 2 ^ 24 + r * 2 ^ 16 + g * 2 ^ 8 + b) = g := by
  unfold greenOf; rw [and_ff, Nat.shiftRight_eq_div_pow]; omega

theorem blueOf_pack (a r g b : Nat)
    (hb : b < 256) : blueOf (a * 2 ^ 24 + r * 2 ^ 16 + g * 2 ^ 8 + b) = b := by
  unfold blueOf; rw [and_ff]; omega

theorem unpack_pack (c : Nat) (hc : c < 2 ^ 32) :
    alphaOf c * 2 ^ 24 + redOf c * 2 ^ 16 + greenOf c * 2 ^ 8 + blueOf c = c := by
  unfold alphaOf redOf greenOf blueOf
  simp only [and_ff, Nat.shiftRight_eq_div_pow]
  omega

theorem alphaOf_interpolate (cf ct : Nat) (step N : Int) :
    alphaOf (interpolate_color_value cf ct step N) = finalAlpha cf := by
  rw [interpolate_color_value_eq]
  exact alphaOf_pack _ _ _ _ (finalAlpha_lt _)
    (interpolate_channel_lt _ _ _ _ (redOf_lt _) (redOf_lt _))
    (interpolate_channel_lt _ _ _ _ (greenOf_lt _) (greenOf_lt _))
    (interpolate_channel_lt _ _ _ _ (blueOf_lt _) (blueOf_lt _))

theorem redOf_interpolate (cf ct : Nat) (step N : Int) :
    redOf (interpolate_color_value cf ct step N)
      = interpolate_channel (redOf cf) (redOf ct) step N := by
  rw [interpolate_color_value_eq]
  exact redOf_pack _ _ _ _
    (interpolate_channel_lt _ _ _ _ (redOf_lt _) (redOf_lt _))
    (interpolate_channel_lt _ _ _ _ (greenOf_lt _) (greenOf_lt _))
    (interpolate_channel_lt _ _ _ _ (blueOf_lt _) (blueOf_lt _))

theorem greenOf_interpolate (cf ct : Nat) (step N : Int) :
    greenOf (interpolate_color_value cf ct step N)
      = interpolate_channel (greenOf cf) (greenOf ct) step N := by
  rw [interpolate_color_value_eq]
  exact greenOf_pack _ _ _ _
    (interpolate_channel_lt _ _ _ _ (greenOf_lt _) (greenOf_lt _))
    (interpolate_channel_lt _ _ _ _ (blueOf_lt _) (blueOf_lt _))

theorem blueOf_interpolate (cf ct : Nat) (step N : Int) :
    blueOf (interpolate_color_value cf ct step N)
      = interpolate_channel (blueOf cf) (blueOf ct) step N := by
  rw [interpolate_color_value_eq]
  exact blueOf_pack _ _ _ _
    (interpolate_channel_lt _ _ _ _ (blueOf_lt _) (blueOf_lt _))

theorem interpolate_channel_self (c : Nat) (step N : Int) (hc : c < 256) :
    interpolate_channel c c step N = c := by
  unfold interpolate_channel
  split_ifs
  · rfl
  · rfl
  · unfold double_to_uint8
    have h0 : (0 : ℚ) ≤ (c : ℚ) + (((c : Int) - (c : Int) : Int) : ℚ) * (step : ℚ) / (N : ℚ) + 1 / 2 := by
      have : (0 : ℚ) ≤ (c : ℚ) := Nat.cast_nonneg c
      simp only [sub_self, Int.cast_zero, zero_mul, zero_div, add_zero]
      linarith
    rw [if_pos h0]
    have hf : ⌊(c : ℚ) + (((c : Int) - (c : Int) : Int) : ℚ) * (step : ℚ) / (N : ℚ) + 1 / 2⌋
        = (c : Int) := by
      rw [Int.floor_eq_iff]
      simp only [sub_self, Int.cast_zero, zero_mul, zero_div, add_zero, Int.cast_natCast]
      constructor <;> linarith
    rw [hf]
    omega

/-- C1, as stated, fails: with a transparent source colour step 0 does not return the
source colour, and at the last step the result keeps the source alpha, not the target's. -/
theorem interpolate_endpoints_not_exact :
    interpolate_color_value 0x00112233 0x80445566 0 4 ≠ 0x00112233
      ∧ interpolate_color_value 0x00112233 0x80445566 4 4 ≠ 0x80445566 := by
  decide

/-- C1 (amended): for 32-bit packed colours, at `step ≤ 0` the result carries the red,
green and blue bytes of `color_from` and at `0 < step`, `step ≥ max_steps` those of
`color_to`, exactly; in both cases the alpha byte is the one of `color_from`, or `0xFF`
when that is zero.  So the result is `color_from` itself at `step ≤ 0` when its alpha is
non-zero, and `color_to` itself at the last step when moreover both alphas agree. -/
theorem interpolate_endpoints (c1 c2 : Nat) (step N : Int)
    (h1 : c1 < 2 ^ 32) (h2 : c2 < 2 ^ 32) :
    (step ≤ 0 → interpolate_color_value c1 c2 step N
        = finalAlpha c1 * 2 ^ 24 + redOf c1 * 2 ^ 16 + greenOf c1 * 2 ^ 8 + blueOf c1)
    ∧ (0 < step → N ≤ step → interpolate_color_value c1 c2 step N
        = finalAlpha c1 * 2 ^ 24 + redOf c2 * 2 ^ 16 + greenOf c2 * 2 ^ 8 + blueOf c2)
    ∧ (step ≤ 0 → alphaOf c1 ≠ 0 → interpolate_color_value c1 c2 step N = c1)
    ∧ (0 < step → N ≤ step → alphaOf c1 ≠ 0 → alphaOf c2 = alphaOf c1 →
        interpolate_color_value c1 c2 step N = c2) := by
  have lo : step ≤ 0 → interpolate_color_value c1 c2 step N
        = finalAlpha c1 * 2 ^ 24 + redOf c1 * 2 ^ 16 + greenOf c1 * 2 ^ 8 + blueOf c1 := by
    intro hs
    rw [interpolate_color_value_eq]
    simp only [interpolate_channel, if_pos hs]
  have hi : 0 < step → N ≤ step → interpolate_color_value c1 c2 step N
        = finalAlpha c1 * 2 ^ 24 + redOf c2 * 2 ^ 16 + greenOf c2 * 2 ^ 8 + blueOf c2 := by
    intro hs hN
    rw [interpolate_color_value_eq]
    simp only [interpolate_channel, if_neg (not_le.mpr hs), if_pos (ge_iff_le.mpr hN)]
  refine ⟨lo, hi, ?_, ?_⟩
  · intro hs ha
    rw [lo hs]
    unfold finalAlpha
    rw [if_neg ha]
    exact unpack_pack c1 h1
  · intro hs hN ha hEq
    rw [hi hs hN]
    unfold finalAlpha
    rw [if_neg ha, ← hEq]
    exact unpack_pack c2 h2

/-- Witness for `interpolate_endpoints`: opaque red to half-transparent blue over four
steps returns the endpoints' colour bytes with the source alpha. -/
theorem interpolate_endpoints_witness :
    (0xFFFF0000 < 2 ^ 32 ∧ 0x800000FF < 2 ^ 32)
      ∧ interpolate_color_value 0xFFFF0000 0x800000FF 0 4 = 0xFFFF0000
      ∧ interpolate_color_value 0xFFFF0000 0x800000FF 4 4
          = finalAlpha 0xFFFF0000 * 2 ^ 24 + redOf 0x800000FF * 2 ^ 16
            + greenOf 0x800000FF * 2 ^ 8 + blueOf 0x800000FF :=
  ⟨by decide,
   (interpolate_endpoints 0xFFFF0000 0x800000FF 0 4 (by decide) (by decide)).2.2.1
     (by decide) (by decide),
   (interpolate_endpoints 0xFFFF0000 0x800000FF 4 4 (by decide) (by decide)).2.1
     (by decide) (by decide)⟩

/-- C2, as stated, fails: a colour whose alpha byte is zero is not returned unchanged. -/
theorem interpolate_self_not_identity :
    interpolate_color_value 0x00112233 0x00112233 1 2 ≠ 0x00112233 := by
  rw [interpolate_color_value_eq]
  rw [interpolate_channel_self _ _ _ (redOf_lt _), interpolate_channel_self _ _ _ (greenOf_lt _),
    interpolate_channel_self _ _ _ (blueOf_lt _)]
  decide

/-- C2 (amended): interpolating a 32-bit packed colour to itself returns it, for all
`step` and `max_steps`, when its alpha byte is non-zero; when the alpha byte is zero the
red, green and blue bytes are still returned unchanged and the alpha byte becomes `0xFF`. -/
theorem interpolate_self (c : Nat) (step N : Int) (hc : c < 2 ^ 32) :
    (alphaOf c ≠ 0 → interpolate_color_value c c step N = c)
    ∧ (alphaOf c = 0 → interpolate_color_value c c step N = 0xFF000000 + c) := by
  have key : interpolate_color_value c c step N
      = finalAlpha c * 2 ^ 24 + redOf c * 2 ^ 16 + greenOf c * 2 ^ 8 + blueOf c := by
    rw [interpolate_color_value_eq, interpolate_channel_self _ _ _ (redOf_lt _),
      interpolate_channel_self _ _ _ (greenOf_lt _), interpolate_channel_self _ _ _ (blueOf_lt _)]
  have hu := unpack_pack c hc
  constructor
  · intro ha
    rw [key]
    unfold finalAlpha
    rw [if_neg ha]
    exact hu
  · intro ha
    rw [key]
    unfold finalAlpha
    rw [if_pos ha]
    rw [ha] at hu
    omega

/-- Witness for `interpolate_self`: opaque orange stays itself in the middle of a
transition, and transparent orange comes back opaque. -/
theorem interpolate_self_witness :
    (0xFFFF8000 < 2 ^ 32 ∧ 0x00FF8000 < 2 ^ 32)
      ∧ interpolate_color_value 0xFFFF8000 0xFFFF8000 3 10 = 0xFFFF8000
      ∧ interpolate_color_value 0x00FF8000 0x00FF8000 3 10 = 0xFF000000 + 0x00FF8000 :=
  ⟨by decide,
   (interpolate_self 0xFFFF8000 3 10 (by decide)).1 (by decide),
   (interpolate_self 0x00FF8000 3 10 (by decide)).2 (by decide)⟩

theorem lerp_frac_bounds (s N : Int) (hN : 0 < N) (h0 : 0 ≤ s) (hs : s ≤ N) :
    (0 : ℚ) ≤ (s : ℚ) / (N : ℚ) ∧ (s : ℚ) / (N : ℚ) ≤ 1 := by
  have hN' : (0 : ℚ) < (N : ℚ) := by exact_mod_cast hN
  have h0' : (0 : ℚ) ≤ (s : ℚ) := by exact_mod_cast h0
  have hs' : (s : ℚ) ≤ (N : ℚ) := by exact_mod_cast hs
  exact ⟨div_nonneg h0' hN'.le, (div_le_one hN').mpr hs'⟩

theorem lerp_bounds (a b : Nat) (s N : Int) (hN : 0 < N) (h0 : 0 ≤ s) (hs : s ≤ N) :
    (min a b : ℚ) + 1 / 2 ≤ lerp a b s N ∧ lerp a b s N ≤ (max a b : ℚ) + 1 / 2 := by
  obtain ⟨f0, f1⟩ := lerp_frac_bounds s N hN h0 hs
  unfold lerp
  rw [mul_div_assoc]
  rcases le_total (a : ℚ) (b : ℚ) with hab | hab
  · rw [min_eq_left hab, max_eq_right hab]
    constructor <;> nlinarith
  · rw [min_eq_right hab, max_eq_left hab]
    constructor <;> nlinarith

theorem floor_lerp_bounds (a b : Nat) (s N : Int) (hN : 0 < N) (h0 : 0 ≤ s) (hs : s ≤ N) :
    ((min a b : Nat) : Int) ≤ ⌊lerp a b s N⌋ ∧ ⌊lerp a b s N⌋ ≤ ((max a b : Nat) : Int) := by
  obtain ⟨l, u⟩ := lerp_bounds a b s N hN h0 hs
  constructor
  · rw [Int.le_floor]
    push_cast
    linarith
  · have : ⌊lerp a b s N⌋ < ((max a b : Nat) : Int) + 1 := by
      rw [Int.floor_lt]
      push_cast
      linarith
    omega

theorem interpolate_channel_closed (a b : Nat) (s N : Int) (ha : a < 256) (hb : b < 256)
    (hN : 0 < N) (h0 : 0 ≤ s) (hs : s ≤ N) :
    (interpolate_channel a b s N : Int) = ⌊lerp a b s N⌋ := by
  unfold interpolate_channel
  split_ifs with h1 h2
  · have : s = 0 := le_antisymm h1 h0
    subst this
    symm
    rw [Int.floor_eq_iff]
    unfold lerp
    simp only [Int.cast_zero, mul_zero, zero_div, add_zero, Int.cast_natCast]
    constructor <;> linarith
  · have : s = N := le_antisymm hs h2
    subst this
    symm
    rw [Int.floor_eq_iff]
    unfold lerp
    have hN' : (s : ℚ) ≠ 0 := by exact_mod_cast hN.ne'
    rw [mul_div_assoc, div_self hN']
    simp only [Int.cast_natCast]
    constructor <;> linarith
  · obtain ⟨l, u⟩ := floor_lerp_bounds a b s N hN h0 hs
    obtain ⟨l', _⟩ := lerp_bounds a b s N hN h0 hs
    have e : (a : ℚ) + (((b : Int) - (a : Int) : Int) : ℚ) * (s : ℚ) / (N : ℚ) + 1 / 2
        = lerp a b s N := by
      unfold lerp; push_cast; ring
    rw [e]
    unfold double_to_uint8
    have hpos : (0 : ℚ) ≤ lerp a b s N := by
      have : (0 : ℚ) ≤ (min a b : ℚ) := by positivity
      linarith
    rw [if_pos hpos]
    have hmax : max a b < 256 := max_lt ha hb
    omega

theorem lerp_mono (a b : Nat) (s t N : Int) (hN : 0 < N) (hst : s ≤ t) :
    ((a : ℚ) ≤ (b : ℚ) → lerp a b s N ≤ lerp a b t N)
      ∧ ((b : ℚ) ≤ (a : ℚ) → lerp a b t N ≤ lerp a b s N) := by
  have hN' : (0 : ℚ) < (N : ℚ) := by exact_mod_cast hN
  have hst' : (s : ℚ) ≤ (t : ℚ) := by exact_mod_cast hst
  have hq : (s : ℚ) / (N : ℚ) ≤ (t : ℚ) / (N : ℚ) := div_le_div_of_nonneg_right hst' hN'.le
  unfold lerp
  rw [mul_div_assoc, mul_div_assoc]
  constructor <;> intro hab <;> nlinarith

theorem interpolate_channel_progress (a b : Nat) (s t N : Int) (ha : a < 256) (hb : b < 256)
    (hN : 0 < N) (h0 : 0 ≤ s) (hst : s < t) (htN : t ≤ N) :
    NoOvershootCloser a b (interpolate_channel a b s N) (interpolate_channel a b t N) := by
  have hs := interpolate_channel_closed a b s N ha hb hN h0 (by omega)
  have ht := interpolate_channel_closed a b t N ha hb hN (by omega) htN
  obtain ⟨ls, us⟩ := floor_lerp_bounds a b s N hN h0 (by omega)
  obtain ⟨lt, ut⟩ := floor_lerp_bounds a b t N hN (by omega) htN
  obtain ⟨mi, md⟩ := lerp_mono a b s t N hN hst.le
  rw [← hs] at ls us
  rw [← ht] at lt ut
  have cmp : (a ≤ b → (interpolate_channel a b s N : Int) ≤ interpolate_channel a b t N)
      ∧ (b ≤ a → (interpolate_channel a b t N : Int) ≤ interpolate_channel a b s N) := by
    rw [hs, ht]
    constructor
    · intro hab
      exact Int.floor_le_floor (mi (by exact_mod_cast hab))
    · intro hab
      exact Int.floor_le_floor (md (by exact_mod_cast hab))
  unfold NoOvershootCloser
  refine ⟨⟨by exact_mod_cast ls, by exact_mod_cast us⟩,
    ⟨by exact_mod_cast lt, by exact_mod_cast ut⟩, ?_⟩
  rcases le_total a b with hab | hab
  · have c := cmp.1 hab
    rw [max_eq_right hab] at us ut
    rw [abs_of_nonpos (by omega), abs_of_nonpos (by omega)]
    omega
  · have c := cmp.2 hab
    rw [min_eq_right hab] at ls lt
    rw [abs_of_nonneg (by omega), abs_of_nonneg (by omega)]
    omega

/-- C3: for `0 ≤ s < t ≤ N`, each of the red, green and blue bytes of the blends at steps
`s` and `t` lies between the corresponding bytes of the two colours (no overshoot), and
the byte at step `t` is at least as close to the target's byte as the byte at step `s`. -/
theorem interpolate_monotone_no_overshoot (c1 c2 : Nat) (N s t : Int)
    (hN : 0 < N) (h0 : 0 ≤ s) (hst : s < t) (htN : t ≤ N) :
    NoOvershootCloser (redOf c1) (redOf c2)
        (redOf (interpolate_color_value c1 c2 s N)) (redOf (interpolate_color_value c1 c2 t N))
      ∧ NoOvershootCloser (greenOf c1) (greenOf c2)
        (greenOf (interpolate_color_value c1 c2 s N))
        (greenOf (interpolate_color_value c1 c2 t N))
      ∧ NoOvershootCloser (blueOf c1) (blueOf c2)
        (blueOf (interpolate_color_value c1 c2 s N))
        (blueOf (interpolate_color_value c1 c2 t N)) := by
  simp only [redOf_interpolate, greenOf_interpolate, blueOf_interpolate]
  exact ⟨interpolate_channel_progress _ _ s t N (redOf_lt _) (redOf_lt _) hN h0 hst htN,
    interpolate_channel_progress _ _ s t N (greenOf_lt _) (greenOf_lt _) hN h0 hst htN,
    interpolate_channel_progress _ _ s t N (blueOf_lt _) (blueOf_lt _) hN h0 hst htN⟩

/-- Witness for `interpolate_monotone_no_overshoot`: steps 1 and 3 of 4 between an
orange and a blue. -/
theorem interpolate_monotone_no_overshoot_witness :
    ((0 : Int) < 4 ∧ (0 : Int) ≤ 1 ∧ (1 : Int) < 3 ∧ (3 : Int) ≤ 4)
      ∧ NoOvershootCloser (redOf 0xFFFF8000) (redOf 0xFF0000FF)
        (redOf (interpolate_color_value 0xFFFF8000 0xFF0000FF 1 4))
        (redOf (interpolate_color_value 0xFFFF8000 0xFF0000FF 3 4))
      ∧ NoOvershootCloser (greenOf 0xFFFF8000) (greenOf 0xFF0000FF)
        (greenOf (interpolate_color_value 0xFFFF8000 0xFF0000FF 1 4))
        (greenOf (interpolate_color_value 0xFFFF8000 0xFF0000FF 3 4))
      ∧ NoOvershootCloser (blueOf 0xFFFF8000) (blueOf 0xFF0000FF)
        (blueOf (interpolate_color_value 0xFFFF8000 0xFF0000FF 1 4))
        (blueOf (interpolate_color_value 0xFFFF8000 0xFF0000FF 3 4)) :=
  ⟨by decide,
   interpolate_monotone_no_overshoot 0xFFFF8000 0xFF0000FF 4 1 3
     (by decide) (by decide) (by decide) (by decide)⟩

theorem isxdigit_codes (c : Nat) (h : isxdigit c = true) :
    (48 ≤ c ∧ c ≤ 57) ∨ (97 ≤ c ∧ c ≤ 102) ∨ (65 ≤ c ∧ c ≤ 70) := by
  unfold isxdigit at h
  simpa using h

theorem strtoul_digit_of_isxdigit (c : Nat) (h : isxdigit c = true) :
    strtoul_digit c = some (hex_char_to_int c).toNat
      ∧ 0 ≤ hex_char_to_int c ∧ hex_char_to_int c < 16 := by
  have hc := isxdigit_codes c h
  unfold strtoul_digit hex_char_to_int tolower
  simp only [Char.reduceToNat, ge_iff_le]
  rcases hc with hc | hc | hc
  · have e1 : ¬ (65 ≤ c ∧ c ≤ 90) := by omega
    have e2 : (48 ≤ c ∧ c ≤ 57) := hc
    simp only [e1, e2, if_false, if_true, and_self]
    refine ⟨?_, by omega, by omega⟩
    congr 1; omega
  · have e1 : ¬ (65 ≤ c ∧ c ≤ 90) := by omega
    have e2 : ¬ (48 ≤ c ∧ c ≤ 57) := by omega
    have e3 : (97 ≤ c ∧ c ≤ 102) := hc
    simp only [e1, e2, e3, if_false, if_true, and_self]
    refine ⟨?_, by omega, by omega⟩
    congr 1; omega
  · have e1 : (65 ≤ c ∧ c ≤ 90) := by omega
    have e2 : ¬ (48 ≤ c ∧ c ≤ 57) := by omega
    have e3 : ¬ (97 ≤ c ∧ c ≤ 102) := by omega
    have e4 : ¬ (48 ≤ c + 32 ∧ c + 32 ≤ 57) := by omega
    have e5 : (97 ≤ c + 32 ∧ c + 32 ≤ 102) := by omega
    have e6 : (65 ≤ c ∧ c ≤ 70) := hc
    simp only [e1, e2, e3, e4, e5, e6, if_false, if_true, and_self]
    refine ⟨?_, by omega, by omega⟩
    congr 1; omega

theorem strtoul_digits_hex (s : List Nat) (hall : ∀ c ∈ s, isxdigit c = true) (acc : Nat) :
    strtoul_digits acc s = (digitsValue acc s, []) := by
  induction s generalizing acc with
  | nil => rfl
  | cons c t ih =>
    have hc := (strtoul_digit_of_isxdigit c (hall c (List.mem_cons_self c t))).1
    have ht : ∀ d ∈ t, isxdigit d = true := fun d hd => hall d (List.mem_cons_of_mem c hd)
    simp only [strtoul_digits, hc, digitsValue, List.foldl_cons]
    exact ih ht _

theorem digitsValue_lt (s : List Nat) (hall : ∀ c ∈ s, isxdigit c = true) (acc : Nat) :
    digitsValue acc s < (acc + 1) * 16 ^ s.length := by
  induction s generalizing acc with
  | nil => simp [digitsValue]
  | cons c t ih =>
    have hc := strtoul_digit_of_isxdigit c (hall c (List.mem_cons_self c t))
    have ht : ∀ d ∈ t, isxdigit d = true := fun d hd => hall d (List.mem_cons_of_mem c hd)
    have h1 := ih ht (acc * 16 + (hex_char_to_int c).toNat)
    simp only [digitsValue, List.foldl_cons, List.length_cons] at h1 ⊢
    have h2 : acc * 16 + (hex_char_to_int c).toNat + 1 ≤ (acc + 1) * 16 := by omega
    calc _ < (acc * 16 + (hex_char_to_int c).toNat + 1) * 16 ^ t.length := h1
      _ ≤ ((acc + 1) * 16) * 16 ^ t.length := Nat.mul_le_mul_right _ h2
      _ = (acc + 1) * 16 ^ (t.length + 1) := by ring

theorem digitsValue_cast (s : List Nat) (hall : ∀ c ∈ s, isxdigit c = true) (acc : Nat) :
    (digitsValue acc s : Int) = s.foldl (fun a c => 16 * a + hex_char_to_int c) (acc : Int) := by
  induction s generalizing acc with
  | nil => rfl
  | cons c t ih =>
    have hc := strtoul_digit_of_isxdigit c (hall c (List.mem_cons_self c t))
    have ht : ∀ d ∈ t, isxdigit d = true := fun d hd => hall d (List.mem_cons_of_mem c hd)
    have h1 := ih ht (acc * 16 + (hex_char_to_int c).toNat)
    simp only [digitsValue, List.foldl_cons] at h1 ⊢
    rw [h1]
    congr 1
    push_cast
    omega

theorem isxdigit_not_special (c : Nat) (h : isxdigit c = true) :
    isspace c = false ∧ c ≠ 45 ∧ c ≠ 43 ∧ c ≠ 120 ∧ c ≠ 88 := by
  have hc := isxdigit_codes c h
  refine ⟨?_, by omega, by omega, by omega, by omega⟩
  unfold isspace
  simp only [Char.reduceToNat, Bool.decide_or, Bool.decide_and, Bool.or_eq_false_iff,
    decide_eq_false_iff_not, Bool.and_eq_false_imp, decide_eq_true_eq]
  omega

/-- On a non-empty string of at most 16 hex digits `strtoul` reads the whole string and
returns its base-16 value. -/
theorem strtoul16_hex (s : List Nat) (hne : s ≠ []) (hall : ∀ c ∈ s, isxdigit c = true)
    (hlen : s.length ≤ 16) : strtoul16 s = (digitsValue 0 s, []) := by
  have hv := digitsValue_lt s hall 0
  have hpow : 16 ^ s.length ≤ 16 ^ 16 := Nat.pow_le_pow_right (by omega) hlen
  match s, hne with
  | c :: t, _ =>
    obtain ⟨hsp, hm, hp, _, _⟩ := isxdigit_not_special c (hall c (List.mem_cons_self c t))
    have hd := (strtoul_digit_of_isxdigit c (hall c (List.mem_cons_self c t))).1
    have hs3 : (match c :: t with
        | z :: x :: d :: r =>
          if z = '0'.toNat ∧ (x = 'x'.toNat ∨ x = 'X'.toNat) ∧ (strtoul_digit d).isSome
          then d :: r else c :: t
        | _ => c :: t) = c :: t := by
      match t with
      | [] => rfl
      | [_] => rfl
      | x :: d :: r =>
        obtain ⟨_, _, _, hx1, hx2⟩ := isxdigit_not_special x (hall x (by simp))
        simp [hx1, hx2]
    unfold strtoul16
    simp only [List.dropWhile_cons, hsp, Char.reduceToNat, hm, hp, if_false, Bool.false_eq_true]
    simp only [Char.reduceToNat] at hs3
    rw [hs3]
    simp only [hd, Option.isNone_some, Bool.false_eq_true, if_false,
      strtoul_digits_hex (c :: t) hall 0]
    have : ¬ digitsValue 0 (c :: t) > ULONG_MAX := by
      unfold ULONG_MAX
      simp only [zero_add, one_mul] at hv
      have : (16 : Nat) ^ 16 = 2 ^ 64 := by norm_num
      omega
    simp only [this, if_false]

/-- The four bytes of the value of eight base-16 digits are the values of its digit pairs. -/
theorem eight_digits_bytes (V d1 d2 d3 d4 d5 d6 d7 d8 : Nat)
    (hV : V = (((((((0 * 16 + d1) * 16 + d2) * 16 + d3) * 16 + d4) * 16 + d5) * 16 + d6) * 16
      + d7) * 16 + d8)
    (h1 : d1 < 16) (h2 : d2 < 16) (h3 : d3 < 16)
    (h4 : d4 < 16) (h5 : d5 < 16) (h6 : d6 < 16) (h7 : d7 < 16) (h8 : d8 < 16) :
    V % 2 ^ 32 / 2 ^ 24 % 256 = 16 * d1 + d2 ∧ V % 2 ^ 32 / 2 ^ 16 % 256 = 16 * d3 + d4
      ∧ V % 2 ^ 32 / 2 ^ 8 % 256 = 16 * d5 + d6 ∧ V % 2 ^ 32 % 256 = 16 * d7 + d8 := by
  have hV2 : V = d1 * 268435456 + d2 * 16777216 + d3 * 1048576 + d4 * 65536 + d5 * 4096
      + d6 * 256 + d7 * 16 + d8 := by
    rw [hV]; ring
  rw [hV2]
  norm_num only
  refine ⟨?_, ?_, ?_, ?_⟩ <;> omega

/-- C4: every string of exactly 8 hex digits (either case) is accepted, and the alpha,
red, green and blue bytes of the decoded colour are the values of its 1st, 2nd, 3rd and
4th digit pairs (`AARRGGBB`). -/
theorem hex8_decodes_AARRGGBB (a1 a2 r1 r2 g1 g2 b1 b2 : Nat)
    (h : ∀ c ∈ [a1, a2, r1, r2, g1, g2, b1, b2], isxdigit c = true) :
    ∃ v, hex_string_to_uint32 [a1, a2, r1, r2, g1, g2, b1, b2] = some v
      ∧ (alphaOf v : Int) = 16 * hex_char_to_int a1 + hex_char_to_int a2
      ∧ (redOf v : Int) = 16 * hex_char_to_int r1 + hex_char_to_int r2
      ∧ (greenOf v : Int) = 16 * hex_char_to_int g1 + hex_char_to_int g2
      ∧ (blueOf v : Int) = 16 * hex_char_to_int b1 + hex_char_to_int b2 := by
  have hp := strtoul16_hex [a1, a2, r1, r2, g1, g2, b1, b2] (by simp) h (by simp)
  have e1 := strtoul_digit_of_isxdigit a1 (h a1 (by simp))
  have e2 := strtoul_digit_of_isxdigit a2 (h a2 (by simp))
  have e3 := strtoul_digit_of_isxdigit r1 (h r1 (by simp))
  have e4 := strtoul_digit_of_isxdigit r2 (h r2 (by simp))
  have e5 := strtoul_digit_of_isxdigit g1 (h g1 (by simp))
  have e6 := strtoul_digit_of_isxdigit g2 (h g2 (by simp))
  have e7 := strtoul_digit_of_isxdigit b1 (h b1 (by simp))
  have e8 := strtoul_digit_of_isxdigit b2 (h b2 (by simp))
  have hlen : toInt32 (([a1, a2, r1, r2, g1, g2, b1, b2] : List Nat).length : Int) = 8 := by
    simp only [List.length_cons, List.length_nil]
    decide
  refine ⟨digitsValue 0 [a1, a2, r1, r2, g1, g2, b1, b2] % 2 ^ 32, ?_, ?_⟩
  · unfold hex_string_to_uint32
    rw [hp]
    dsimp only
    rw [if_pos hlen, if_neg (by simp)]
  · have hV : digitsValue 0 [a1, a2, r1, r2, g1, g2, b1, b2]
        = (((((((0 * 16 + (hex_char_to_int a1).toNat) * 16 + (hex_char_to_int a2).toNat) * 16
          + (hex_char_to_int r1).toNat) * 16 + (hex_char_to_int r2).toNat) * 16
          + (hex_char_to_int g1).toNat) * 16 + (hex_char_to_int g2).toNat) * 16
          + (hex_char_to_int b1).toNat) * 16 + (hex_char_to_int b2).toNat := rfl
    obtain ⟨k1, k2, k3, k4⟩ := eight_digits_bytes _ _ _ _ _ _ _ _ _ hV
      (by omega) (by omega) (by omega) (by omega) (by omega) (by omega) (by omega) (by omega)
    unfold alphaOf redOf greenOf blueOf
    rw [and_ff, and_ff, and_ff, and_ff, Nat.shiftRight_eq_div_pow, Nat.shiftRight_eq_div_pow,
      Nat.shiftRight_eq_div_pow, k1, k2, k3, k4]
    push_cast
    rw [Int.toNat_of_nonneg e1.2.1, Int.toNat_of_nonneg e2.2.1, Int.toNat_of_nonneg e3.2.1,
      Int.toNat_of_nonneg e4.2.1, Int.toNat_of_nonneg e5.2.1, Int.toNat_of_nonneg e6.2.1,
      Int.toNat_of_nonneg e7.2.1, Int.toNat_of_nonneg e8.2.1]
    exact ⟨rfl, rfl, rfl, rfl⟩

/-- Witness for `hex8_decodes_AARRGGBB`: the string `80FfaA01`. -/
theorem hex8_decodes_AARRGGBB_witness :
    ∃ v, hex_string_to_uint32 [56, 48, 70, 102, 97, 65, 48, 49] = some v
      ∧ (alphaOf v : Int) = 16 * hex_char_to_int 56 + hex_char_to_int 48
      ∧ (redOf v : Int) = 16 * hex_char_to_int 70 + hex_char_to_int 102
      ∧ (greenOf v : Int) = 16 * hex_char_to_int 97 + hex_char_to_int 65
      ∧ (blueOf v : Int) = 16 * hex_char_to_int 48 + hex_char_to_int 49 :=
  hex8_decodes_AARRGGBB 56 48 70 102 97 65 48 49 (by decide)

/-- C5: every string of exactly 6 hex digits (either case) is accepted, the decoded
colour has alpha byte `0xFF`, and its low 24 bits are the value of the string read as
`RRGGBB`. -/
theorem hex6_decodes_opaque (s : List Nat) (hlen : s.length = 6)
    (h : ∀ c ∈ s, isxdigit c = true) :
    ∃ v, hex_string_to_uint32 s = some v ∧ alphaOf v = 0xFF
      ∧ ((v % 2 ^ 24 : Nat) : Int) = hexValue s := by
  have hne : s ≠ [] := by
    intro h0; rw [h0] at hlen; simp at hlen
  have hp := strtoul16_hex s hne h (by omega)
  have hv := digitsValue_lt s h 0
  rw [hlen] at hv
  have hcast := digitsValue_cast s h 0
  have hl : toInt32 (s.length : Int) ≠ 8 ∧ toInt32 (s.length : Int) = 6 := by
    rw [hlen]; decide
  have hor : 0xFF000000 ||| (digitsValue 0 s % 2 ^ 32) = 255 * 2 ^ 24 + digitsValue 0 s := by
    have := shl_or_eq_add 255 (digitsValue 0 s % 2 ^ 32) 24 (by omega)
    have e : (255 : Nat) <<< 24 = 0xFF000000 := by decide
    rw [e] at this
    rw [this]
    omega
  refine ⟨255 * 2 ^ 24 + digitsValue 0 s, ?_, ?_, ?_⟩
  · unfold hex_string_to_uint32
    rw [hp]
    dsimp only
    rw [if_neg hl.1, if_pos hl.2, if_neg (by simp), hor]
    congr 1
    omega
  · unfold alphaOf
    rw [and_ff, Nat.shiftRight_eq_div_pow]
    omega
  · unfold hexValue
    rw [Nat.cast_zero] at hcast
    rw [← hcast]
    congr 1
    omega

/-- Witness for `hex6_decodes_opaque`: the string `ff00A0`. -/
theorem hex6_decodes_opaque_witness :
    ([102, 102, 48, 48, 65, 48] : List Nat).length = 6
      ∧ ∃ v, hex_string_to_uint32 [102, 102, 48, 48, 65, 48] = some v ∧ alphaOf v = 0xFF
        ∧ ((v % 2 ^ 24 : Nat) : Int) = hexValue [102, 102, 48, 48, 65, 48] :=
  ⟨by decide, hex6_decodes_opaque [102, 102, 48, 48, 65, 48] (by decide) (by decide)⟩

/-- C6: the decoder does not reject every string with a non-hex character: a `0x`
prefix, a sign or leading white space is accepted by `strtoul`, so these strings of length
6 and 8, each holding a character that is not a hex digit, are decoded to a colour. -/
theorem hex_decoder_accepts_prefix_sign_space :
    hex_string_to_uint32 (cstr "0x1234") = some 0xFF001234
      ∧ hex_string_to_uint32 (cstr "0XABCDEF") = some 0x00ABCDEF
      ∧ hex_string_to_uint32 (cstr "-12345") = some 0xFFFEDCBB
      ∧ hex_string_to_uint32 (cstr "+1234567") = some 0x01234567
      ∧ hex_string_to_uint32 (cstr " 12345") = some 0xFF012345
      ∧ isxdigit 'x'.toNat = false ∧ isxdigit 'X'.toNat = false ∧ isxdigit '-'.toNat = false
      ∧ isxdigit '+'.toNat = false ∧ isxdigit ' '.toNat = false := by
  decide

/-! ## Palette selection -/

theorem pick_second_spec (n idx1 : Nat) (hn : 0 < n) (rest : List Nat) (idx2 : Nat)
    (rng2 : List Nat) (h : pick_second n idx1 rest = some (idx2, rng2)) :
    idx2 < n ∧ idx1 ≠ idx2 := by
  induction rest with
  | nil => simp [pick_second] at h
  | cons r rs ih =>
    unfold pick_second at h
    split_ifs at h with he
    · exact ih h
    · simp only [Option.some.injEq, Prod.mk.injEq] at h
      rw [← h.1]
      exact ⟨Nat.mod_lt r hn, he⟩

theorem pick_second_isSome (n idx1 : Nat) (rest : List Nat)
    (h : ∃ r ∈ rest, r % n ≠ idx1) : (pick_second n idx1 rest).isSome = true := by
  induction rest with
  | nil => simp at h
  | cons r rs ih =>
    unfold pick_second
    split_ifs with he
    · apply ih
      obtain ⟨x, hx, hne⟩ := h
      rcases List.mem_cons.mp hx with hx | hx
      · exact absurd (hx ▸ he.symm) hne
      · exact ⟨x, hx, hne⟩
    · rfl

/-- C7: on a palette of length at least 2 (with `num_palette_colors` its length), whenever
`pick_next_random_colors` returns it has selected two indices inside the palette that are
different, has stored the palette entries at them in `next_tl_color` and `next_br_color`,
and has left the palette and its length as they were, so the same holds on every further
call.  It does return as soon as a draw after the first gives a different index. -/
theorem pick_pair_distinct_in_range (s : gradient_animation_state) (pal : List Nat)
    (rng : List Nat) (hpal : s.color_palette = some pal)
    (hnum : s.num_palette_colors = (pal.length : Int)) (hlen : 2 ≤ pal.length) :
    (∀ s2 rng2, pick_next_random_colors s rng = some (s2, rng2) →
      (∃ idx1 idx2, idx1 < pal.length ∧ idx2 < pal.length ∧ idx1 ≠ idx2
        ∧ pal[idx1]? = some s2.next_tl_color ∧ pal[idx2]? = some s2.next_br_color)
      ∧ s2.color_palette = some pal ∧ s2.num_palette_colors = (pal.length : Int))
    ∧ (∀ r1 rest, rng = r1 :: rest → (∃ r ∈ rest, r % pal.length ≠ r1 % pal.length) →
      (pick_next_random_colors s rng).isSome = true) := by
  have hn2 : ¬ s.num_palette_colors < 2 := by rw [hnum]; omega
  have hto : s.num_palette_colors.toNat = pal.length := by rw [hnum]; simp
  have hpos : 0 < pal.length := by omega
  constructor
  · intro s2 rng2 h
    have hf := pick_next_random_colors_frame s s2 rng rng2 h
    refine ⟨?_, by rw [hf]; exact hpal, by rw [hf]; exact hnum⟩
    unfold pick_next_random_colors at h
    rw [hpal] at h
    simp only [if_neg hn2, hto] at h
    match rng, h with
    | r1 :: rest, h =>
      simp only at h
      split at h
      · exact absurd h (by simp)
      · rename_i idx2 rng3 hps
        obtain ⟨hlt, hne⟩ := pick_second_spec _ _ hpos _ _ _ hps
        have h1 : r1 % pal.length < pal.length := Nat.mod_lt r1 hpos
        rw [List.getElem?_eq_getElem h1, List.getElem?_eq_getElem hlt] at h
        simp only [Option.some.injEq, Prod.mk.injEq] at h
        refine ⟨r1 % pal.length, idx2, h1, hlt, hne, ?_, ?_⟩
        · rw [List.getElem?_eq_getElem h1, ← h.1]
        · rw [List.getElem?_eq_getElem hlt, ← h.1]
  · intro r1 rest hr hex
    unfold pick_next_random_colors
    rw [hpal, hr]
    simp only [if_neg hn2, hto]
    have hs := pick_second_isSome pal.length (r1 % pal.length) rest hex
    obtain ⟨⟨idx2, rng3⟩, hps⟩ := Option.isSome_iff_exists.mp hs
    obtain ⟨hlt, _⟩ := pick_second_spec _ _ hpos _ _ _ hps
    have h1 : r1 % pal.length < pal.length := Nat.mod_lt r1 hpos
    rw [hps]
    simp only [List.getElem?_eq_getElem h1, List.getElem?_eq_getElem hlt, Option.isSome_some]

/-- Witness for `pick_pair_distinct_in_range`: on the red/blue palette with draws
`0, 2, 1` the call returns, having redrawn the second index once. -/
theorem pick_pair_distinct_in_range_witness :
    (sample_state.color_palette = some [0xFFFF0000, 0xFF0000FF]
        ∧ sample_state.num_palette_colors = (([0xFFFF0000, 0xFF0000FF] : List Nat).length : Int)
        ∧ 2 ≤ ([0xFFFF0000, 0xFF0000FF] : List Nat).length)
      ∧ (pick_next_random_colors sample_state [0, 2, 1]).isSome = true :=
  ⟨⟨rfl, rfl, by decide⟩,
   (pick_pair_distinct_in_range sample_state [0xFFFF0000, 0xFF0000FF] [0, 2, 1] rfl rfl
      (by decide)).2 0 [2, 1] rfl ⟨1, by decide, by decide⟩⟩

/-! ## Rounding to a `double` -/

/-! ### Rounding to an integer -/

theorem round_half_even_ge_floor (x : ℚ) : ⌊x⌋ ≤ round_half_even x := by
  unfold round_half_even
  split_ifs <;> omega

theorem round_half_even_le_floor_succ (x : ℚ) : round_half_even x ≤ ⌊x⌋ + 1 := by
  unfold round_half_even
  split_ifs <;> omega

theorem round_half_even_intCast (n : Int) : round_half_even (n : ℚ) = n := by
  unfold round_half_even
  rw [Int.floor_intCast]
  simp

theorem round_half_even_mono (x y : ℚ) (h : x ≤ y) : round_half_even x ≤ round_half_even y := by
  have hf : ⌊x⌋ ≤ ⌊y⌋ := Int.floor_le_floor h
  rcases lt_or_eq_of_le hf with hlt | heq
  · calc round_half_even x ≤ ⌊x⌋ + 1 := round_half_even_le_floor_succ x
      _ ≤ ⌊y⌋ := hlt
      _ ≤ round_half_even y := round_half_even_ge_floor y
  · unfold round_half_even
    rw [← heq]
    split_ifs with h1 h2 h3 h4 h5 h6 h7 h8 h9 <;> first | omega | (exfalso; linarith)

theorem round_half_even_neg (x : ℚ) : round_half_even (-x) = - round_half_even x := by
  by_cases hx : (⌊x⌋ : ℚ) = x
  · have e : -x = ((-⌊x⌋ : Int) : ℚ) := by push_cast; rw [hx]
    rw [e, round_half_even_intCast]
    conv_rhs => rw [← hx, round_half_even_intCast]
  · have h1 : (⌊x⌋ : ℚ) ≤ x := Int.floor_le x
    have h2 : x < (⌊x⌋ : ℚ) + 1 := Int.lt_floor_add_one x
    have h3 : (⌊x⌋ : ℚ) < x := lt_of_le_of_ne h1 hx
    have hf : ⌊-x⌋ = -⌊x⌋ - 1 := by
      rw [Int.floor_eq_iff]
      push_cast
      constructor <;> linarith
    unfold round_half_even
    rw [hf]
    push_cast
    split_ifs <;> first | omega | (exfalso; linarith)

theorem round_half_even_nonneg (x : ℚ) (h : 0 ≤ x) : 0 ≤ round_half_even x :=
  le_trans (Int.floor_nonneg.mpr h) (round_half_even_ge_floor x)

/-! ### Rounding to a `double` -/

theorem double_ulp_pos (x : ℚ) : 0 < double_ulp x := zpow_pos (by norm_num) _

theorem round_double_zero : round_double 0 = 0 := by
  unfold round_double
  rw [zero_div]
  have : round_half_even 0 = 0 := by
    have := round_half_even_intCast 0
    simpa using this
  rw [this]
  simp

theorem round_double_nonneg (x : ℚ) (h : 0 ≤ x) : 0 ≤ round_double x := by
  unfold round_double
  have h1 : 0 ≤ x / double_ulp x := div_nonneg h (double_ulp_pos x).le
  have h2 := round_half_even_nonneg _ h1
  have h3 : (0 : ℚ) ≤ (round_half_even (x / double_ulp x) : ℚ) := by exact_mod_cast h2
  exact mul_nonneg h3 (double_ulp_pos x).le

theorem round_double_neg (x : ℚ) : round_double (-x) = - round_double x := by
  unfold round_double double_ulp double_exponent
  rw [abs_neg, neg_div, round_half_even_neg]
  push_cast
  ring

/-- A whole number of units `2 ^ e`, fewer than `2 ^ 53` of them, with `e` at least
`-1074`, is a `double`: rounding leaves it unchanged. -/
theorem round_double_exact (x : ℚ) (e n : Int) (he : -1074 ≤ e) (hn : |n| < 2 ^ 53)
    (hx : x = (n : ℚ) * 2 ^ e) : round_double x = x := by
  by_cases hn0 : n = 0
  · rw [hx, hn0]; simp [round_double_zero]
  have h2 : (0 : ℚ) < 2 := by norm_num
  have hxabs : |x| = (|n| : ℚ) * 2 ^ e := by
    rw [hx, abs_mul, abs_of_pos (zpow_pos h2 e)]
  have hxpos : 0 < |x| := by
    rw [hxabs]
    have : (0 : ℚ) < |(n : ℚ)| := abs_pos.mpr (by exact_mod_cast hn0)
    exact mul_pos this (zpow_pos h2 e)
  have hlog : Int.log 2 |x| < e + 53 := by
    rw [← Int.lt_zpow_iff_log_lt (by norm_num) hxpos]
    have hq : |(n : ℚ)| < 2 ^ (53 : Int) := by
      have : ((|n| : Int) : ℚ) < ((2 ^ 53 : Int) : ℚ) := by exact_mod_cast hn
      push_cast at this
      exact_mod_cast this
    have := mul_lt_mul_of_pos_right hq (zpow_pos h2 e)
    rw [hxabs]
    push_cast
    rw [zpow_add₀ (by norm_num), mul_comm ((2 : ℚ) ^ e)]
    exact this
  have hE : double_exponent x - 52 ≤ e := by
    unfold double_exponent
    have := max_le (a := Int.log 2 |x|) (b := -1022) (c := e + 52) (by omega) (by omega)
    omega
  obtain ⟨j, hj⟩ : ∃ j : Nat, e = double_exponent x - 52 + (j : Int) :=
    ⟨(e - (double_exponent x - 52)).toNat, by omega⟩
  have hu : (2 : ℚ) ^ e = 2 ^ j * double_ulp x := by
    unfold double_ulp
    rw [hj, zpow_add₀ (by norm_num), zpow_natCast]
    ring
  unfold round_double
  have hq : x / double_ulp x = ((n * 2 ^ j : Int) : ℚ) := by
    rw [div_eq_iff (double_ulp_pos x).ne']
    conv_lhs => rw [hx, hu]
    push_cast
    ring
  rw [hq, round_half_even_intCast]
  conv_rhs => rw [hx, hu]
  push_cast
  ring

theorem two_zpow_split (E : Int) : (2 : ℚ) ^ (E + 1) = 2 ^ (53 : Nat) * 2 ^ (E - 52) := by
  rw [← zpow_natCast, ← zpow_add₀ (by norm_num)]
  congr 1
  omega

theorem two_zpow_split_lo (E : Int) : (2 : ℚ) ^ E = 2 ^ (52 : Nat) * 2 ^ (E - 52) := by
  rw [← zpow_natCast, ← zpow_add₀ (by norm_num)]
  congr 1
  omega

theorem abs_lt_two_zpow_exponent (x : ℚ) : |x| < 2 ^ (double_exponent x + 1) := by
  have h1 : |x| < 2 ^ (Int.log 2 |x| + 1) := by
    have := Int.lt_zpow_succ_log_self (b := 2) (by norm_num) |x|
    exact_mod_cast this
  have h2 : (2 : ℚ) ^ (Int.log 2 |x| + 1) ≤ 2 ^ (double_exponent x + 1) :=
    zpow_le_zpow_right₀ (by norm_num) (by unfold double_exponent; have := le_max_left (Int.log 2 |x|) (-1022); omega)
  exact lt_of_lt_of_le h1 h2

/-- The rounded value of a positive `x` does not leave the binade of `x` upwards. -/
theorem round_double_le_binade (x : ℚ) (hx : 0 ≤ x) :
    round_double x ≤ 2 ^ (double_exponent x + 1) := by
  have hlt := abs_lt_two_zpow_exponent x
  rw [abs_of_nonneg hx] at hlt
  have hu := double_ulp_pos x
  have hq : x / double_ulp x ≤ ((2 ^ 53 : Int) : ℚ) := by
    rw [div_le_iff₀ hu]
    have := two_zpow_split (double_exponent x)
    unfold double_ulp
    push_cast
    norm_num at this
    rw [← this]
    exact hlt.le
  have hr := round_half_even_mono _ _ hq
  rw [round_half_even_intCast] at hr
  have hr2 : (round_half_even (x / double_ulp x) : ℚ) ≤ 2 ^ (53 : Nat) := by exact_mod_cast hr
  unfold round_double
  rw [two_zpow_split]
  exact mul_le_mul_of_nonneg_right hr2 hu.le

/-- The rounded value of `x ≥ 2 ^ E`, with `E` the binade exponent, is at least
`2 ^ E`. -/
theorem round_double_ge_binade (x : ℚ) (hlo : 2 ^ double_exponent x ≤ x) :
    2 ^ double_exponent x ≤ round_double x := by
  have hu := double_ulp_pos x
  have hq : ((2 ^ 52 : Int) : ℚ) ≤ x / double_ulp x := by
    rw [le_div_iff₀ hu]
    have := two_zpow_split_lo (double_exponent x)
    unfold double_ulp
    push_cast
    norm_num at this
    rw [← this]
    exact hlo
  have hr := round_half_even_mono _ _ hq
  rw [round_half_even_intCast] at hr
  have hr2 : (2 : ℚ) ^ (52 : Nat) ≤ (round_half_even (x / double_ulp x) : ℚ) := by
    exact_mod_cast hr
  unfold round_double
  rw [two_zpow_split_lo]
  exact mul_le_mul_of_nonneg_right hr2 hu.le

theorem round_double_mono_pos (x y : ℚ) (hx : 0 < x) (h : x ≤ y) :
    round_double x ≤ round_double y := by
  have hy : 0 < y := lt_of_lt_of_le hx h
  have hlog : Int.log 2 |x| ≤ Int.log 2 |y| := by
    rw [abs_of_pos hx, abs_of_pos hy]
    exact Int.log_mono_right hx h
  have hE : double_exponent x ≤ double_exponent y := by
    unfold double_exponent
    exact max_le_max hlog (le_refl _)
  rcases lt_or_eq_of_le hE with hlt | heq
  · have hA := round_double_le_binade x hx.le
    have hylog : double_exponent y = Int.log 2 |y| := by
      have h1 := double_exponent_ge x
      unfold double_exponent at hlt ⊢
      rcases le_total (Int.log 2 |y|) (-1022) with c | c
      · rw [max_eq_right c] at hlt
        unfold double_exponent at h1
        omega
      · exact max_eq_left c
    have hylo : (2 : ℚ) ^ double_exponent y ≤ y := by
      rw [hylog, abs_of_pos hy]
      have := Int.zpow_log_le_self (b := 2) (by norm_num) hy
      exact_mod_cast this
    have hB := round_double_ge_binade y hylo
    have hC : (2 : ℚ) ^ (double_exponent x + 1) ≤ 2 ^ double_exponent y :=
      zpow_le_zpow_right₀ (by norm_num) (by omega)
    linarith
  · have hu : double_ulp x = double_ulp y := by unfold double_ulp; rw [heq]
    unfold round_double
    rw [hu]
    have hq : x / double_ulp y ≤ y / double_ulp y :=
      div_le_div_of_nonneg_right h (double_ulp_pos y).le
    have hr := round_half_even_mono _ _ hq
    have hr2 : (round_half_even (x / double_ulp y) : ℚ) ≤ (round_half_even (y / double_ulp y) : ℚ) := by
      exact_mod_cast hr
    exact mul_le_mul_of_nonneg_right hr2 (double_ulp_pos y).le

/-- Rounding to a `double` is monotone. -/
theorem round_double_mono (x y : ℚ) (h : x ≤ y) : round_double x ≤ round_double y := by
  rcases lt_trichotomy x 0 with hx | hx | hx
  · rcases lt_or_le y 0 with hy | hy
    · have := round_double_mono_pos (-y) (-x) (by linarith) (by linarith)
      rw [round_double_neg, round_double_neg] at this
      linarith
    · have h1 := round_double_nonneg (-x) (by linarith)
      rw [round_double_neg] at h1
      have h2 := round_double_nonneg y hy
      linarith
  · rw [hx, round_double_zero]
    exact round_double_nonneg y (by linarith)
  · exact round_double_mono_pos x y hx h

/-- A rounded value is a `double`: rounding it again changes nothing. -/
theorem round_double_idem (x : ℚ) : round_double (round_double x) = round_double x := by
  have key : ∀ z : ℚ, 0 ≤ z → round_double (round_double z) = round_double z := by
    intro z hz
    have hu := double_ulp_pos z
    have hn0 := round_half_even_nonneg _ (div_nonneg hz hu.le)
    have hle : round_half_even (z / double_ulp z) ≤ 2 ^ 53 := by
      have h1 := round_double_le_binade z hz
      unfold round_double at h1
      rw [two_zpow_split] at h1
      have h2 := le_of_mul_le_mul_right h1 hu
      exact_mod_cast h2
    rcases lt_or_eq_of_le hle with c | c
    · exact round_double_exact _ (double_exponent z - 52) (round_half_even (z / double_ulp z))
        (by have := double_exponent_ge z; omega) (by rw [abs_of_nonneg hn0]; exact c) rfl
    · refine round_double_exact _ (double_exponent z + 1) 1
        (by have := double_exponent_ge z; omega) (by norm_num) ?_
      unfold round_double
      rw [c, two_zpow_split]
      unfold double_ulp
      push_cast
      ring
  rcases le_total 0 x with hx | hx
  · exact key x hx
  · have := key (-x) (by linarith)
    rw [round_double_neg, round_double_neg] at this
    linarith

/-! ### Values that are not rounded -/

theorem whole_units_add (e : Int) (x y : ℚ) (hx : whole_units e x) (hy : whole_units e y) :
    whole_units e (x + y) := by
  obtain ⟨a, ha⟩ := hx
  obtain ⟨b, hb⟩ := hy
  exact ⟨a + b, by rw [ha, hb]; push_cast; ring⟩

theorem whole_units_sub (e : Int) (x y : ℚ) (hx : whole_units e x) (hy : whole_units e y) :
    whole_units e (x - y) := by
  obtain ⟨a, ha⟩ := hx
  obtain ⟨b, hb⟩ := hy
  exact ⟨a - b, by rw [ha, hb]; push_cast; ring⟩

theorem whole_units_nat_mul (e : Int) (n : Nat) (x : ℚ) (hx : whole_units e x) :
    whole_units e ((n : ℚ) * x) := by
  obtain ⟨a, ha⟩ := hx
  exact ⟨n * a, by rw [ha]; push_cast; ring⟩

theorem whole_units_int (n : Int) : whole_units 0 (n : ℚ) := ⟨n, by simp⟩

/-- A whole number of units `2 ^ e`, `e ≥ -1074`, of magnitude below `2 ^ 53` units is a
`double`. -/
theorem round_double_whole (e : Int) (he : -1074 ≤ e) (x : ℚ) (hw : whole_units e x)
    (hb : |x| < 2 ^ (e + 53)) : round_double x = x := by
  obtain ⟨n, hn⟩ := hw
  refine round_double_exact x e n he ?_ hn
  have h2 : (0 : ℚ) < 2 ^ e := zpow_pos (by norm_num) e
  rw [hn, abs_mul, abs_of_pos h2, zpow_add₀ (by norm_num), mul_comm ((2 : ℚ) ^ e)] at hb
  have h3 := lt_of_mul_lt_mul_right hb h2.le
  have h4 : ((|n| : Int) : ℚ) < ((2 ^ 53 : Int) : ℚ) := by
    push_cast
    exact_mod_cast h3
  exact_mod_cast h4

/-- An integer of magnitude below `2 ^ 53` is a `double`. -/
theorem round_double_int (n : Int) (h : |n| < 2 ^ 53) : round_double (n : ℚ) = n :=
  round_double_exact _ 0 n (by norm_num) h (by simp)

/-- With exact times the addition of the delta to the accumulator does not round. -/
theorem double_add_exact (e : Int) (acc dur dt : ℚ) (h : exact_times e acc dur dt) :
    double_add acc dt = acc + dt := by
  obtain ⟨he, ha, _, hd, h0, h1, hb⟩ := h
  unfold double_add
  exact round_double_whole e he _ (whole_units_add e _ _ ha hd)
    (by rw [abs_of_nonneg (by linarith)]; exact hb)

/-- A subtraction of a smaller whole number of units from one below `2 ^ 53` units does
not round. -/
theorem double_sub_exact (e : Int) (he : -1074 ≤ e) (acc dur : ℚ) (ha : whole_units e acc)
    (hd : whole_units e dur) (hb : acc < 2 ^ (e + 53)) (h0 : 0 ≤ dur) (hge : dur ≤ acc) :
    double_sub acc dur = acc - dur := by
  unfold double_sub
  exact round_double_whole e he _ (whole_units_sub e _ _ ha hd)
    (by rw [abs_of_nonneg (by linarith)]; linarith)

theorem is_double_round_double (x : ℚ) : is_double (round_double x) := round_double_idem x

theorem is_double_int (n : Int) (h : |n| < 2 ^ 53) : is_double (n : ℚ) := round_double_int n h

theorem is_double_zero : is_double 0 := round_double_zero

/-- The values `IsDouble` describes are `double`s. -/
theorem is_double_of_isDouble (c : ℚ) (h : IsDouble c) : is_double c := by
  obtain ⟨m, k, hm, hk, hc⟩ := h
  refine round_double_exact c (-(k : Int)) m (by omega) hm ?_
  rw [hc, zpow_neg, zpow_natCast]
  ring

/-- The rounding to a `double` is one of the roundings `RoundsLikeDouble` describes. -/
theorem round_double_roundsLikeDouble : RoundsLikeDouble round_double :=
  ⟨round_double_mono, is_double_of_isDouble⟩

/-- Adding a `double` to zero does not round. -/
theorem double_add_zero_left (x : ℚ) (h : is_double x) : double_add 0 x = x := by
  unfold double_add
  rw [zero_add]
  exact h

/-! ### The rounding error -/

theorem abs_round_half_even_sub_le (x : ℚ) : |(round_half_even x : ℚ) - x| ≤ 1 / 2 := by
  have h1 : (⌊x⌋ : ℚ) ≤ x := Int.floor_le x
  have h2 : x < (⌊x⌋ : ℚ) + 1 := Int.lt_floor_add_one x
  rw [abs_le]
  unfold round_half_even
  split_ifs with c1 c2 c3 <;> push_cast <;> constructor <;> linarith

/-- Rounding a value of magnitude at least `2 ^ (-1022)` changes it by at most the
fraction `2 ^ (-53)` of it. -/
theorem round_double_error (x : ℚ) (h : 2 ^ (-1022 : Int) ≤ |x|) :
    |round_double x - x| ≤ |x| / 2 ^ 53 := by
  have hpos : 0 < |x| := lt_of_lt_of_le (zpow_pos (by norm_num) _) h
  have hlog : -1022 ≤ Int.log 2 |x| := by
    rw [← Int.zpow_le_iff_le_log (by norm_num) hpos]
    exact_mod_cast h
  have hE : double_exponent x = Int.log 2 |x| := by
    unfold double_exponent
    exact max_eq_left hlog
  have hlo : (2 : ℚ) ^ double_exponent x ≤ |x| := by
    rw [hE]
    have := Int.zpow_log_le_self (b := 2) (by norm_num) hpos
    exact_mod_cast this
  have hu := double_ulp_pos x
  have hr := abs_round_half_even_sub_le (x / double_ulp x)
  have e1 : round_double x - x
      = ((round_half_even (x / double_ulp x) : ℚ) - x / double_ulp x) * double_ulp x := by
    unfold round_double
    field_simp
  rw [e1, abs_mul, abs_of_pos hu]
  have h3 : |(round_half_even (x / double_ulp x) : ℚ) - x / double_ulp x| * double_ulp x
      ≤ 1 / 2 * double_ulp x := mul_le_mul_of_nonneg_right hr hu.le
  have h4 : 1 / 2 * double_ulp x = 2 ^ double_exponent x / 2 ^ 53 := by
    unfold double_ulp
    rw [zpow_sub₀ (by norm_num)]
    norm_num
    ring
  have h5 : (2 : ℚ) ^ double_exponent x / 2 ^ 53 ≤ |x| / 2 ^ 53 :=
    div_le_div_of_nonneg_right hlo (by positivity)
  linarith

/-! ## The tick loop, one iteration at a time -/

/-- The increment of an `int` below `INT_MAX` is the exact one. -/
theorem int_incr_eq (x : Int) (h1 : -2 ^ 31 ≤ x + 1) (h2 : x + 1 < 2 ^ 31) :
    int_incr x = x + 1 := by
  unfold int_incr toInt32
  omega

theorem tick_loop_done (s : gradient_animation_state) (rng : List Nat) (u : Bool)
    (h : ¬ (s.time_accumulator_usec ≥ s.step_duration_usec ∧ s.step_duration_usec > 0)) :
    tick_loop s rng u = some (s, rng, u) := by
  rw [tick_loop, dif_neg h]

/-- A pass that does not lower the accumulator: the loop does not end. -/
theorem tick_loop_stuck (s : gradient_animation_state) (rng : List Nat) (u : Bool)
    (h1 : s.time_accumulator_usec ≥ s.step_duration_usec) (h2 : s.step_duration_usec > 0)
    (hno : ¬ double_sub s.time_accumulator_usec s.step_duration_usec
      < s.time_accumulator_usec) :
    tick_loop s rng u = none := by
  rw [tick_loop, dif_pos ⟨h1, h2⟩]
  dsimp only
  rw [dif_neg hno]

/-- A pass of the loop that stays within `palette_total_steps`. -/
theorem tick_loop_step (s : gradient_animation_state) (rng : List Nat) (u : Bool)
    (h1 : s.time_accumulator_usec ≥ s.step_duration_usec) (h2 : s.step_duration_usec > 0)
    (hlt : double_sub s.time_accumulator_usec s.step_duration_usec < s.time_accumulator_usec)
    (h3 : int_incr s.current_interpolation_step ≤ s.palette_total_steps) :
    tick_loop s rng u
      = tick_loop
          { s with
            time_accumulator_usec := double_sub s.time_accumulator_usec s.step_duration_usec
            current_interpolation_step := int_incr s.current_interpolation_step } rng true := by
  rw [tick_loop, dif_pos ⟨h1, h2⟩]
  dsimp only
  rw [dif_pos hlt, if_neg (by simpa using h3)]

/-- A pass of the loop that goes past `palette_total_steps` and rolls over. -/
theorem tick_loop_rollover (s : gradient_animation_state) (rng : List Nat) (u : Bool)
    (h1 : s.time_accumulator_usec ≥ s.step_duration_usec) (h2 : s.step_duration_usec > 0)
    (hlt : double_sub s.time_accumulator_usec s.step_duration_usec < s.time_accumulator_usec)
    (h3 : s.palette_total_steps < int_incr s.current_interpolation_step) :
    tick_loop s rng u
      = (pick_next_random_colors
          { s with
            time_accumulator_usec := double_sub s.time_accumulator_usec s.step_duration_usec
            current_interpolation_step := 0
            current_tl_color := s.next_tl_color
            current_br_color := s.next_br_color } rng).bind
          (fun p => tick_loop p.1 p.2 true) := by
  rw [tick_loop, dif_pos ⟨h1, h2⟩]
  dsimp only
  rw [dif_pos hlt, if_pos (by simpa using h3)]
  split
  · rename_i hp
    rw [hp]; rfl
  · rename_i hp
    rw [hp]; rfl

/-- A pass of the loop whose subtraction and increment have the given results. -/
theorem tick_loop_step_to (s : gradient_animation_state) (rng : List Nat) (u : Bool)
    (a1 : ℚ) (k1 : Int)
    (h1 : s.time_accumulator_usec ≥ s.step_duration_usec) (h2 : s.step_duration_usec > 0)
    (ha : double_sub s.time_accumulator_usec s.step_duration_usec = a1)
    (hlt : a1 < s.time_accumulator_usec)
    (hk : int_incr s.current_interpolation_step = k1) (h3 : k1 ≤ s.palette_total_steps) :
    tick_loop s rng u
      = tick_loop { s with time_accumulator_usec := a1, current_interpolation_step := k1 }
          rng true := by
  rw [tick_loop_step s rng u h1 h2 (by rw [ha]; exact hlt) (by rw [hk]; exact h3), ha, hk]

/-- The callback in terms of the result of its loop. -/
theorem callback_of_loop (dt : ℚ) (s : gradient_animation_state) (rng : List Nat)
    (s1 : gradient_animation_state) (rng1 : List Nat) (u1 : Bool)
    (h : tick_loop { s with time_accumulator_usec := double_add s.time_accumulator_usec dt }
      rng false = some (s1, rng1, u1)) :
    gradient_animation_callback dt s rng
      = some (s1, rng1,
          if u1 = true ∨ s1.current_interpolation_step = 0 then some (update_of s1)
          else none) := by
  unfold gradient_animation_callback
  simp only
  rw [h]
  simp only [update_of]
  split_ifs <;> rfl

theorem advance_zero (s : gradient_animation_state) : advance s 0 = s := by
  ext <;> simp [advance]

/-- The tick loop run for `n` iterations that stay within `palette_total_steps`, on
times that are whole numbers of a unit `2 ^ e`, fewer than `2 ^ 53`: no subtraction
rounds. -/
theorem tick_loop_steps (e : Int) (he : -1074 ≤ e) (n : Nat) (s : gradient_animation_state)
    (rng : List Nat) (u : Bool)
    (h2 : s.step_duration_usec > 0)
    (h1 : s.time_accumulator_usec ≥ (n : ℚ) * s.step_duration_usec)
    (h3 : s.current_interpolation_step + (n : Int) ≤ s.palette_total_steps)
    (h4 : s.palette_total_steps < 2 ^ 31) (h5 : -2 ^ 31 ≤ s.current_interpolation_step + 1)
    (ha : whole_units e s.time_accumulator_usec) (hd : whole_units e s.step_duration_usec)
    (hb : s.time_accumulator_usec < 2 ^ (e + 53)) :
    tick_loop s rng u = tick_loop (advance s n) rng (u || decide (0 < n)) := by
  induction n generalizing s u with
  | zero => simp [advance_zero]
  | succ n ih =>
    have hn : (0 : ℚ) ≤ (n : ℚ) := Nat.cast_nonneg n
    have hge : s.time_accumulator_usec ≥ s.step_duration_usec := by
      push_cast at h1
      nlinarith
    have hsub := double_sub_exact e he _ _ ha hd hb h2.le hge
    have hinc := int_incr_eq s.current_interpolation_step h5 (by push_cast at h3; omega)
    rw [tick_loop_step_to s rng u _ _ hge h2 hsub (by linarith) hinc
      (by push_cast at h3; omega)]
    rw [ih _ true (by simpa using h2) (by push_cast at h1 ⊢; linarith)
      (by push_cast at h3 ⊢; omega) (by simpa using h4) (by simp only; omega)
      (by simpa using whole_units_sub e _ _ ha hd) (by simpa using hd)
      (by simp only; linarith)]
    have e1 : advance
        { s with
          time_accumulator_usec := s.time_accumulator_usec - s.step_duration_usec
          current_interpolation_step := s.current_interpolation_step + 1 } n
        = advance s (n + 1) := by
      ext <;> simp [advance] <;> ring
    rw [e1]
    simp

/-- A tick on exact times whose accumulated time holds exactly `n` whole step durations,
with room for `n` steps before `palette_total_steps`, fires `n` steps and draws nothing. -/
theorem callback_no_rollover (e : Int) (n : Nat) (s : gradient_animation_state)
    (rng : List Nat) (dt : ℚ)
    (hex : exact_times e s.time_accumulator_usec s.step_duration_usec dt)
    (hdur : s.step_duration_usec > 0)
    (hlo : (n : ℚ) * s.step_duration_usec ≤ s.time_accumulator_usec + dt)
    (hhi : s.time_accumulator_usec + dt < ((n : ℚ) + 1) * s.step_duration_usec)
    (hroom : s.current_interpolation_step + (n : Int) ≤ s.palette_total_steps)
    (hT : s.palette_total_steps < 2 ^ 31) (hstep : -2 ^ 31 ≤ s.current_interpolation_step + 1) :
    gradient_animation_callback dt s rng
      = some (after_tick s dt n, rng,
          if 0 < n ∨ (after_tick s dt n).current_interpolation_step = 0
          then some (update_of (after_tick s dt n)) else none) := by
  have hadd := double_add_exact e _ _ _ hex
  obtain ⟨he, ha, hd, hdt, _, _, hb⟩ := hex
  have e1 : advance { s with time_accumulator_usec := s.time_accumulator_usec + dt } n
      = after_tick s dt n := by
    ext <;> simp [advance, after_tick]
  have hdone : ¬ ((after_tick s dt n).time_accumulator_usec
      ≥ (after_tick s dt n).step_duration_usec ∧ (after_tick s dt n).step_duration_usec > 0) := by
    simp only [after_tick, not_and, ge_iff_le]
    intro h
    linarith
  have hl : tick_loop { s with time_accumulator_usec := double_add s.time_accumulator_usec dt }
      rng false = some (after_tick s dt n, rng, decide (0 < n)) := by
    rw [hadd, tick_loop_steps e he n _ rng false (by simpa using hdur) (by simpa using hlo)
      (by simpa using hroom) (by simpa using hT) (by simpa using hstep)
      (by simpa using whole_units_add e _ _ ha hdt) (by simpa using hd) (by simpa using hb),
      e1, tick_loop_done _ _ _ hdone]
    simp
  rw [callback_of_loop dt s rng _ _ _ hl]
  simp only [decide_eq_true_eq]

/-- The times of the sample state and a whole number of microseconds below `2 ^ 53` are
exact. -/
theorem sample_exact_times (s : gradient_animation_state) (dt : Int)
    (hacc : s.time_accumulator_usec = 0 ∨ s.time_accumulator_usec = 500000)
    (hdur : s.step_duration_usec = 1000000) (h0 : 0 ≤ dt) (h1 : dt < 2 ^ 52) :
    exact_times 0 s.time_accumulator_usec s.step_duration_usec (dt : ℚ) := by
  have hq0 : (0 : ℚ) ≤ (dt : ℚ) := by exact_mod_cast h0
  have hq1 : (dt : ℚ) < 2 ^ (52 : Nat) := by exact_mod_cast h1
  refine ⟨by norm_num, ?_, ⟨1000000, by rw [hdur]; norm_num⟩, whole_units_int dt, ?_, hq0, ?_⟩
  · rcases hacc with h | h
    · exact ⟨0, by rw [h]; norm_num⟩
    · exact ⟨500000, by rw [h]; norm_num⟩
  · rcases hacc with h | h
    · rw [h]
    · rw [h]; norm_num
  · have : ((2 : ℚ)) ^ ((0 : Int) + 53) = 2 ^ (53 : Nat) := by norm_num
    rw [this]
    rcases hacc with h | h <;> rw [h] <;> norm_num at hq1 ⊢ <;> linarith

/-! ## Four frames of a 60 Hz display on 144 steps in one second -/

/-- A property of the state that every plain step and every rollover of the loop keeps
is kept by the whole loop. -/
theorem tick_loop_preserves (P : gradient_animation_state → Prop)
    (hstep : ∀ s : gradient_animation_state,
      s.time_accumulator_usec ≥ s.step_duration_usec → s.step_duration_usec > 0 →
      int_incr s.current_interpolation_step ≤ s.palette_total_steps → P s →
      P { s with
          time_accumulator_usec := double_sub s.time_accumulator_usec s.step_duration_usec
          current_interpolation_step := int_incr s.current_interpolation_step })
    (hroll : ∀ (s : gradient_animation_state) (rng : List Nat) (s2 : gradient_animation_state)
      (rng2 : List Nat),
      s.time_accumulator_usec ≥ s.step_duration_usec → s.step_duration_usec > 0 →
      s.palette_total_steps < int_incr s.current_interpolation_step → P s →
      pick_next_random_colors
        { s with
          time_accumulator_usec := double_sub s.time_accumulator_usec s.step_duration_usec
          current_interpolation_step := 0
          current_tl_color := s.next_tl_color
          current_br_color := s.next_br_color } rng = some (s2, rng2) → P s2)
    (n : Nat) :
    ∀ (s : gradient_animation_state) (rng : List Nat) (u : Bool)
      (s1 : gradient_animation_state) (rng1 : List Nat) (u1 : Bool),
      ⌈s.time_accumulator_usec * 2 ^ 1074⌉₊ ≤ n → P s →
      tick_loop s rng u = some (s1, rng1, u1) → P s1 := by
  induction n with
  | zero =>
    intro s rng u s1 rng1 u1 hm hP h
    by_cases hc : s.time_accumulator_usec ≥ s.step_duration_usec ∧ s.step_duration_usec > 0
    · have hpos : 0 < s.time_accumulator_usec * 2 ^ 1074 :=
        mul_pos (lt_of_lt_of_le hc.2 hc.1) (by positivity)
      have := Nat.ceil_pos.mpr hpos
      omega
    · rw [tick_loop_done s rng u hc] at h
      simp only [Option.some.injEq, Prod.mk.injEq] at h
      rw [← h.1]; exact hP
  | succ n ih =>
    intro s rng u s1 rng1 u1 hm hP h
    by_cases hc : s.time_accumulator_usec ≥ s.step_duration_usec ∧ s.step_duration_usec > 0
    · by_cases hlt : double_sub s.time_accumulator_usec s.step_duration_usec
          < s.time_accumulator_usec
      · have hdec := tick_measure_decreases _ _ (lt_of_lt_of_le hc.2 hc.1) hlt
        by_cases h3 : int_incr s.current_interpolation_step ≤ s.palette_total_steps
        · rw [tick_loop_step s rng u hc.1 hc.2 hlt h3] at h
          exact ih _ rng true s1 rng1 u1 (by simp only [double_sub]; omega)
            (hstep s hc.1 hc.2 h3 hP) h
        · rw [tick_loop_rollover s rng u hc.1 hc.2 hlt (by omega)] at h
          cases hp : pick_next_random_colors
              { s with
                time_accumulator_usec :=
                  double_sub s.time_accumulator_usec s.step_duration_usec
                current_interpolation_step := 0
                current_tl_color := s.next_tl_color
                current_br_color := s.next_br_color } rng with
          | none => rw [hp] at h; simp at h
          | some p =>
            obtain ⟨s2, rng2⟩ := p
            rw [hp] at h
            simp only [Option.some_bind] at h
            have hf := pick_next_random_colors_frame _ _ _ _ hp
            have hm2 : ⌈s2.time_accumulator_usec * 2 ^ 1074⌉₊ ≤ n := by
              rw [hf]; simp only [double_sub]; omega
            exact ih s2 rng2 true s1 rng1 u1 hm2 (hroll s rng s2 rng2 hc.1 hc.2 (by omega) hP hp) h
      · rw [tick_loop_stuck s rng u hc.1 hc.2 hlt] at h
        simp at h
    · rw [tick_loop_done s rng u hc] at h
      simp only [Option.some.injEq, Prod.mk.injEq] at h
      rw [← h.1]; exact hP

/-- The state the callback returns is the one its loop returns. -/
theorem callback_state (dt : ℚ) (s : gradient_animation_state) (rng : List Nat)
    (s1 : gradient_animation_state) (rng1 : List Nat) (upd : Option gradient_update)
    (h : gradient_animation_callback dt s rng = some (s1, rng1, upd)) :
    ∃ u1, tick_loop { s with time_accumulator_usec := double_add s.time_accumulator_usec dt }
      rng false = some (s1, rng1, u1) := by
  unfold gradient_animation_callback at h
  simp only at h
  split at h
  · simp at h
  · rename_i s1a rng1a u1 hl
    refine ⟨u1, ?_⟩
    rw [hl]
    split_ifs at h <;>
      · simp only [Option.some.injEq, Prod.mk.injEq] at h
        rw [h.1, h.2.1]

/-- A property every returning tick keeps is kept by every returning sequence of
ticks. -/
theorem run_ticks_preserves (P : gradient_animation_state → Prop)
    (hP : ∀ (dt : ℚ) (s : gradient_animation_state) (rng : List Nat)
      (s1 : gradient_animation_state) (rng1 : List Nat) (upd : Option gradient_update),
      P s → gradient_animation_callback dt s rng = some (s1, rng1, upd) → P s1)
    (ds : List ℚ) :
    ∀ (s : gradient_animation_state) (rng : List Nat) (s2 : gradient_animation_state)
      (rng2 : List Nat), P s → run_ticks ds s rng = some (s2, rng2) → P s2 := by
  induction ds with
  | nil =>
    intro s rng s2 rng2 hs h
    simp only [run_ticks, Option.some.injEq, Prod.mk.injEq] at h
    rw [← h.1]
    exact hs
  | cons d ds ih =>
    intro s rng s2 rng2 hs h
    rw [run_ticks] at h
    cases hc : gradient_animation_callback d s rng with
    | none => rw [hc] at h; simp at h
    | some p =>
      obtain ⟨s1, rng1, upd⟩ := p
      rw [hc] at h
      simp only at h
      exact ih s1 rng1 s2 rng2 (hP d s rng s1 rng1 upd hs hc) h

/-- A returning tick on a state with `0 ≤ step ≤ palette_total_steps < INT_MAX` keeps
the step in that range and leaves `palette_total_steps` as it is. -/
theorem callback_keeps_step_range (dt : ℚ) (s : gradient_animation_state) (rng : List Nat)
    (s1 : gradient_animation_state) (rng1 : List Nat) (upd : Option gradient_update)
    (h0 : 0 ≤ s.current_interpolation_step)
    (hT : s.current_interpolation_step ≤ s.palette_total_steps)
    (hmax : s.palette_total_steps < 2147483647)
    (h : gradient_animation_callback dt s rng = some (s1, rng1, upd)) :
    0 ≤ s1.current_interpolation_step
      ∧ s1.current_interpolation_step ≤ s1.palette_total_steps
      ∧ s1.palette_total_steps = s.palette_total_steps := by
  obtain ⟨u1, hl⟩ := callback_state dt s rng s1 rng1 upd h
  refine tick_loop_preserves
    (fun x => 0 ≤ x.current_interpolation_step
      ∧ x.current_interpolation_step ≤ x.palette_total_steps
      ∧ x.palette_total_steps = s.palette_total_steps)
    ?_ ?_ _ { s with time_accumulator_usec := double_add s.time_accumulator_usec dt }
    rng false s1 rng1 u1 (le_refl _) ⟨h0, hT, rfl⟩ hl
  · intro x _ _ h3 hx
    obtain ⟨x0, x1, x2⟩ := hx
    have hinc := int_incr_eq x.current_interpolation_step (by omega) (by omega)
    simp only
    rw [hinc] at h3 ⊢
    exact ⟨by omega, h3, x2⟩
  · intro x r x2 r2 _ _ _ hx hp
    have hf := pick_next_random_colors_frame _ _ _ _ hp
    rw [hf]
    simp only
    exact ⟨le_refl 0, by omega, hx.2.2⟩

/-- C10, as stated, fails: with `palette_total_steps = 2147483647` (the value
`animated_gradient_steps=2147483647` configures) and the step at 2147483647, where
`0 ≤ step ≤ palette_total_steps` holds, a tick of one step duration returns with the step
at `-2147483648`: the increment wraps and the rollover test `step > palette_total_steps`
cannot hold. -/
theorem step_leaves_range_at_int_max :
    (0 ≤ state_at_int_max.current_interpolation_step
        ∧ state_at_int_max.current_interpolation_step ≤ state_at_int_max.palette_total_steps)
      ∧ ∃ s1 upd, gradient_animation_callback 1000000 state_at_int_max [] = some (s1, [], upd)
          ∧ s1.current_interpolation_step = -2147483648
          ∧ ¬ 0 ≤ s1.current_interpolation_step := by
  refine ⟨by decide, ?_⟩
  have hadd : double_add state_at_int_max.time_accumulator_usec 1000000 = 1000000 := by
    unfold double_add
    have := round_double_int 1000000 (by norm_num)
    norm_num [state_at_int_max, sample_state] at this ⊢
    exact this
  have hsub : double_sub 1000000 state_at_int_max.step_duration_usec = 0 := by
    unfold double_sub
    norm_num [state_at_int_max, sample_state, round_double_zero]
  have hl : tick_loop
      { state_at_int_max with
        time_accumulator_usec := double_add state_at_int_max.time_accumulator_usec 1000000 }
      [] false
      = some ({ state_at_int_max with
                time_accumulator_usec := 0
                current_interpolation_step := -2147483648 }, [], true) := by
    rw [hadd]
    rw [tick_loop_step_to _ [] false 0 (-2147483648)
      (by norm_num [state_at_int_max, sample_state])
      (by norm_num [state_at_int_max, sample_state]) (by simpa using hsub)
      (by norm_num) (by decide) (by decide)]
    rw [tick_loop_done _ [] true (by norm_num [state_at_int_max, sample_state])]
  exact ⟨_, _, callback_of_loop _ _ _ _ _ _ hl, rfl, by decide⟩

/-- C10 (amended): `0 ≤ current_interpolation_step ≤ palette_total_steps` holds after
every successful `gradient_animation_init_and_start` (enabled, palette present, at least
2 colours), and when `palette_total_steps` is below `INT_MAX = 2147483647` it is
preserved by every invocation of the tick callback that returns, for every delta,
however many steps and rollovers the tick fires, `palette_total_steps` staying as it is;
hence it holds in every state a started animation with fewer than `2147483647` steps
configured reaches by ticks. -/
theorem step_within_total_steps_invariant :
    (∀ (animator : animation) (anim_state : gradient_animation_state) (settings_ptr : settings)
        (rng : List Nat) (animator1 : animation) (s1 : gradient_animation_state)
        (rng1 : List Nat),
        settings_ptr.animated_gradient_enabled = true →
        settings_ptr.parsed_gradient_colors ≠ none →
        2 ≤ settings_ptr.num_parsed_gradient_colors →
        gradient_animation_init_and_start animator anim_state settings_ptr rng
          = some (animator1, s1, rng1) →
        0 ≤ s1.current_interpolation_step
          ∧ s1.current_interpolation_step ≤ s1.palette_total_steps
          ∧ s1.palette_total_steps = max settings_ptr.animated_gradient_steps 1)
    ∧ (∀ (dt : ℚ) (s : gradient_animation_state) (rng : List Nat)
        (s1 : gradient_animation_state) (rng1 : List Nat) (upd : Option gradient_update),
        0 ≤ s.current_interpolation_step →
        s.current_interpolation_step ≤ s.palette_total_steps →
        s.palette_total_steps < 2147483647 →
        gradient_animation_callback dt s rng = some (s1, rng1, upd) →
        0 ≤ s1.current_interpolation_step
          ∧ s1.current_interpolation_step ≤ s1.palette_total_steps
          ∧ s1.palette_total_steps = s.palette_total_steps)
    ∧ (∀ (animator : animation) (anim_state : gradient_animation_state) (settings_ptr : settings)
        (rng : List Nat) (animator1 : animation) (s1 : gradient_animation_state)
        (rng1 : List Nat) (ds : List ℚ) (s2 : gradient_animation_state) (rng2 : List Nat),
        settings_ptr.animated_gradient_enabled = true →
        settings_ptr.parsed_gradient_colors ≠ none →
        2 ≤ settings_ptr.num_parsed_gradient_colors →
        settings_ptr.animated_gradient_steps < 2147483647 →
        gradient_animation_init_and_start animator anim_state settings_ptr rng
          = some (animator1, s1, rng1) →
        run_ticks ds s1 rng1 = some (s2, rng2) →
        0 ≤ s2.current_interpolation_step
          ∧ s2.current_interpolation_step ≤ s2.palette_total_steps) := by
  have hinit : ∀ (animator : animation) (anim_state : gradient_animation_state)
      (st : settings) (rng : List Nat) (animator1 : animation) (s1 : gradient_animation_state)
      (rng1 : List Nat),
      st.animated_gradient_enabled = true → st.parsed_gradient_colors ≠ none →
      2 ≤ st.num_parsed_gradient_colors →
      gradient_animation_init_and_start animator anim_state st rng
        = some (animator1, s1, rng1) →
      0 ≤ s1.current_interpolation_step
        ∧ s1.current_interpolation_step ≤ s1.palette_total_steps
        ∧ s1.palette_total_steps = max st.animated_gradient_steps 1 := by
    intro animator anim_state st rng animator1 s1 rng1 hen hpal hnum h
    unfold gradient_animation_init_and_start at h
    have hstart : ¬ (st.animated_gradient_enabled = false ∨ st.parsed_gradient_colors = none
        ∨ st.num_parsed_gradient_colors < 2) := by
      rw [hen]
      simp only [Bool.true_eq_false, false_or, not_or, not_lt]
      exact ⟨hpal, hnum⟩
    rw [if_neg hstart] at h
    simp only at h
    split at h
    · simp at h
    · rename_i s2 rng2 hp1
      split at h
      · simp at h
      · rename_i s4 rng4 hp2
        simp only [Option.some.injEq, Prod.mk.injEq] at h
        have f1 := pick_next_random_colors_frame _ _ _ _ hp1
        have f2 := pick_next_random_colors_frame _ _ _ _ hp2
        rw [← h.2.1, f2]
        simp only
        rw [f1]
        simp only
        refine ⟨le_refl 0, ?_, ?_⟩
        · split_ifs <;> omega
        · split_ifs <;> omega
  refine ⟨hinit, ?_, ?_⟩
  · intro dt s rng s1 rng1 upd h0 hT hmax h
    exact callback_keeps_step_range dt s rng s1 rng1 upd h0 hT hmax h
  · intro animator anim_state st rng animator1 s1 rng1 ds s2 rng2 hen hpal hnum hsteps h hrun
    obtain ⟨i0, i1, i2⟩ := hinit animator anim_state st rng animator1 s1 rng1 hen hpal hnum h
    have hmax : s1.palette_total_steps < 2147483647 := by rw [i2]; omega
    have := run_ticks_preserves
      (fun x => 0 ≤ x.current_interpolation_step
        ∧ x.current_interpolation_step ≤ x.palette_total_steps
        ∧ x.palette_total_steps < 2147483647)
      (fun dt x r x1 r1 upd hx hcb => by
        obtain ⟨a, b, c⟩ := callback_keeps_step_range dt x r x1 r1 upd hx.1 hx.2.1 hx.2.2 hcb
        exact ⟨a, b, by rw [c]; exact hx.2.2⟩)
      ds s1 rng1 s2 rng2 ⟨i0, i1, hmax⟩ hrun
    exact ⟨this.1, this.2.1⟩

/-! ## A tick that ends in a rollover -/

/-- The loop run on exact times from step `k ≤ T` with exactly `T + 1 - k` whole step
durations in the accumulator (and a remainder `r`): it steps up to `T`, rolls over once
and stops. -/
theorem tick_loop_to_rollover (e : Int) (he : -1074 ≤ e) (n : Nat)
    (s : gradient_animation_state) (rng : List Nat)
    (u : Bool) (r : ℚ) (s2 : gradient_animation_state) (rng2 : List Nat)
    (hdur : s.step_duration_usec > 0)
    (hn : s.current_interpolation_step + (n : Int) = s.palette_total_steps)
    (hT : s.palette_total_steps + 1 < 2 ^ 31) (h5 : -2 ^ 31 ≤ s.current_interpolation_step + 1)
    (hacc : s.time_accumulator_usec = ((n : ℚ) + 1) * s.step_duration_usec + r)
    (hr0 : 0 ≤ r) (hr : r < s.step_duration_usec)
    (ha : whole_units e s.time_accumulator_usec) (hd : whole_units e s.step_duration_usec)
    (hb : s.time_accumulator_usec < 2 ^ (e + 53))
    (hp : pick_next_random_colors (promoted s r) rng = some (s2, rng2)) :
    tick_loop s rng u = some (s2, rng2, true) := by
  have hn0 : (0 : ℚ) ≤ (n : ℚ) := Nat.cast_nonneg n
  rw [tick_loop_steps e he n s rng u hdur (by rw [hacc]; nlinarith) (by omega) (by omega) h5
    ha hd hb]
  have hacc2 : (advance s n).time_accumulator_usec = s.step_duration_usec + r := by
    simp only [advance]
    rw [hacc]; ring
  have hsub : double_sub (advance s n).time_accumulator_usec (advance s n).step_duration_usec
      = r := by
    rw [double_sub_exact e he _ _
      (by simpa [advance] using whole_units_sub e _ _ ha (whole_units_nat_mul e n _ hd))
      (by simpa [advance] using hd)
      (by simp only [advance]; nlinarith)
      (by simpa [advance] using hdur.le)
      (by rw [hacc2]; simp only [advance]; linarith), hacc2]
    simp [advance]
  have hinc : int_incr (advance s n).current_interpolation_step = s.palette_total_steps + 1 := by
    rw [int_incr_eq _ (by simp only [advance]; omega) (by simp only [advance]; omega)]
    simp only [advance]
    omega
  have e1 : ({ advance s n with
        time_accumulator_usec :=
          double_sub (advance s n).time_accumulator_usec (advance s n).step_duration_usec
        current_interpolation_step := 0
        current_tl_color := (advance s n).next_tl_color
        current_br_color := (advance s n).next_br_color } : gradient_animation_state)
      = promoted s r := by
    rw [hsub]
    ext <;> simp [advance, promoted]
  rw [tick_loop_rollover (advance s n) rng _ (by rw [hacc2]; simp only [advance]; linarith)
    (by simpa [advance] using hdur) (by rw [hsub, hacc2]; linarith)
    (by rw [hinc]; simp only [advance]; omega), e1, hp]
  simp only [Option.some_bind]
  have hf := pick_next_random_colors_frame _ _ _ _ hp
  apply tick_loop_done
  rw [hf]
  simp only [promoted, not_and, ge_iff_le]
  intro h
  linarith

/-- A tick on exact times from step `k ≤ T` after which the accumulated time is exactly
`T + 1 - k` step durations plus a remainder `r` performs exactly one rollover. -/
theorem callback_rollover (e : Int) (n : Nat) (s : gradient_animation_state) (rng : List Nat)
    (dt r : ℚ) (s2 : gradient_animation_state) (rng2 : List Nat)
    (hex : exact_times e s.time_accumulator_usec s.step_duration_usec dt)
    (hdur : s.step_duration_usec > 0)
    (hn : s.current_interpolation_step + (n : Int) = s.palette_total_steps)
    (hT : s.palette_total_steps + 1 < 2 ^ 31) (h5 : -2 ^ 31 ≤ s.current_interpolation_step + 1)
    (hacc : s.time_accumulator_usec + dt = ((n : ℚ) + 1) * s.step_duration_usec + r)
    (hr0 : 0 ≤ r) (hr : r < s.step_duration_usec)
    (hp : pick_next_random_colors (promoted s r) rng = some (s2, rng2)) :
    gradient_animation_callback dt s rng = some (s2, rng2, some (update_of s2)) := by
  have hadd := double_add_exact e _ _ _ hex
  obtain ⟨he, ha, hd, hdt, _, _, hb⟩ := hex
  have e1 : promoted { s with time_accumulator_usec := s.time_accumulator_usec + dt } r
      = promoted s r := by
    ext <;> simp [promoted]
  have hl := tick_loop_to_rollover e he n
    { s with time_accumulator_usec := s.time_accumulator_usec + dt } rng false r s2 rng2
    (by simpa using hdur) (by simpa using hn) (by simpa using hT) (by simpa using h5)
    (by simpa using hacc) hr0 (by simpa using hr)
    (by simpa using whole_units_add e _ _ ha hdt) (by simpa using hd) (by simpa using hb)
    (by rw [e1]; exact hp)
  rw [← hadd] at hl
  rw [callback_of_loop dt s rng _ _ _ hl]
  simp

/-- A tick with no elapsed time on a state whose accumulator, a `double`, is below one
step duration changes nothing. -/
theorem callback_zero (s : gradient_animation_state) (rng : List Nat)
    (hd : is_double s.time_accumulator_usec)
    (h : s.time_accumulator_usec < s.step_duration_usec) :
    ∃ upd, gradient_animation_callback 0 s rng = some (s, rng, upd) := by
  have hadd : double_add s.time_accumulator_usec 0 = s.time_accumulator_usec := by
    unfold double_add
    rw [add_zero]
    exact hd
  have e1 : ({ s with time_accumulator_usec := double_add s.time_accumulator_usec 0 }
      : gradient_animation_state) = s := by
    rw [hadd]
  have hl : tick_loop { s with time_accumulator_usec := double_add s.time_accumulator_usec 0 }
      rng false = some (s, rng, false) := by
    rw [e1, tick_loop_done s rng false (by simp only [not_and, ge_iff_le]; intro h1; linarith)]
  exact ⟨_, callback_of_loop 0 s rng _ _ _ hl⟩

theorem run_ticks_zero (ds : List ℚ) (s : gradient_animation_state) (rng : List Nat)
    (hz : ∀ d ∈ ds, d = 0) (hd : is_double s.time_accumulator_usec)
    (h : s.time_accumulator_usec < s.step_duration_usec) :
    run_ticks ds s rng = some (s, rng) := by
  induction ds with
  | nil => rfl
  | cons d ds ih =>
    have hd0 : d = 0 := hz d (List.mem_cons_self d ds)
    obtain ⟨upd, hc⟩ := callback_zero s rng hd h
    rw [run_ticks, hd0, hc]
    exact ih (fun x hx => hz x (List.mem_cons_of_mem d hx))

theorem sum_nonneg_of_nonneg (ds : List ℚ) (h : ∀ d ∈ ds, 0 ≤ d) : 0 ≤ ds.sum := by
  induction ds with
  | nil => simp
  | cons d ds ih =>
    rw [List.sum_cons]
    have h1 := h d (List.mem_cons_self d ds)
    have h2 := ih (fun x hx => h x (List.mem_cons_of_mem d hx))
    linarith

theorem all_zero_of_sum_zero (ds : List ℚ) (h : ∀ d ∈ ds, 0 ≤ d) (hs : ds.sum = 0) :
    ∀ d ∈ ds, d = 0 := by
  induction ds with
  | nil => simp
  | cons d ds ih =>
    rw [List.sum_cons] at hs
    have h1 := h d (List.mem_cons_self d ds)
    have h2 := sum_nonneg_of_nonneg ds (fun x hx => h x (List.mem_cons_of_mem d hx))
    intro x hx
    rcases List.mem_cons.mp hx with hx | hx
    · rw [hx]; linarith
    · exact ih (fun y hy => h y (List.mem_cons_of_mem d hy)) (by linarith) x hx

/-- From step `k ≤ T` with accumulator `a < step_duration`, ticks with non-negative
deltas that sum to exactly the time left until the rollover, `(T + 1 - k) * step_duration
- a`, end in the state of exactly one rollover, when all times are whole numbers of a
unit `2 ^ e` and `(T + 1) * step_duration` is below `2 ^ 53` units. -/
theorem run_ticks_until_rollover (e : Int) (he : -1074 ≤ e) (ds : List ℚ) :
    ∀ (x : gradient_animation_state) (rng : List Nat) (s2 : gradient_animation_state)
      (rng2 : List Nat),
      x.step_duration_usec > 0 → 0 ≤ x.current_interpolation_step →
      x.current_interpolation_step ≤ x.palette_total_steps →
      x.palette_total_steps + 1 < 2 ^ 31 →
      0 ≤ x.time_accumulator_usec → x.time_accumulator_usec < x.step_duration_usec →
      whole_units e x.time_accumulator_usec → whole_units e x.step_duration_usec →
      ((x.palette_total_steps : ℚ) + 1) * x.step_duration_usec < 2 ^ (e + 53) →
      (∀ d ∈ ds, 0 ≤ d ∧ whole_units e d) →
      ds.sum = ((x.palette_total_steps : ℚ) + 1 - (x.current_interpolation_step : ℚ))
          * x.step_duration_usec - x.time_accumulator_usec →
      pick_next_random_colors (promoted x 0) rng = some (s2, rng2) →
      run_ticks ds x rng = some (s2, rng2) := by
  induction ds with
  | nil =>
    intro x rng s2 rng2 hdur h0 hT hT31 ha0 ha _ _ _ _ hsum _
    exfalso
    have hk : (1 : ℚ) ≤ (x.palette_total_steps : ℚ) + 1 - (x.current_interpolation_step : ℚ) := by
      have : (x.current_interpolation_step : ℚ) ≤ (x.palette_total_steps : ℚ) := by
        exact_mod_cast hT
      linarith
    rw [List.sum_nil] at hsum
    nlinarith
  | cons d ds ih =>
    intro x rng s2 rng2 hdur h0 hT hT31 ha0 ha hwa hwd hbound hnn hsum hp
    have hd : 0 ≤ d := (hnn d (List.mem_cons_self d ds)).1
    have hwdt : whole_units e d := (hnn d (List.mem_cons_self d ds)).2
    have hnn2 : ∀ y ∈ ds, 0 ≤ y ∧ whole_units e y :=
      fun y hy => hnn y (List.mem_cons_of_mem d hy)
    have hnn3 : ∀ y ∈ ds, 0 ≤ y := fun y hy => (hnn2 y hy).1
    have hs2 := sum_nonneg_of_nonneg ds hnn3
    rw [List.sum_cons] at hsum
    have hstepq : (0 : ℚ) ≤ (x.current_interpolation_step : ℚ) := by exact_mod_cast h0
    have hsmall : x.time_accumulator_usec + d < 2 ^ (e + 53) := by
      have : x.time_accumulator_usec + d
          ≤ ((x.palette_total_steps : ℚ) + 1) * x.step_duration_usec := by
        nlinarith
      linarith
    have hex : exact_times e x.time_accumulator_usec x.step_duration_usec d :=
      ⟨he, hwa, hwd, hwdt, ha0, hd, hsmall⟩
    by_cases hlt : x.time_accumulator_usec + d
        < ((x.palette_total_steps : ℚ) + 1 - (x.current_interpolation_step : ℚ))
          * x.step_duration_usec
    · have hq0 : 0 ≤ (x.time_accumulator_usec + d) / x.step_duration_usec :=
        div_nonneg (by linarith) hdur.le
      have hj1 : ((⌊(x.time_accumulator_usec + d) / x.step_duration_usec⌋₊ : Nat) : ℚ)
          * x.step_duration_usec ≤ x.time_accumulator_usec + d := by
        have := Nat.floor_le hq0
        rwa [le_div_iff₀ hdur] at this
      have hj2 : x.time_accumulator_usec + d
          < (((⌊(x.time_accumulator_usec + d) / x.step_duration_usec⌋₊ : Nat) : ℚ) + 1)
            * x.step_duration_usec := by
        have := Nat.lt_floor_add_one ((x.time_accumulator_usec + d) / x.step_duration_usec)
        rwa [div_lt_iff₀ hdur] at this
      generalize ⌊(x.time_accumulator_usec + d) / x.step_duration_usec⌋₊ = j at hj1 hj2
      have hjq : (j : ℚ) < (x.palette_total_steps : ℚ) + 1 - (x.current_interpolation_step : ℚ) := by
        by_contra hcon
        rw [not_lt] at hcon
        have := mul_le_mul_of_nonneg_right hcon hdur.le
        linarith
      have hjz : x.current_interpolation_step + (j : Int) ≤ x.palette_total_steps := by
        have : ((j : Int) : ℚ) < ((x.palette_total_steps + 1 - x.current_interpolation_step : Int) : ℚ) := by
          push_cast
          exact hjq
        have := Int.cast_lt.mp this
        omega
      have hc := callback_no_rollover e j x rng d hex hdur hj1 hj2 hjz (by omega) (by omega)
      rw [run_ticks, hc]
      simp only
      have e1 : promoted (after_tick x d j) 0 = promoted x 0 := by
        ext <;> simp [promoted, after_tick]
      apply ih (after_tick x d j) rng s2 rng2
      · simpa [after_tick] using hdur
      · simp only [after_tick]; omega
      · simpa [after_tick] using hjz
      · simpa [after_tick] using hT31
      · simp only [after_tick]; linarith
      · simp only [after_tick]; linarith
      · simpa [after_tick] using
          whole_units_sub e _ _ (whole_units_add e _ _ hwa hwdt) (whole_units_nat_mul e j _ hwd)
      · simpa [after_tick] using hwd
      · simpa [after_tick] using hbound
      · exact hnn2
      · simp only [after_tick]
        push_cast
        linarith
      · rw [e1]; exact hp
    · have heq : x.time_accumulator_usec + d
          = ((x.palette_total_steps : ℚ) + 1 - (x.current_interpolation_step : ℚ))
            * x.step_duration_usec := by
        rw [not_lt] at hlt
        linarith
      have hz : ds.sum = 0 := by linarith
      have hn : x.current_interpolation_step
          + (((x.palette_total_steps - x.current_interpolation_step).toNat : Nat) : Int)
          = x.palette_total_steps := by
        rw [Int.toNat_of_nonneg (by omega)]
        omega
      have hnq : (((x.palette_total_steps - x.current_interpolation_step).toNat : Nat) : ℚ)
          = (x.palette_total_steps : ℚ) - (x.current_interpolation_step : ℚ) := by
        have : ((((x.palette_total_steps - x.current_interpolation_step).toNat : Nat) : Int) : ℚ)
            = ((x.palette_total_steps - x.current_interpolation_step : Int) : ℚ) := by
          rw [Int.toNat_of_nonneg (by omega)]
        push_cast at this
        exact this
      have hc := callback_rollover e _ x rng d 0 s2 rng2 hex hdur hn hT31 (by omega)
        (by rw [heq, hnq]; ring) (le_refl 0) hdur hp
      rw [run_ticks, hc]
      simp only
      have hf := pick_next_random_colors_frame _ _ _ _ hp
      apply run_ticks_zero ds s2 rng2 (all_zero_of_sum_zero ds hnn3 hz)
      · rw [hf]
        simp only [promoted]
        exact is_double_zero
      · rw [hf]
        simp only [promoted]
        exact hdur

/-- A tick whose `double` sum of accumulator and delta is `a1`, below one step
duration, fires no step, draws nothing and publishes only when the step is 0. -/
theorem callback_idle (s : gradient_animation_state) (rng : List Nat) (dt a1 : ℚ)
    (ha : double_add s.time_accumulator_usec dt = a1) (h : a1 < s.step_duration_usec) :
    gradient_animation_callback dt s rng
      = some ({ s with time_accumulator_usec := a1 }, rng,
          if s.current_interpolation_step = 0
          then some (update_of { s with time_accumulator_usec := a1 })
          else none) := by
  have hl : tick_loop { s with time_accumulator_usec := double_add s.time_accumulator_usec dt }
      rng false = some ({ s with time_accumulator_usec := a1 }, rng, false) := by
    rw [ha, tick_loop_done _ rng false (by simp only [not_and, ge_iff_le]; intro h1; linarith)]
  rw [callback_of_loop dt s rng _ _ _ hl]
  simp

/-- Ticks of 4 and 7 seconds, whole numbers of microseconds. -/
theorem ticks_4_7_whole : ∀ d ∈ ([4000000, 7000000] : List ℚ), 0 ≤ d ∧ whole_units 0 d := by
  intro d hd
  simp only [List.mem_cons, List.mem_singleton, List.not_mem_nil, or_false] at hd
  rcases hd with hd | hd
  · rw [hd]; exact ⟨by norm_num, ⟨4000000, by norm_num⟩⟩
  · rw [hd]; exact ⟨by norm_num, ⟨7000000, by norm_num⟩⟩

/-- The step duration of ten seconds in ten steps is one second. -/
theorem sample_step_duration : double_div (double_mul 10 1000000) 10 = 1000000 := by
  have h1 : double_mul 10 1000000 = 10000000 := by
    unfold double_mul
    have := round_double_int 10000000 (by norm_num)
    norm_num at this ⊢
    exact this
  rw [h1]
  unfold double_div
  have := round_double_int 1000000 (by norm_num)
  norm_num at this ⊢
  exact this

/-- Starting on the sample settings with draws `0, 1, 1, 0` gives the sample state. -/
theorem sample_start (a : animation) (s : gradient_animation_state) :
    gradient_animation_init_and_start a s sample_settings [0, 1, 1, 0]
      = some ({ link := true, proc := some tick_proc.gradient_animation_callback },
          sample_state, []) := by
  simp [gradient_animation_init_and_start, sample_settings, pick_next_random_colors,
    pick_second, animation_start, animation_init, sample_state, sample_step_duration]

/-- A tick of 2.5 seconds from step 9 of 10 of the sample transition: one plain step,
then a rollover. -/
theorem sample_rollover_tick :
    gradient_animation_callback 2500000 sample_state_late [1, 0]
      = some (sample_state_rolled, [], some (update_of sample_state_rolled)) := by
  refine callback_rollover 0 1 sample_state_late [1, 0] 2500000 500000 sample_state_rolled []
    (mod_cast (sample_exact_times sample_state_late 2500000 (Or.inl rfl) rfl (by norm_num)
      (by norm_num)))
    (by norm_num [sample_state_late, sample_state]) (by decide) (by decide) (by decide)
    (by norm_num [sample_state_late, sample_state]) (by norm_num)
    (by norm_num [sample_state_late, sample_state]) ?_
  simp [pick_next_random_colors, pick_second, sample_state_late, sample_state, promoted,
    sample_state_rolled]

/-- Witness for `step_within_total_steps_invariant`: the start on the sample settings, and
a tick that fires a step and a rollover. -/
theorem step_within_total_steps_invariant_witness :
    (gradient_animation_init_and_start { link := false, proc := none }
          sample_state_late sample_settings [0, 1, 1, 0]
        = some ({ link := true, proc := some tick_proc.gradient_animation_callback },
            sample_state, [])
        ∧ 0 ≤ sample_state.current_interpolation_step
        ∧ sample_state.current_interpolation_step ≤ sample_state.palette_total_steps
        ∧ sample_state.palette_total_steps = max sample_settings.animated_gradient_steps 1)
      ∧ ((sample_state_late.palette_total_steps < 2147483647
          ∧ gradient_animation_callback 2500000 sample_state_late [1, 0]
            = some (sample_state_rolled, [], some (update_of sample_state_rolled)))
        ∧ 0 ≤ sample_state_rolled.current_interpolation_step
        ∧ sample_state_rolled.current_interpolation_step
            ≤ sample_state_rolled.palette_total_steps
        ∧ sample_state_rolled.palette_total_steps = sample_state_late.palette_total_steps) :=
  ⟨⟨sample_start _ _,
      step_within_total_steps_invariant.1 { link := false, proc := none } sample_state_late
        sample_settings [0, 1, 1, 0] _ sample_state [] rfl (by simp [sample_settings])
        (by decide) (sample_start _ _)⟩,
    ⟨⟨by decide, sample_rollover_tick⟩,
      step_within_total_steps_invariant.2.1 2500000 sample_state_late [1, 0]
        sample_state_rolled [] _ (by decide) (by decide) (by decide) sample_rollover_tick⟩⟩

/-- A start that goes ahead is two palette selections on the configured state, the first
pair promoted to the current colours in between, and the registration of the callback. -/
theorem init_started (animator : animation) (anim_state : gradient_animation_state)
    (st : settings) (rng : List Nat) (a1 : animation) (s1 : gradient_animation_state)
    (rng1 : List Nat) (hc : start_conditions st)
    (h : gradient_animation_init_and_start animator anim_state st rng = some (a1, s1, rng1)) :
    ∃ p1 rngA,
      pick_next_random_colors (configured anim_state st) rng = some (p1, rngA)
      ∧ pick_next_random_colors
          { p1 with current_tl_color := p1.next_tl_color, current_br_color := p1.next_br_color }
          rngA = some (s1, rng1)
      ∧ a1 = { link := true, proc := some tick_proc.gradient_animation_callback } := by
  unfold gradient_animation_init_and_start at h
  have hstart : ¬ (st.animated_gradient_enabled = false ∨ st.parsed_gradient_colors = none
      ∨ st.num_parsed_gradient_colors < 2) := by
    obtain ⟨h1, h2, h3⟩ := hc
    rw [h1]
    simp only [Bool.true_eq_false, false_or, not_or, not_lt]
    exact ⟨h2, h3⟩
  rw [if_neg hstart] at h
  have hT : (0 : Int) < (if st.animated_gradient_steps > 0 then st.animated_gradient_steps
      else 1) := by
    split_ifs <;> omega
  have hcfg : ({ anim_state with
        color_palette := st.parsed_gradient_colors
        num_palette_colors := st.num_parsed_gradient_colors
        palette_total_steps :=
          if st.animated_gradient_steps > 0 then st.animated_gradient_steps else 1
        step_duration_usec :=
          if (if st.animated_gradient_steps > 0 then st.animated_gradient_steps else 1) > 0
              ∧ st.animated_gradient_duration_sec > 0 then
            double_div (double_mul st.animated_gradient_duration_sec 1000000)
              (((if st.animated_gradient_steps > 0 then st.animated_gradient_steps
                    else 1 : Int)) : ℚ)
          else 1000000
        current_interpolation_step := 0
        time_accumulator_usec := 0 } : gradient_animation_state)
      = configured anim_state st := by
    unfold configured
    simp only [gt_iff_lt, hT, true_and]
  simp only at h
  rw [hcfg] at h
  split at h
  · simp at h
  · rename_i p1 rngA hp1
    split at h
    · simp at h
    · rename_i s4 rng4 hp2
      simp only [Option.some.injEq, Prod.mk.injEq] at h
      refine ⟨p1, rngA, hp1, ?_, ?_⟩
      · rw [← h.2.1, ← h.2.2]; exact hp2
      · rw [← h.1]; rfl

/-- C17: the alpha byte of the blend is the alpha byte of `color_from` when that is
non-zero and `0xFF` when it is zero; it is the same for every `color_to`, `step` and
`max_steps`, and it is never zero. -/
theorem interpolate_alpha_policy (color_from color_to : Nat) (step max_steps : Int) :
    alphaOf (interpolate_color_value color_from color_to step max_steps)
        = (if alphaOf color_from = 0 then 0xFF else alphaOf color_from)
      ∧ (∀ (color_to2 : Nat) (step2 max_steps2 : Int),
          alphaOf (interpolate_color_value color_from color_to2 step2 max_steps2)
            = alphaOf (interpolate_color_value color_from color_to step max_steps))
      ∧ alphaOf (interpolate_color_value color_from color_to step max_steps) ≠ 0 := by
  refine ⟨?_, ?_, ?_⟩
  · rw [alphaOf_interpolate]; rfl
  · intro ct s N
    rw [alphaOf_interpolate, alphaOf_interpolate]
  · rw [alphaOf_interpolate]
    unfold finalAlpha
    split_ifs with h
    · decide
    · exact h

/-- C20: on a state whose palette is null or has fewer than 2 colours,
`pick_next_random_colors` returns without drawing (the draws are all still there), with
both `next_*` colours opaque black `0xFF000000` and every other field unchanged. -/
theorem pick_degrades_to_black (s : gradient_animation_state) (rng : List Nat)
    (h : s.color_palette = none ∨ s.num_palette_colors < 2) :
    pick_next_random_colors s rng
      = some ({ s with next_tl_color := 0xFF000000, next_br_color := 0xFF000000 }, rng) := by
  unfold pick_next_random_colors
  split
  · rfl
  · rename_i pal hpal
    rcases h with h | h
    · rw [h] at hpal; simp at hpal
    · rw [if_pos h]

/-- Witness for `pick_degrades_to_black`: the sample state with its palette count set
to 1. -/
theorem pick_degrades_to_black_witness :
    ({ sample_state with num_palette_colors := 1 } : gradient_animation_state).num_palette_colors
        < 2
      ∧ pick_next_random_colors { sample_state with num_palette_colors := 1 } [3, 4]
        = some ({ sample_state with
                  num_palette_colors := 1
                  next_tl_color := 0xFF000000, next_br_color := 0xFF000000 }, [3, 4]) :=
  ⟨by decide,
   pick_degrades_to_black { sample_state with num_palette_colors := 1 } [3, 4]
     (Or.inr (by decide))⟩

/-- The fields a start that goes ahead has configured. -/
theorem init_fields (animator : animation) (anim_state : gradient_animation_state)
    (st : settings) (rng : List Nat) (a1 : animation) (s1 : gradient_animation_state)
    (rng1 : List Nat) (hc : start_conditions st)
    (h : gradient_animation_init_and_start animator anim_state st rng = some (a1, s1, rng1)) :
    s1.palette_total_steps = max st.animated_gradient_steps 1
      ∧ s1.step_duration_usec
          = (if st.animated_gradient_duration_sec > 0 then
              double_div (double_mul st.animated_gradient_duration_sec 1000000)
                (s1.palette_total_steps : ℚ)
            else 1000000)
      ∧ s1.current_interpolation_step = 0
      ∧ s1.time_accumulator_usec = 0 := by
  obtain ⟨p1, rngA, hp1, hp2, _⟩ := init_started animator anim_state st rng a1 s1 rng1 hc h
  have f1 := pick_next_random_colors_frame _ _ _ _ hp1
  have f2 := pick_next_random_colors_frame _ _ _ _ hp2
  have hT : s1.palette_total_steps = max st.animated_gradient_steps 1 := by
    rw [f2]; simp only; rw [f1]; simp only [configured]
    split_ifs <;> omega
  have hTe : (if st.animated_gradient_steps > 0 then st.animated_gradient_steps else 1)
      = s1.palette_total_steps := by
    rw [hT]; split_ifs <;> omega
  refine ⟨hT, ?_, ?_, ?_⟩
  · rw [← hTe, f2]; simp only; rw [f1]; simp only [configured]
  · rw [f2]; simp only; rw [f1]; simp only [configured]
  · rw [f2]; simp only; rw [f1]; simp only [configured]

theorem isDouble_of_int_div (m : Int) (k : Nat) (hm : |m| < 2 ^ 53) (hk : k ≤ 64) :
    IsDouble ((m : ℚ) / 2 ^ k) := ⟨m, k, hm, hk, rfl⟩

theorem fl_ge (fl : ℚ → ℚ) (h : RoundsLikeDouble fl) (c x : ℚ) (hc : IsDouble c)
    (hx : c ≤ x) : c ≤ fl x := by
  have := h.1 c x hx
  rwa [h.2 c hc] at this

theorem fl_le (fl : ℚ → ℚ) (h : RoundsLikeDouble fl) (c x : ℚ) (hc : IsDouble c)
    (hx : x ≤ c) : fl x ≤ c := by
  have := h.1 x c hx
  rwa [h.2 c hc] at this

theorem round_fixed64_roundsLikeDouble : RoundsLikeDouble round_fixed64 := by
  constructor
  · intro x y hxy
    unfold round_fixed64
    have h1 : ⌊x * 2 ^ 64 + 1 / 2⌋ ≤ ⌊y * 2 ^ 64 + 1 / 2⌋ := by
      apply Int.floor_le_floor
      have : (0 : ℚ) < 2 ^ 64 := by positivity
      nlinarith
    have h2 : ((⌊x * 2 ^ 64 + 1 / 2⌋ : Int) : ℚ) ≤ ((⌊y * 2 ^ 64 + 1 / 2⌋ : Int) : ℚ) := by
      exact_mod_cast h1
    exact div_le_div_of_nonneg_right h2 (by positivity)
  · rintro c ⟨m, k, _, hk, rfl⟩
    unfold round_fixed64
    have hpow : (2 : ℚ) ^ 64 = 2 ^ k * 2 ^ (64 - k) := by
      rw [← pow_add]; congr 1; omega
    have hk0 : (2 : ℚ) ^ k ≠ 0 := by positivity
    have e : (m : ℚ) / 2 ^ k * 2 ^ 64 = ((m * 2 ^ (64 - k) : Int) : ℚ) := by
      rw [hpow]; push_cast; field_simp; ring
    have hf : ⌊(m : ℚ) / 2 ^ k * 2 ^ 64 + 1 / 2⌋ = m * 2 ^ (64 - k) := by
      rw [e, Int.floor_eq_iff]
      constructor <;> linarith
    rw [hf, hpow]
    push_cast
    field_simp
    ring

/-- With `double` rounding the interpolation formula truncates to the same integer as
with exact arithmetic, for 8-bit channels and `0 < step < max_steps < 2 ^ 31`. -/
theorem interpolate_channel_rounded_eq (fl : ℚ → ℚ) (hfl : RoundsLikeDouble fl) (a b : Nat)
    (s N : Int) (ha : a < 256) (hb : b < 256) (h0 : 0 < s) (hs : s < N) (hN : N < 2 ^ 31) :
    interpolate_channel_rounded fl a b s N = interpolate_channel a b s N := by
  have hNpos : (0 : Int) < N := by omega
  have hNq : (0 : ℚ) < (N : ℚ) := by exact_mod_cast hNpos
  have hclosed := interpolate_channel_closed a b s N ha hb hNpos h0.le hs.le
  obtain ⟨kl, ku⟩ := floor_lerp_bounds a b s N hNpos h0.le hs.le
  have hmax : max a b < 256 := max_lt ha hb
  -- the target integer
  generalize hk : ⌊lerp a b s N⌋ = k0 at hclosed kl ku
  have hk0 : 0 ≤ k0 := by omega
  have hk255 : k0 ≤ 255 := by omega
  have hfl1 : (k0 : ℚ) ≤ lerp a b s N := by rw [← hk]; exact Int.floor_le _
  have hfl2 : lerp a b s N < (k0 : ℚ) + 1 := by rw [← hk]; exact Int.lt_floor_add_one _
  -- the exact product
  set p : Int := ((b : Int) - (a : Int)) * s with hp
  have hpabs : |p| < 2 ^ 53 := by
    have h1 : |(b : Int) - (a : Int)| ≤ 255 := by rw [abs_le]; constructor <;> omega
    have h2 : |s| < 2 ^ 31 := by rw [abs_lt]; constructor <;> omega
    rw [hp, abs_mul]
    have h3 : (0 : Int) ≤ |s| := abs_nonneg s
    have h4 : (0 : Int) ≤ |(b : Int) - (a : Int)| := abs_nonneg _
    nlinarith
  have hprod : fl ((((b : Int) - (a : Int) : Int) : ℚ) * (s : ℚ)) = (p : ℚ) := by
    have e : (((b : Int) - (a : Int) : Int) : ℚ) * (s : ℚ) = (p : ℚ) / 2 ^ 0 := by
      rw [hp]; push_cast; ring
    rw [e, hfl.2 _ (isDouble_of_int_div p 0 hpabs (by omega))]
    simp
  have hlerp : lerp a b s N = (a : ℚ) + (p : ℚ) / (N : ℚ) + 1 / 2 := by
    unfold lerp; rw [hp]; push_cast; ring
  rw [hlerp] at hfl1 hfl2
  -- the exact value is at least 2 ^ (-32) below the next integer
  have hgap : (a : ℚ) + (p : ℚ) / (N : ℚ) + 1 / 2 ≤ (k0 : ℚ) + 1 - 1 / 2 ^ 32 := by
    have hi : 2 * (a : Int) * N + 2 * p + N < 2 * N * (k0 + 1) := by
      have : (a : ℚ) + (p : ℚ) / (N : ℚ) + 1 / 2
          = ((2 * (a : Int) * N + 2 * p + N : Int) : ℚ) / (2 * (N : ℚ)) := by
        push_cast; field_simp; ring
      rw [this, div_lt_iff₀ (by linarith)] at hfl2
      have h' : ((2 * (a : Int) * N + 2 * p + N : Int) : ℚ) < ((2 * N * (k0 + 1) : Int) : ℚ) := by
        push_cast; push_cast at hfl2; linarith
      exact Int.cast_lt.mp h'
    have hi2 : 2 * (a : Int) * N + 2 * p + N ≤ 2 * N * (k0 + 1) - 1 := by omega
    have hq : ((2 * (a : Int) * N + 2 * p + N : Int) : ℚ) ≤ ((2 * N * (k0 + 1) - 1 : Int) : ℚ) := by
      exact_mod_cast hi2
    push_cast at hq
    have hN32 : 2 * (N : ℚ) ≤ 2 ^ 32 := by
      have : 2 * N ≤ 2 ^ 32 := by omega
      exact_mod_cast this
    have e1 : (a : ℚ) + (p : ℚ) / (N : ℚ) + 1 / 2
        = (2 * (a : ℚ) * N + 2 * p + N) / (2 * (N : ℚ)) := by
      field_simp; ring
    have e2 : (2 * (a : ℚ) * N + 2 * p + N) / (2 * (N : ℚ))
        ≤ (2 * (N : ℚ) * ((k0 : ℚ) + 1) - 1) / (2 * (N : ℚ)) :=
      div_le_div_of_nonneg_right hq (by linarith)
    have e3 : (2 * (N : ℚ) * ((k0 : ℚ) + 1) - 1) / (2 * (N : ℚ))
        = (k0 : ℚ) + 1 - 1 / (2 * (N : ℚ)) := by
      field_simp
      ring
    have e4 : (1 : ℚ) / 2 ^ 32 ≤ 1 / (2 * (N : ℚ)) :=
      one_div_le_one_div_of_le (by linarith) hN32
    linarith
  -- lower bounds through the three roundings
  have dL1 : IsDouble (((2 * k0 - 1 - 2 * (a : Int) : Int) : ℚ) / 2 ^ 1) :=
    isDouble_of_int_div _ 1 (by rw [abs_lt]; constructor <;> omega) (by omega)
  have dL2 : IsDouble (((2 * k0 - 1 : Int) : ℚ) / 2 ^ 1) :=
    isDouble_of_int_div _ 1 (by rw [abs_lt]; constructor <;> omega) (by omega)
  have dL3 : IsDouble (((k0 : Int) : ℚ) / 2 ^ 0) :=
    isDouble_of_int_div _ 0 (by rw [abs_lt]; constructor <;> omega) (by omega)
  have dU1 : IsDouble ((((2 * k0 + 1 - 2 * (a : Int)) * 2 ^ 31 - 1 : Int) : ℚ) / 2 ^ 32) :=
    isDouble_of_int_div _ 32 (by rw [abs_lt]; constructor <;> omega) (by omega)
  have dU2 : IsDouble ((((2 * k0 + 1) * 2 ^ 31 - 1 : Int) : ℚ) / 2 ^ 32) :=
    isDouble_of_int_div _ 32 (by rw [abs_lt]; constructor <;> omega) (by omega)
  have dU3 : IsDouble ((((k0 + 1) * 2 ^ 32 - 1 : Int) : ℚ) / 2 ^ 32) :=
    isDouble_of_int_div _ 32 (by rw [abs_lt]; constructor <;> omega) (by omega)
  set q := fl ((p : ℚ) / (N : ℚ)) with hq
  have q1 : ((2 * k0 - 1 - 2 * (a : Int) : Int) : ℚ) / 2 ^ 1 ≤ q :=
    fl_ge fl hfl _ _ dL1 (by push_cast; linarith)
  have q2 : q ≤ (((2 * k0 + 1 - 2 * (a : Int)) * 2 ^ 31 - 1 : Int) : ℚ) / 2 ^ 32 :=
    fl_le fl hfl _ _ dU1 (by push_cast; linarith)
  set x := fl ((a : ℚ) + q) with hx
  have x1 : ((2 * k0 - 1 : Int) : ℚ) / 2 ^ 1 ≤ x :=
    fl_ge fl hfl _ _ dL2 (by push_cast at q1 ⊢; linarith)
  have x2 : x ≤ (((2 * k0 + 1) * 2 ^ 31 - 1 : Int) : ℚ) / 2 ^ 32 :=
    fl_le fl hfl _ _ dU2 (by push_cast at q2 ⊢; linarith)
  set y := fl (x + 1 / 2) with hy
  have y1 : ((k0 : Int) : ℚ) / 2 ^ 0 ≤ y :=
    fl_ge fl hfl _ _ dL3 (by push_cast at x1 ⊢; linarith)
  have y2 : y ≤ (((k0 + 1) * 2 ^ 32 - 1 : Int) : ℚ) / 2 ^ 32 :=
    fl_le fl hfl _ _ dU3 (by push_cast at x2 ⊢; linarith)
  have hyfloor : ⌊y⌋ = k0 := by
    rw [Int.floor_eq_iff]
    push_cast at y1 y2
    constructor
    · linarith
    · linarith
  have hy0 : (0 : ℚ) ≤ y := by
    push_cast at y1
    have : (0 : ℚ) ≤ (k0 : ℚ) := by exact_mod_cast hk0
    linarith
  -- conclude
  have hnot1 : ¬ s ≤ 0 := by omega
  have hnot2 : ¬ s ≥ N := by omega
  have hres : interpolate_channel_rounded fl a b s N = k0.toNat := by
    unfold interpolate_channel_rounded
    rw [if_neg hnot1, if_neg hnot2, hprod, ← hq, ← hx, ← hy]
    unfold double_to_uint8
    rw [if_pos hy0, hyfloor]
    omega
  rw [hres]
  omega

/-- A start whose three conditions hold is the two palette selections on the configured
state, the first pair promoted in between, and the registration of the callback. -/
theorem init_eq (animator : animation) (anim_state : gradient_animation_state)
    (st : settings) (rng : List Nat) (hc : start_conditions st) :
    gradient_animation_init_and_start animator anim_state st rng
      = (pick_next_random_colors (configured anim_state st) rng).bind (fun p =>
          (pick_next_random_colors
            { p.1 with
              current_tl_color := p.1.next_tl_color
              current_br_color := p.1.next_br_color } p.2).bind (fun q =>
            some ({ link := true, proc := some tick_proc.gradient_animation_callback },
              q.1, q.2))) := by
  unfold gradient_animation_init_and_start
  have hstart : ¬ (st.animated_gradient_enabled = false ∨ st.parsed_gradient_colors = none
      ∨ st.num_parsed_gradient_colors < 2) := by
    obtain ⟨h1, h2, h3⟩ := hc
    rw [h1]
    simp only [Bool.true_eq_false, false_or, not_or, not_lt]
    exact ⟨h2, h3⟩
  rw [if_neg hstart]
  have hT : (0 : Int) < (if st.animated_gradient_steps > 0 then st.animated_gradient_steps
      else 1) := by
    split_ifs <;> omega
  have hcfg : ({ anim_state with
        color_palette := st.parsed_gradient_colors
        num_palette_colors := st.num_parsed_gradient_colors
        palette_total_steps :=
          if st.animated_gradient_steps > 0 then st.animated_gradient_steps else 1
        step_duration_usec :=
          if (if st.animated_gradient_steps > 0 then st.animated_gradient_steps else 1) > 0
              ∧ st.animated_gradient_duration_sec > 0 then
            double_div (double_mul st.animated_gradient_duration_sec 1000000)
              (((if st.animated_gradient_steps > 0 then st.animated_gradient_steps
                    else 1 : Int)) : ℚ)
          else 1000000
        current_interpolation_step := 0
        time_accumulator_usec := 0 } : gradient_animation_state)
      = configured anim_state st := by
    unfold configured
    simp only [gt_iff_lt, hT, true_and]
  simp only
  rw [hcfg]
  cases hp1 : pick_next_random_colors (configured anim_state st) rng with
  | none => rfl
  | some p =>
    obtain ⟨p1, rngA⟩ := p
    simp only [Option.some_bind]
    cases hp2 : pick_next_random_colors
        { p1 with current_tl_color := p1.next_tl_color, current_br_color := p1.next_br_color }
        rngA with
    | none => rfl
    | some q => rfl

/-- A palette selection on a palette of at least 2 colours returns after two draws that
give different indices. -/
theorem pick_two_draws (s : gradient_animation_state) (pal : List Nat) (r1 r2 : Nat)
    (rest : List Nat) (hpal : s.color_palette = some pal)
    (hnum : s.num_palette_colors = (pal.length : Int)) (hlen : 2 ≤ pal.length)
    (hne : r1 % pal.length ≠ r2 % pal.length) :
    ∃ c1 c2, pick_next_random_colors s (r1 :: r2 :: rest)
      = some ({ s with next_tl_color := c1, next_br_color := c2 }, rest) := by
  have hn2 : ¬ s.num_palette_colors < 2 := by rw [hnum]; omega
  have hto : s.num_palette_colors.toNat = pal.length := by rw [hnum]; simp
  have hpos : 0 < pal.length := by omega
  have h1 : r1 % pal.length < pal.length := Nat.mod_lt r1 hpos
  have h2 : r2 % pal.length < pal.length := Nat.mod_lt r2 hpos
  refine ⟨pal[r1 % pal.length], pal[r2 % pal.length], ?_⟩
  unfold pick_next_random_colors
  rw [hpal]
  simp only [if_neg hn2, hto, pick_second, if_neg hne, List.getElem?_eq_getElem h1,
    List.getElem?_eq_getElem h2]

/-- A start whose three conditions hold, on a palette whose count is its length, returns
and has started once the draws give two different indices for each of the two palette
selections. -/
theorem init_returns (animator : animation) (anim_state : gradient_animation_state)
    (st : settings) (pal : List Nat) (r1 r2 r3 r4 : Nat) (rest : List Nat)
    (hc : start_conditions st) (hpal : st.parsed_gradient_colors = some pal)
    (hnum : st.num_parsed_gradient_colors = (pal.length : Int))
    (h12 : r1 % pal.length ≠ r2 % pal.length) (h34 : r3 % pal.length ≠ r4 % pal.length) :
    ∃ s1, gradient_animation_init_and_start animator anim_state st (r1 :: r2 :: r3 :: r4 :: rest)
      = some ({ link := true, proc := some tick_proc.gradient_animation_callback }, s1, rest) := by
  have hlen : 2 ≤ pal.length := by
    have := hc.2.2
    omega
  obtain ⟨c1, c2, hp1⟩ := pick_two_draws (configured anim_state st) pal r1 r2
    (r3 :: r4 :: rest) (by simp only [configured]; exact hpal)
    (by simp only [configured]; exact hnum) hlen h12
  obtain ⟨c3, c4, hp2⟩ := pick_two_draws
    { ({ configured anim_state st with next_tl_color := c1, next_br_color := c2 } :
        gradient_animation_state) with
      current_tl_color := c1, current_br_color := c2 } pal r3 r4 rest
    (by simp only [configured]; exact hpal) (by simp only [configured]; exact hnum) hlen h34
  rw [init_eq animator anim_state st _ hc, hp1]
  simp only [Option.some_bind]
  rw [hp2]
  exact ⟨_, rfl⟩

/-- C15: when the enabled flag is false, the palette is null or there are fewer than 2
colours, `gradient_animation_init_and_start` returns with the animator, the animation
state and the random draws exactly as they were, so no tick callback is registered by
the call.  When none of the three holds it starts: whenever the call returns, the display
link runs and the tick callback is registered; the call returns exactly when its two
palette selections do; and on a palette whose count is its length it does return,
started, as soon as the draws give two different indices for each of the two
selections. -/
theorem init_starts_iff_conditions (animator : animation)
    (anim_state : gradient_animation_state) (st : settings) (rng : List Nat) :
    ((st.animated_gradient_enabled = false ∨ st.parsed_gradient_colors = none
        ∨ st.num_parsed_gradient_colors < 2) →
      gradient_animation_init_and_start animator anim_state st rng
        = some (animator, anim_state, rng))
    ∧ (¬ (st.animated_gradient_enabled = false ∨ st.parsed_gradient_colors = none
        ∨ st.num_parsed_gradient_colors < 2) →
      (∀ a1 s1 rng1,
        gradient_animation_init_and_start animator anim_state st rng = some (a1, s1, rng1) →
        a1 = { link := true, proc := some tick_proc.gradient_animation_callback })
      ∧ (∀ s1 rng1,
        gradient_animation_init_and_start animator anim_state st rng
          = some ({ link := true, proc := some tick_proc.gradient_animation_callback },
              s1, rng1)
        ↔ ∃ p1 rngA,
            pick_next_random_colors (configured anim_state st) rng = some (p1, rngA)
            ∧ pick_next_random_colors
                { p1 with
                  current_tl_color := p1.next_tl_color
                  current_br_color := p1.next_br_color } rngA = some (s1, rng1))
      ∧ (∀ (pal : List Nat) (r1 r2 r3 r4 : Nat) (rest : List Nat),
        st.parsed_gradient_colors = some pal →
        st.num_parsed_gradient_colors = (pal.length : Int) →
        r1 % pal.length ≠ r2 % pal.length → r3 % pal.length ≠ r4 % pal.length →
        ∃ s1, gradient_animation_init_and_start animator anim_state st
            (r1 :: r2 :: r3 :: r4 :: rest)
          = some ({ link := true, proc := some tick_proc.gradient_animation_callback },
              s1, rest))) := by
  constructor
  · intro h
    unfold gradient_animation_init_and_start
    rw [if_pos h]
  · intro h
    have hc : start_conditions st := by
      unfold start_conditions
      simp only [not_or, not_lt] at h
      exact ⟨by simpa using h.1, h.2.1, h.2.2⟩
    refine ⟨?_, ?_, ?_⟩
    · intro a1 s1 rng1 hr
      obtain ⟨_, _, _, _, ha⟩ := init_started animator anim_state st rng a1 s1 rng1 hc hr
      exact ha
    · intro s1 rng1
      constructor
      · intro hr
        obtain ⟨p1, rngA, hp1, hp2, _⟩ := init_started animator anim_state st rng _ s1 rng1 hc hr
        exact ⟨p1, rngA, hp1, hp2⟩
      · rintro ⟨p1, rngA, hp1, hp2⟩
        rw [init_eq animator anim_state st rng hc, hp1]
        simp only [Option.some_bind]
        rw [hp2]
        rfl
    · intro pal r1 r2 r3 r4 rest hpal hnum h12 h34
      exact init_returns animator anim_state st pal r1 r2 r3 r4 rest hc hpal hnum h12 h34

/-- Witness for `init_starts_iff_conditions`: with the sample settings disabled nothing
changes; with the sample settings the call returns on the draws `0, 1, 1, 0` and the
callback is registered. -/
theorem init_starts_iff_conditions_witness :
    gradient_animation_init_and_start { link := false, proc := none } sample_state_late
        { sample_settings with animated_gradient_enabled := false } [0, 1, 1, 0]
        = some ({ link := false, proc := none }, sample_state_late, [0, 1, 1, 0])
      ∧ (gradient_animation_init_and_start { link := false, proc := none } sample_state_late
            sample_settings [0, 1, 1, 0]
          = some ({ link := true, proc := some tick_proc.gradient_animation_callback },
              sample_state, [])
        ∧ ({ link := true, proc := some tick_proc.gradient_animation_callback } : animation)
          = { link := true, proc := some tick_proc.gradient_animation_callback })
      ∧ ∃ s1, gradient_animation_init_and_start { link := false, proc := none }
            sample_state_late sample_settings [0, 1, 1, 0]
          = some ({ link := true, proc := some tick_proc.gradient_animation_callback },
              s1, []) :=
  ⟨(init_starts_iff_conditions { link := false, proc := none } sample_state_late
      { sample_settings with animated_gradient_enabled := false } [0, 1, 1, 0]).1
      (Or.inl rfl),
   ⟨sample_start _ _,
    ((init_starts_iff_conditions { link := false, proc := none } sample_state_late
      sample_settings [0, 1, 1, 0]).2 (by simp [sample_settings])).1 _ _ _ (sample_start _ _)⟩,
   ((init_starts_iff_conditions { link := false, proc := none } sample_state_late
      sample_settings [0, 1, 1, 0]).2 (by simp [sample_settings])).2.2
      [0xFFFF0000, 0xFF0000FF] 0 1 1 0 [] rfl rfl (by decide) (by decide)⟩

/-- C16: for 8-bit channel values and `0 < step < max_steps`, `interpolate_channel`
returns `⌊c1 + (c2 - c1) * step / max_steps + 1/2⌋` computed over the rationals; this
integer lies in `[0, 255]`, so the conversion to `uint8_t` does not wrap.  The same
integer results when every `double` operation is rounded, for every rounding that is
monotone and exact on the values a `double` holds (`max_steps` being an `int`). -/
theorem interpolate_channel_rounds_to_nearest (a b : Nat) (s N : Int) (ha : a < 256)
    (hb : b < 256) (h0 : 0 < s) (hs : s < N) :
    (interpolate_channel a b s N : Int)
        = ⌊(a : ℚ) + ((b : ℚ) - (a : ℚ)) * (s : ℚ) / (N : ℚ) + 1 / 2⌋
      ∧ 0 ≤ ⌊(a : ℚ) + ((b : ℚ) - (a : ℚ)) * (s : ℚ) / (N : ℚ) + 1 / 2⌋
      ∧ ⌊(a : ℚ) + ((b : ℚ) - (a : ℚ)) * (s : ℚ) / (N : ℚ) + 1 / 2⌋ ≤ 255
      ∧ (∀ fl : ℚ → ℚ, RoundsLikeDouble fl → N < 2 ^ 31 →
          interpolate_channel_rounded fl a b s N = interpolate_channel a b s N) := by
  have hN : (0 : Int) < N := by omega
  have hc := interpolate_channel_closed a b s N ha hb hN h0.le hs.le
  obtain ⟨kl, ku⟩ := floor_lerp_bounds a b s N hN h0.le hs.le
  have hmax : max a b < 256 := max_lt ha hb
  unfold lerp at hc kl ku
  refine ⟨hc, by omega, by omega, ?_⟩
  intro fl hfl hN31
  exact interpolate_channel_rounded_eq fl hfl a b s N ha hb h0 hs hN31

/-- Witness for `interpolate_channel_rounds_to_nearest`: channel 255 to 0 at step 1 of 2,
with rounding to multiples of `2 ^ (-64)`. -/
theorem interpolate_channel_rounds_to_nearest_witness :
    (interpolate_channel 255 0 1 2 : Int)
        = ⌊((255 : Nat) : ℚ) + (((0 : Nat) : ℚ) - ((255 : Nat) : ℚ)) * ((1 : Int) : ℚ)
            / ((2 : Int) : ℚ) + 1 / 2⌋
      ∧ interpolate_channel_rounded round_fixed64 255 0 1 2 = interpolate_channel 255 0 1 2 :=
  ⟨(interpolate_channel_rounds_to_nearest 255 0 1 2 (by decide) (by decide) (by decide)
      (by decide)).1,
   (interpolate_channel_rounds_to_nearest 255 0 1 2 (by decide) (by decide) (by decide)
      (by decide)).2.2.2 round_fixed64 round_fixed64_roundsLikeDouble (by decide)⟩

/-! ## What a tick publishes -/

/-- The flag the loop returns is set exactly when the flag was set already or the loop
ran at least once. -/
theorem tick_loop_flag (n : Nat) :
    ∀ (s : gradient_animation_state) (rng : List Nat) (u : Bool)
      (s1 : gradient_animation_state) (rng1 : List Nat) (u1 : Bool),
      ⌈s.time_accumulator_usec * 2 ^ 1074⌉₊ ≤ n →
      tick_loop s rng u = some (s1, rng1, u1) →
      u1 = (u || decide (s.time_accumulator_usec ≥ s.step_duration_usec
        ∧ s.step_duration_usec > 0)) := by
  induction n with
  | zero =>
    intro s rng u s1 rng1 u1 hm h
    by_cases hc : s.time_accumulator_usec ≥ s.step_duration_usec ∧ s.step_duration_usec > 0
    · have hpos : 0 < s.time_accumulator_usec * 2 ^ 1074 :=
        mul_pos (lt_of_lt_of_le hc.2 hc.1) (by positivity)
      have := Nat.ceil_pos.mpr hpos
      omega
    · rw [tick_loop_done s rng u hc] at h
      simp only [Option.some.injEq, Prod.mk.injEq] at h
      rw [← h.2.2]
      simp [hc]
  | succ n ih =>
    intro s rng u s1 rng1 u1 hm h
    by_cases hc : s.time_accumulator_usec ≥ s.step_duration_usec ∧ s.step_duration_usec > 0
    · have hgoal : (u || decide (s.time_accumulator_usec ≥ s.step_duration_usec
          ∧ s.step_duration_usec > 0)) = true := by simp [hc]
      rw [hgoal]
      by_cases hlt : double_sub s.time_accumulator_usec s.step_duration_usec
          < s.time_accumulator_usec
      · have hdec := tick_measure_decreases _ _ (lt_of_lt_of_le hc.2 hc.1) hlt
        by_cases h3 : int_incr s.current_interpolation_step ≤ s.palette_total_steps
        · rw [tick_loop_step s rng u hc.1 hc.2 hlt h3] at h
          have := ih _ rng true s1 rng1 u1 (by simp only [double_sub]; omega) h
          rw [this]; rfl
        · rw [tick_loop_rollover s rng u hc.1 hc.2 hlt (by omega)] at h
          cases hp : pick_next_random_colors
              { s with
                time_accumulator_usec :=
                  double_sub s.time_accumulator_usec s.step_duration_usec
                current_interpolation_step := 0
                current_tl_color := s.next_tl_color
                current_br_color := s.next_br_color } rng with
          | none => rw [hp] at h; simp at h
          | some p =>
            obtain ⟨s2, rng2⟩ := p
            rw [hp] at h
            simp only [Option.some_bind] at h
            have hf := pick_next_random_colors_frame _ _ _ _ hp
            have hm2 : ⌈s2.time_accumulator_usec * 2 ^ 1074⌉₊ ≤ n := by
              rw [hf]; simp only [double_sub]; omega
            have := ih s2 rng2 true s1 rng1 u1 hm2 h
            rw [this]; rfl
      · rw [tick_loop_stuck s rng u hc.1 hc.2 hlt] at h
        simp at h
    · rw [tick_loop_done s rng u hc] at h
      simp only [Option.some.injEq, Prod.mk.injEq] at h
      rw [← h.2.2]
      simp [hc]

/-- What the callback dispatches: the blends of the post-tick state when the loop ran at
least once or the post-tick step is 0, and nothing otherwise. -/
theorem callback_update (dt : ℚ) (s : gradient_animation_state) (rng : List Nat)
    (s1 : gradient_animation_state) (rng1 : List Nat) (upd : Option gradient_update)
    (h : gradient_animation_callback dt s rng = some (s1, rng1, upd)) :
    upd = if (double_add s.time_accumulator_usec dt ≥ s.step_duration_usec
          ∧ s.step_duration_usec > 0)
        ∨ s1.current_interpolation_step = 0
      then some (update_of s1) else none := by
  obtain ⟨u1, hl⟩ := callback_state dt s rng s1 rng1 upd h
  have hu := tick_loop_flag _ _ rng false s1 rng1 u1 (le_refl _) hl
  simp only [Bool.false_or] at hu
  rw [callback_of_loop dt s rng s1 rng1 u1 hl] at h
  simp only [Option.some.injEq, Prod.mk.injEq, true_and] at h
  rw [← h, hu]
  simp only [decide_eq_true_eq]

/-- The channel 255 to 0 at step 1 of 2 is 128. -/
theorem interpolate_channel_255_0_half : interpolate_channel 255 0 1 2 = 128 := by
  have h := interpolate_channel_closed 255 0 1 2 (by decide) (by decide) (by decide)
    (by decide) (by decide)
  have e : ⌊lerp 255 0 1 2⌋ = 128 := by
    unfold lerp
    norm_num
  rw [e] at h
  exact_mod_cast h

/-- The channel 0 to 255 at step 1 of 2 is 128. -/
theorem interpolate_channel_0_255_half : interpolate_channel 0 255 1 2 = 128 := by
  have h := interpolate_channel_closed 0 255 1 2 (by decide) (by decide) (by decide)
    (by decide) (by decide)
  have e : ⌊lerp 0 255 1 2⌋ = 128 := by
    unfold lerp
    norm_num
  rw [e] at h
  exact_mod_cast h

/-- Opaque red blended half-way to opaque blue. -/
theorem blend_red_blue_half : interpolate_color_value 0xFFFF0000 0xFF0000FF 1 2 = 0xFF800080 := by
  rw [interpolate_color_value_eq]
  have r1 : redOf 0xFFFF0000 = 255 := by decide
  have r2 : redOf 0xFF0000FF = 0 := by decide
  have g1 : greenOf 0xFFFF0000 = 0 := by decide
  have g2 : greenOf 0xFF0000FF = 0 := by decide
  have b1 : blueOf 0xFFFF0000 = 0 := by decide
  have b2 : blueOf 0xFF0000FF = 255 := by decide
  have a1 : finalAlpha 0xFFFF0000 = 255 := by decide
  rw [r1, r2, g1, g2, b1, b2, a1, interpolate_channel_255_0_half,
    interpolate_channel_0_255_half, interpolate_channel_self 0 1 2 (by decide)]
  norm_num

/-- C18: whenever a tick that returns has fired at least one step (its loop condition
held on entry: the `double` sum of accumulator and delta at least one positive step
duration, as it is when accumulator plus delta is at least a positive step duration that
is a `double`) or leaves the step at 0, it publishes exactly the two blends computed from
the post-tick state, with style gradient and direction top-left to bottom-right.  In
particular, from opaque red moving to opaque blue at the top left, step 0, accumulator 0,
2 steps, a tick of exactly one step duration (a positive `double`) moves the step to 1
and publishes the top-left colour `0xFF800080`: alpha `0xFF`, green 0, red and blue
128. -/
theorem tick_publishes_blend_of_new_state :
    (∀ (dt : ℚ) (s : gradient_animation_state) (rng : List Nat)
        (s1 : gradient_animation_state) (rng1 : List Nat) (upd : Option gradient_update),
        gradient_animation_callback dt s rng = some (s1, rng1, upd) →
        ((double_add s.time_accumulator_usec dt ≥ s.step_duration_usec
            ∧ s.step_duration_usec > 0)
          ∨ (s.time_accumulator_usec + dt ≥ s.step_duration_usec
            ∧ s.step_duration_usec > 0 ∧ is_double s.step_duration_usec)
          ∨ s1.current_interpolation_step = 0) →
        upd = some
          { stype := color_style_type.COLOR_STYLE_GRADIENT
            color1 := interpolate_color_value s1.current_tl_color s1.next_tl_color
              s1.current_interpolation_step s1.palette_total_steps
            color2 := interpolate_color_value s1.current_br_color s1.next_br_color
              s1.current_interpolation_step s1.palette_total_steps
            direction := gradient_direction.TL_TO_BR })
    ∧ (∀ (s : gradient_animation_state) (rng : List Nat),
        s.current_tl_color = 0xFFFF0000 → s.next_tl_color = 0xFF0000FF →
        s.current_interpolation_step = 0 → s.time_accumulator_usec = 0 →
        s.palette_total_steps = 2 → s.step_duration_usec > 0 →
        is_double s.step_duration_usec →
        ∃ s1 upd, gradient_animation_callback s.step_duration_usec s rng
            = some (s1, rng, some upd)
          ∧ s1.current_interpolation_step = 1
          ∧ upd.stype = color_style_type.COLOR_STYLE_GRADIENT
          ∧ upd.direction = gradient_direction.TL_TO_BR
          ∧ upd.color1 = 0xFF800080
          ∧ alphaOf upd.color1 = 0xFF ∧ greenOf upd.color1 = 0
          ∧ (redOf upd.color1 = 127 ∨ redOf upd.color1 = 128)
          ∧ (blueOf upd.color1 = 127 ∨ blueOf upd.color1 = 128)) := by
  constructor
  · intro dt s rng s1 rng1 upd h hc
    have hc2 : (double_add s.time_accumulator_usec dt ≥ s.step_duration_usec
          ∧ s.step_duration_usec > 0)
        ∨ s1.current_interpolation_step = 0 := by
      rcases hc with hc | hc | hc
      · exact Or.inl hc
      · left
        refine ⟨?_, hc.2.1⟩
        have hm := round_double_mono _ _ hc.1
        rw [show round_double s.step_duration_usec = s.step_duration_usec from hc.2.2] at hm
        exact hm
      · exact Or.inr hc
    have := callback_update dt s rng s1 rng1 upd h
    rw [if_pos hc2] at this
    rw [this]
    rfl
  · intro s rng h1 h2 h3 h4 h5 h6 h7
    have hadd : double_add s.time_accumulator_usec s.step_duration_usec
        = s.step_duration_usec := by
      rw [h4]
      exact double_add_zero_left _ h7
    have hsub : double_sub s.step_duration_usec s.step_duration_usec = 0 := by
      unfold double_sub
      rw [sub_self]
      exact round_double_zero
    have hl : tick_loop
        { s with
          time_accumulator_usec := double_add s.time_accumulator_usec s.step_duration_usec }
        rng false
        = some ({ s with time_accumulator_usec := 0, current_interpolation_step := 1 },
            rng, true) := by
      rw [hadd]
      rw [tick_loop_step_to _ rng false 0 1 (le_refl _) (by simpa using h6)
        (by simpa using hsub) (by simpa using h6) (by simp only; rw [h3]; decide)
        (by simp only; rw [h5]; decide)]
      rw [tick_loop_done _ rng true (by simp only [not_and, ge_iff_le]; intro h; linarith)]
    have hc := callback_of_loop s.step_duration_usec s rng _ _ _ hl
    rw [if_pos (Or.inl rfl)] at hc
    have hcol : (update_of
        ({ s with time_accumulator_usec := 0, current_interpolation_step := 1 } :
          gradient_animation_state)).color1 = 0xFF800080 := by
      simp only [update_of, h1, h2, h5]
      exact blend_red_blue_half
    refine ⟨_, _, hc, rfl, rfl, rfl, hcol, ?_, ?_, ?_, ?_⟩
    · rw [hcol]; decide
    · rw [hcol]; decide
    · rw [hcol]; right; decide
    · rw [hcol]; right; decide

/-- Witness for `tick_publishes_blend_of_new_state`: the rollover tick of the sample
state publishes the blends of the state it leaves, and a tick of one step duration on
the red-to-blue state of 2 steps publishes `0xFF800080` at the top left. -/
theorem tick_publishes_blend_of_new_state_witness :
    some (update_of sample_state_rolled)
        = some
          { stype := color_style_type.COLOR_STYLE_GRADIENT
            color1 := interpolate_color_value sample_state_rolled.current_tl_color
              sample_state_rolled.next_tl_color
              sample_state_rolled.current_interpolation_step
              sample_state_rolled.palette_total_steps
            color2 := interpolate_color_value sample_state_rolled.current_br_color
              sample_state_rolled.next_br_color
              sample_state_rolled.current_interpolation_step
              sample_state_rolled.palette_total_steps
            direction := gradient_direction.TL_TO_BR }
      ∧ ∃ s1 upd, gradient_animation_callback (red_to_blue_state 250000).step_duration_usec
            (red_to_blue_state 250000) [5]
            = some (s1, [5], some upd)
          ∧ s1.current_interpolation_step = 1
          ∧ upd.stype = color_style_type.COLOR_STYLE_GRADIENT
          ∧ upd.direction = gradient_direction.TL_TO_BR
          ∧ upd.color1 = 0xFF800080
          ∧ alphaOf upd.color1 = 0xFF ∧ greenOf upd.color1 = 0
          ∧ (redOf upd.color1 = 127 ∨ redOf upd.color1 = 128)
          ∧ (blueOf upd.color1 = 127 ∨ blueOf upd.color1 = 128) :=
  ⟨tick_publishes_blend_of_new_state.1 2500000 sample_state_late [1, 0] sample_state_rolled []
      (some (update_of sample_state_rolled)) sample_rollover_tick
      (Or.inr (Or.inr rfl)),
   tick_publishes_blend_of_new_state.2 (red_to_blue_state 250000) [5] rfl rfl rfl rfl rfl
      (by norm_num [red_to_blue_state])
      (by
        have := is_double_int 250000 (by norm_num)
        simpa [red_to_blue_state] using this)⟩

/-! ## The first frame after a start -/

/-- At `step ≤ 0` the blend is `color_from` with its alpha byte replaced by the final
alpha. -/
theorem interpolate_color_value_at_start (cf ct : Nat) (step N : Int) (hs : step ≤ 0) :
    interpolate_color_value cf ct step N = finalAlpha cf * 2 ^ 24 + cf % 2 ^ 24 := by
  rw [interpolate_color_value_eq]
  simp only [interpolate_channel, if_pos hs]
  unfold redOf greenOf blueOf
  simp only [and_ff, Nat.shiftRight_eq_div_pow]
  omega

/-- At `step ≤ 0` the blend is `color_from` itself when that is a 32-bit value with a
non-zero alpha byte. -/
theorem interpolate_color_value_at_start_opaque (cf ct : Nat) (step N : Int) (hs : step ≤ 0)
    (hc : cf < 2 ^ 32) (ha : alphaOf cf ≠ 0) :
    interpolate_color_value cf ct step N = cf := by
  rw [interpolate_color_value_at_start cf ct step N hs]
  unfold finalAlpha
  rw [if_neg ha]
  unfold alphaOf
  rw [and_ff, Nat.shiftRight_eq_div_pow]
  omega

/-- The start on `transparent_settings` with draws `0, 1, 1, 0`. -/
theorem transparent_start (a : animation) (s : gradient_animation_state) :
    gradient_animation_init_and_start a s transparent_settings [0, 1, 1, 0]
      = some ({ link := true, proc := some tick_proc.gradient_animation_callback },
          transparent_state, []) := by
  simp [gradient_animation_init_and_start, transparent_settings, sample_settings,
    pick_next_random_colors, pick_second, animation_start, animation_init, transparent_state,
    sample_state, sample_step_duration]

/-- C19, as stated, fails: started on a palette of two colours whose alpha byte is 0,
the first tick publishes at the top left the starting colour made opaque, `0xFFFF0000`,
not the starting colour `0x00FF0000` itself. -/
theorem first_frame_not_start_pair_when_transparent :
    gradient_animation_init_and_start { link := false, proc := none } sample_state_late
        transparent_settings [0, 1, 1, 0]
        = some ({ link := true, proc := some tick_proc.gradient_animation_callback },
            transparent_state, [])
      ∧ (1000 : ℚ) < transparent_state.step_duration_usec
      ∧ ∃ s2 upd, gradient_animation_callback 1000 transparent_state [] = some (s2, [], some upd)
          ∧ upd.color1 = 0xFFFF0000
          ∧ upd.color1 ≠ transparent_state.current_tl_color := by
  refine ⟨transparent_start _ _, by norm_num [transparent_state, sample_state], ?_⟩
  have hadd : double_add transparent_state.time_accumulator_usec 1000 = 1000 := by
    have := double_add_zero_left 1000 (is_double_int 1000 (by norm_num))
    simpa [transparent_state, sample_state] using this
  have hc := callback_idle transparent_state [] 1000 1000 hadd
    (by norm_num [transparent_state, sample_state])
  have h0 : transparent_state.current_interpolation_step = 0 := rfl
  rw [if_pos h0] at hc
  have hcol : (update_of { transparent_state with time_accumulator_usec := 1000 }).color1
      = 0xFFFF0000 := by
    simp only [update_of, transparent_state, sample_state]
    rw [interpolate_color_value_at_start _ _ _ _ (le_refl 0)]
    decide
  refine ⟨_, _, hc, hcol, ?_⟩
  rw [hcol]
  decide

/-- C19 (amended): after a start that goes ahead, `(current_tl_color, current_br_color)`
is the pair the first palette selection drew and the state is the one the second
selection, made on the draws that were left, produced, so `(next_tl_color,
next_br_color)` is the second drawn pair.  The first tick, with a delta (a `double`) below
the step duration, fires no step and publishes the starting pair with the alpha policy
applied:
each published colour is the starting colour with its alpha byte replaced by `0xFF` when
that byte is 0, hence exactly the starting colour when it is a 32-bit value with a
non-zero alpha byte. -/
theorem first_frame_is_start_pair (animator : animation) (anim_state : gradient_animation_state)
    (st : settings) (rng : List Nat) (a1 : animation) (s1 : gradient_animation_state)
    (rng1 : List Nat) (hc : start_conditions st)
    (h : gradient_animation_init_and_start animator anim_state st rng = some (a1, s1, rng1)) :
    (∃ p1 rngA,
        pick_next_random_colors (configured anim_state st) rng = some (p1, rngA)
        ∧ pick_next_random_colors
            { p1 with current_tl_color := p1.next_tl_color, current_br_color := p1.next_br_color }
            rngA = some (s1, rng1)
        ∧ s1.current_tl_color = p1.next_tl_color ∧ s1.current_br_color = p1.next_br_color)
    ∧ (∀ dt : ℚ, is_double dt → dt < s1.step_duration_usec →
        ∃ upd, gradient_animation_callback dt s1 rng1
            = some ({ s1 with time_accumulator_usec := dt }, rng1, some upd)
          ∧ upd.color1 = finalAlpha s1.current_tl_color * 2 ^ 24 + s1.current_tl_color % 2 ^ 24
          ∧ upd.color2 = finalAlpha s1.current_br_color * 2 ^ 24 + s1.current_br_color % 2 ^ 24
          ∧ (s1.current_tl_color < 2 ^ 32 → alphaOf s1.current_tl_color ≠ 0 →
              upd.color1 = s1.current_tl_color)
          ∧ (s1.current_br_color < 2 ^ 32 → alphaOf s1.current_br_color ≠ 0 →
              upd.color2 = s1.current_br_color)) := by
  obtain ⟨p1, rngA, hp1, hp2, _⟩ := init_started animator anim_state st rng a1 s1 rng1 hc h
  have f1 := pick_next_random_colors_frame _ _ _ _ hp1
  have f2 := pick_next_random_colors_frame _ _ _ _ hp2
  have hstep : s1.current_interpolation_step = 0 := by
    rw [f2]; simp only; rw [f1]; simp only [configured]
  have hacc : s1.time_accumulator_usec = 0 := by
    rw [f2]; simp only; rw [f1]; simp only [configured]
  refine ⟨⟨p1, rngA, hp1, hp2, by rw [f2], by rw [f2]⟩, ?_⟩
  intro dt hdd hdt
  have hcb := callback_idle s1 rng1 dt dt (by rw [hacc]; exact double_add_zero_left dt hdd) hdt
  rw [if_pos hstep] at hcb
  refine ⟨_, hcb, ?_, ?_, ?_, ?_⟩
  · simp only [update_of, hstep]
    exact interpolate_color_value_at_start _ _ _ _ (le_refl 0)
  · simp only [update_of, hstep]
    exact interpolate_color_value_at_start _ _ _ _ (le_refl 0)
  · intro hlt ha
    simp only [update_of, hstep]
    exact interpolate_color_value_at_start_opaque _ _ _ _ (le_refl 0) hlt ha
  · intro hlt ha
    simp only [update_of, hstep]
    exact interpolate_color_value_at_start_opaque _ _ _ _ (le_refl 0) hlt ha

/-- Witness for `first_frame_is_start_pair`: after the start on the sample settings a
first tick of a quarter second publishes opaque red and opaque blue, the starting pair. -/
theorem first_frame_is_start_pair_witness :
    start_conditions sample_settings
      ∧ is_double (250000 : ℚ)
      ∧ (250000 : ℚ) < sample_state.step_duration_usec
      ∧ ∃ upd, gradient_animation_callback 250000 sample_state []
            = some ({ sample_state with time_accumulator_usec := 250000 }, [], some upd)
          ∧ upd.color1 = sample_state.current_tl_color
          ∧ upd.color2 = sample_state.current_br_color := by
  have hc : start_conditions sample_settings := ⟨rfl, by simp [sample_settings], by decide⟩
  have hd : (250000 : ℚ) < sample_state.step_duration_usec := by norm_num [sample_state]
  have hdd : is_double (250000 : ℚ) := by
    have := is_double_int 250000 (by norm_num)
    simpa using this
  obtain ⟨upd, h1, _, _, h4, h5⟩ :=
    (first_frame_is_start_pair { link := false, proc := none } sample_state_late
      sample_settings [0, 1, 1, 0]
      { link := true, proc := some tick_proc.gradient_animation_callback } sample_state []
      hc (sample_start _ _)).2 250000 hdd hd
  exact ⟨hc, hdd, hd, upd, h1, h4 (by decide) (by decide), h5 (by decide) (by decide)⟩

/-! ## Palette parsing -/

theorem strsep_tokens_ne_nil (s : List Nat) : strsep_tokens s ≠ [] := by
  induction s with
  | nil => simp [strsep_tokens]
  | cons c cs ih =>
    unfold strsep_tokens
    split_ifs
    · simp
    · split
      · simp
      · simp

theorem strsep_tokens_length_le (s : List Nat) : (strsep_tokens s).length ≤ s.length + 1 := by
  induction s with
  | nil => simp [strsep_tokens]
  | cons c cs ih =>
    unfold strsep_tokens
    split_ifs
    · simp only [List.length_cons]; omega
    · split
      · simp
      · rename_i t ts he
        rw [he] at ih
        simp only [List.length_cons] at ih ⊢
        omega

/-- The pieces `strsep` returns hold no comma, and joined by commas they are the string. -/
theorem strsep_tokens_spec (s : List Nat) :
    (∀ e ∈ strsep_tokens s, ','.toNat ∉ e)
      ∧ List.intercalate [','.toNat] (strsep_tokens s) = s := by
  induction s with
  | nil => simp [strsep_tokens, List.intercalate]
  | cons c cs ih =>
    obtain ⟨ih1, ih2⟩ := ih
    have hne := strsep_tokens_ne_nil cs
    unfold strsep_tokens
    split_ifs with hc
    · constructor
      · intro e he
        rcases List.mem_cons.mp he with he | he
        · rw [he]; simp
        · exact ih1 e he
      · cases hts : strsep_tokens cs with
        | nil => exact absurd hts hne
        | cons t ts =>
          rw [hts] at ih2
          rw [← ih2, hc]
          simp [List.intercalate, List.intersperse]
    · cases hts : strsep_tokens cs with
      | nil => exact absurd hts hne
      | cons t ts =>
        rw [hts] at ih1 ih2
        simp only
        constructor
        · intro e he
          rcases List.mem_cons.mp he with he | he
          · rw [he]
            intro hm
            rcases List.mem_cons.mp hm with hm | hm
            · exact hc hm.symm
            · exact ih1 t (List.mem_cons_self t ts) hm
          · exact ih1 e (List.mem_cons_of_mem t he)
        · rw [← ih2]
          cases ts with
          | nil => simp [List.intercalate, List.intersperse]
          | cons t2 ts2 => simp [List.intercalate, List.intersperse]

theorem hex_string_to_uint32_nil : hex_string_to_uint32 [] = none := by decide

/-- One pass of the loop body, when allocations succeed and the buffer holds fewer than
`2 ^ 30 - 1` colours: the colour of an accepted non-empty entry is appended, any other
entry is skipped, and the capacity stays within twice the count. -/
theorem parse_colors_body_ok (alloc_ok : Nat → Bool) (halloc : ∀ n, alloc_ok n = true)
    (color_str colors : List Nat) (capacity : Int)
    (h10 : 10 ≤ capacity) (hcap : capacity ≤ max 10 (2 * (colors.length : Int)))
    (hlen : colors.length + 1 < 2 ^ 30) :
    ∃ capacity1 : Int,
      parse_colors_body alloc_ok color_str colors capacity
        = some (some (colors
            ++ ([color_str].filter (fun e => decide (e ≠ []))).filterMap hex_string_to_uint32,
            capacity1))
      ∧ 10 ≤ capacity1
      ∧ capacity1 ≤ max 10 (2 * (((colors
            ++ ([color_str].filter (fun e => decide (e ≠ []))).filterMap
              hex_string_to_uint32).length : Nat) : Int)) := by
  unfold parse_colors_body
  by_cases he : color_str.length > 0
  · have hne : color_str ≠ [] := by
      intro h0; rw [h0] at he; simp at he
    have hfilter : [color_str].filter (fun e => decide (e ≠ [])) = [color_str] := by
      simp [List.filter, hne]
    rw [if_pos he, hfilter]
    cases hx : hex_string_to_uint32 color_str with
    | none =>
      rw [List.filterMap_cons_none hx, List.filterMap_nil, List.append_nil]
      exact ⟨capacity, rfl, h10, hcap⟩
    | some color_val =>
      rw [List.filterMap_cons_some hx, List.filterMap_nil]
      have hcnt : (colors.length : Int) + 1 ≤ INT_MAX := by unfold INT_MAX; omega
      have hlen2 : ((colors ++ [color_val]).length : Int) = (colors.length : Int) + 1 := by
        simp
      by_cases hge : (colors.length : Int) ≥ capacity
      · have hdbl : capacity * 2 ≤ INT_MAX := by unfold INT_MAX; omega
        simp only [if_pos hge, if_pos hdbl, if_pos (halloc _), if_pos hcnt]
        exact ⟨capacity * 2, rfl, by omega, by rw [hlen2]; omega⟩
      · simp only [if_neg hge, if_pos hcnt]
        exact ⟨capacity, rfl, h10, by rw [hlen2]; omega⟩
  · have hnil : color_str = [] := by
      cases color_str with
      | nil => rfl
      | cons a l => simp at he
    have hfilter : [color_str].filter (fun e => decide (e ≠ [])) = [] := by
      simp [List.filter, hnil]
    rw [if_neg he, hfilter]
    simp only [List.filterMap_nil, List.append_nil]
    exact ⟨capacity, rfl, h10, hcap⟩

theorem kept_length_le_one (color_str : List Nat) :
    (([color_str].filter (fun e => decide (e ≠ []))).filterMap hex_string_to_uint32).length
      ≤ 1 := by
  calc _ ≤ ([color_str].filter (fun e => decide (e ≠ []))).length :=
        List.length_filterMap_le _ _
    _ ≤ [color_str].length := List.length_filter_le _ _
    _ = 1 := rfl

/-- With allocations that succeed and fewer than `2 ^ 30` strings and colours in all,
the loop keeps exactly the accepted entries, in order, after the colours it already
holds. -/
theorem parse_colors_loop_ok (alloc_ok : Nat → Bool) (halloc : ∀ n, alloc_ok n = true)
    (rest : List (List Nat)) :
    ∀ (colors : List Nat) (capacity : Int),
      10 ≤ capacity → capacity ≤ max 10 (2 * (colors.length : Int)) →
      colors.length + rest.length < 2 ^ 30 →
      parse_colors_loop alloc_ok rest colors capacity
        = some (some (colors
            ++ (rest.filter (fun e => decide (e ≠ []))).filterMap hex_string_to_uint32)) := by
  induction rest with
  | nil =>
    intro colors capacity _ _ _
    simp [parse_colors_loop]
  | cons color_str rest ih =>
    intro colors capacity h10 hcap hlen
    simp only [List.length_cons] at hlen
    obtain ⟨capacity1, hb, h10', hcap'⟩ :=
      parse_colors_body_ok alloc_ok halloc color_str colors capacity h10 hcap (by omega)
    have hk := kept_length_le_one color_str
    have hsplit : (color_str :: rest).filter (fun e => decide (e ≠ []))
        = [color_str].filter (fun e => decide (e ≠ []))
          ++ rest.filter (fun e => decide (e ≠ [])) := by
      rw [← List.filter_append]; rfl
    rw [parse_colors_loop, hb]
    simp only
    rw [ih _ capacity1 h10' hcap'
      (by simp only [List.length_append]; omega), hsplit, List.filterMap_append,
      List.append_assoc]

/-- The result of `parse_animated_gradient_colors` when allocations succeed and the
token is shorter than `2 ^ 30 - 1` characters. -/
theorem parse_animated_gradient_colors_ok (alloc_ok : Nat → Bool)
    (halloc : ∀ n, alloc_ok n = true) (st : settings) (token : List Nat)
    (hlen : token.length + 1 < 2 ^ 30) :
    parse_animated_gradient_colors alloc_ok st token
      = some ({ st with
                parsed_gradient_colors :=
                  if accepted_colors token = [] then none else some (accepted_colors token)
                num_parsed_gradient_colors := ((accepted_colors token).length : Int) },
          decide (0 < (accepted_colors token).length)) := by
  have htok := strsep_tokens_length_le token
  have hloop := parse_colors_loop_ok alloc_ok halloc (strsep_tokens token) [] 10 (le_refl _)
    (by simp) (by simp only [List.length_nil]; omega)
  simp only [List.nil_append] at hloop
  unfold parse_animated_gradient_colors
  have h32 : ¬ token.length + 1 ≥ 2 ^ 32 := by omega
  simp only [if_neg h32, halloc, Bool.true_eq_false, if_false, hloop]
  unfold accepted_colors
  generalize ((strsep_tokens token).filter (fun e => decide (e ≠ []))).filterMap
    hex_string_to_uint32 = acc
  cases acc with
  | nil =>
    simp only [List.length_nil, Nat.cast_zero, if_true, lt_self_iff_false, decide_False,
      gt_iff_lt]
    split_ifs <;> rfl
  | cons a l =>
    have h2 : 0 < (a :: l).length := by simp
    have h0 : ¬ (((a :: l).length : Nat) : Int) = 0 := by omega
    have h1 : ((((a :: l).length : Nat) : Int) > 0) := by omega
    simp only [if_neg h0, h1, h2, decide_True, List.cons_ne_nil, if_false, reduceCtorEq]
    split_ifs <;> rfl


/-- C11: with allocations that succeed and a token shorter than `2 ^ 30 - 1` characters,
`parse_animated_gradient_colors` stores as the palette exactly the decoded values of the
non-empty entries that `hex_string_to_uint32` accepts, in their order, whatever their
number (an empty result is stored as the null palette), skips every other entry, sets
`num_parsed_gradient_colors` to the number of accepted entries and returns `true` iff
that number is positive.  The entries are the comma-free pieces whose comma-join is the
token.  For `ff0000,0000ff,bad` the palette is `[0xFFFF0000, 0xFF0000FF]`. -/
theorem parse_colors_keeps_accepted_entries (alloc_ok : Nat → Bool)
    (halloc : ∀ n, alloc_ok n = true) (st : settings) (token : List Nat)
    (hlen : token.length + 1 < 2 ^ 30) :
    parse_animated_gradient_colors alloc_ok st token
        = some ({ st with
                  parsed_gradient_colors :=
                    if accepted_colors token = [] then none else some (accepted_colors token)
                  num_parsed_gradient_colors := ((accepted_colors token).length : Int) },
            decide (0 < (accepted_colors token).length))
      ∧ accepted_colors token
          = ((strsep_tokens token).filter (fun e => decide (e ≠ []))).filterMap
              hex_string_to_uint32
      ∧ ((∀ e ∈ strsep_tokens token, ','.toNat ∉ e)
          ∧ List.intercalate [','.toNat] (strsep_tokens token) = token)
      ∧ parse_animated_gradient_colors alloc_ok st (cstr "ff0000,0000ff,bad")
          = some ({ st with
                    parsed_gradient_colors := some [0xFFFF0000, 0xFF0000FF]
                    num_parsed_gradient_colors := 2 }, true) := by
  refine ⟨parse_animated_gradient_colors_ok alloc_ok halloc st token hlen, rfl,
    strsep_tokens_spec token, ?_⟩
  have h := parse_animated_gradient_colors_ok alloc_ok halloc st (cstr "ff0000,0000ff,bad")
    (by decide)
  have e : accepted_colors (cstr "ff0000,0000ff,bad") = [0xFFFF0000, 0xFF0000FF] := by decide
  rw [e] at h
  rw [h]
  simp

/-- Witness for `parse_colors_keeps_accepted_entries`: twelve entries, more than the
initial capacity, with an empty and an invalid entry among them. -/
theorem parse_colors_keeps_accepted_entries_witness :
    (cstr "ff0000,00ff00,0000ff,ff0000,00ff00,,0000ff,ff0000,zz,00ff00,0000ff,ff0000,00ff00,0000ff").length
        + 1 < 2 ^ 30
      ∧ parse_animated_gradient_colors (fun _ => true) sample_settings
          (cstr "ff0000,00ff00,0000ff,ff0000,00ff00,,0000ff,ff0000,zz,00ff00,0000ff,ff0000,00ff00,0000ff")
        = some ({ sample_settings with
                  parsed_gradient_colors :=
                    some [0xFFFF0000, 0xFF00FF00, 0xFF0000FF, 0xFFFF0000, 0xFF00FF00, 0xFF0000FF,
                      0xFFFF0000, 0xFF00FF00, 0xFF0000FF, 0xFFFF0000, 0xFF00FF00, 0xFF0000FF]
                  num_parsed_gradient_colors := 12 }, true) := by
  have h := (parse_colors_keeps_accepted_entries (fun _ => true) (fun _ => rfl) sample_settings
    (cstr "ff0000,00ff00,0000ff,ff0000,00ff00,,0000ff,ff0000,zz,00ff00,0000ff,ff0000,00ff00,0000ff")
    (by decide)).1
  have e : accepted_colors
      (cstr "ff0000,00ff00,0000ff,ff0000,00ff00,,0000ff,ff0000,zz,00ff00,0000ff,ff0000,00ff00,0000ff")
      = [0xFFFF0000, 0xFF00FF00, 0xFF0000FF, 0xFFFF0000, 0xFF00FF00, 0xFF0000FF,
          0xFFFF0000, 0xFF00FF00, 0xFF0000FF, 0xFFFF0000, 0xFF00FF00, 0xFF0000FF] := by decide
  rw [e] at h
  refine ⟨by decide, ?_⟩
  rw [h]
  simp

/-! ## Option parsing -/

theorem str_starts_with_append_false (L P rest : List Nat) (hlen : P.length ≤ L.length)
    (hne : L.take P.length ≠ P) : str_starts_with (L ++ rest) P = false := by
  unfold str_starts_with
  rw [List.take_append_of_le_length hlen]
  split_ifs <;> rfl

theorem sscanf_one_append_none {α : Type} (L P rest : List Nat) (conv : List Nat → Option α)
    (hlen : P.length ≤ L.length) (hne : L.take P.length ≠ P) :
    sscanf_one P conv (L ++ rest) = none := by
  unfold sscanf_one
  rw [List.take_append_of_le_length hlen, if_neg hne]

theorem sscanf_one_append_self {α : Type} (L rest : List Nat) (conv : List Nat → Option α) :
    sscanf_one L conv (L ++ rest) = conv rest := by
  unfold sscanf_one
  simp

/-- The duration option: what follows `animated_gradient_duration=` is read by `%f`, and
a value that is not positive is replaced by 1. -/
theorem parse_argument_duration (scan_int : List Nat → Option Int)
    (scan_float : List Nat → Option ℚ) (alloc_ok : Nat → Bool) (st : settings)
    (rest : List Nat) (d : ℚ) (hscan : scan_float rest = some d) :
    parse_argument scan_int scan_float alloc_ok st
        (cstr "animated_gradient_duration=" ++ rest)
      = some { st with animated_gradient_duration_sec := if d ≤ 0 then 1 else d } := by
  unfold parse_argument
  rw [str_starts_with_append_false _ (cstr "active_color") rest (by decide) (by decide),
    str_starts_with_append_false _ (cstr "inactive_color") rest (by decide) (by decide),
    str_starts_with_append_false _ (cstr "background_color") rest (by decide) (by decide),
    str_starts_with_append_false _ (cstr "blacklist=") rest (by decide) (by decide),
    str_starts_with_append_false _ (cstr "whitelist=") rest (by decide) (by decide),
    str_starts_with_append_false _ (cstr "animated_gradient_colors=") rest (by decide)
      (by decide),
    sscanf_one_append_none _ (cstr "animated_gradient_steps=") rest scan_int (by decide)
      (by decide),
    sscanf_one_append_self, hscan]
  simp

/-- The enable option with a value: `=on` sets the flag, `=off` clears it. -/
theorem parse_argument_enable_on (scan_int : List Nat → Option Int)
    (scan_float : List Nat → Option ℚ) (alloc_ok : Nat → Bool) (st : settings) :
    parse_argument scan_int scan_float alloc_ok st (cstr "animated_gradient=on")
      = some { st with animated_gradient_enabled := true } := by
  unfold parse_argument
  have e1 : sscanf_one (cstr "animated_gradient_steps=") scan_int (cstr "animated_gradient=on")
      = none := by
    unfold sscanf_one; rw [if_neg (by decide)]
  have e2 : sscanf_one (cstr "animated_gradient_duration=") scan_float
      (cstr "animated_gradient=on") = none := by
    unfold sscanf_one; rw [if_neg (by decide)]
  rw [e1, e2]
  rw [if_neg (by decide), if_neg (by decide), if_neg (by decide), if_neg (by decide),
    if_neg (by decide), if_neg (by decide)]
  simp only
  rw [if_pos (by decide), if_pos (by decide)]

theorem parse_argument_enable_off (scan_int : List Nat → Option Int)
    (scan_float : List Nat → Option ℚ) (alloc_ok : Nat → Bool) (st : settings) :
    parse_argument scan_int scan_float alloc_ok st (cstr "animated_gradient=off")
      = some { st with animated_gradient_enabled := false } := by
  unfold parse_argument
  have e1 : sscanf_one (cstr "animated_gradient_steps=") scan_int (cstr "animated_gradient=off")
      = none := by
    unfold sscanf_one; rw [if_neg (by decide)]
  have e2 : sscanf_one (cstr "animated_gradient_duration=") scan_float
      (cstr "animated_gradient=off") = none := by
    unfold sscanf_one; rw [if_neg (by decide)]
  rw [e1, e2]
  rw [if_neg (by decide), if_neg (by decide), if_neg (by decide), if_neg (by decide),
    if_neg (by decide), if_neg (by decide)]
  simp only
  rw [if_pos (by decide), if_neg (by decide), if_pos (by decide)]

/-- The bare enable option has the empty value, which is neither `on` nor `off`: the
settings stay as they are. -/
theorem parse_argument_enable_bare (scan_int : List Nat → Option Int)
    (scan_float : List Nat → Option ℚ) (alloc_ok : Nat → Bool) (st : settings) :
    parse_argument scan_int scan_float alloc_ok st (cstr "animated_gradient") = some st := by
  unfold parse_argument
  have e1 : sscanf_one (cstr "animated_gradient_steps=") scan_int (cstr "animated_gradient")
      = none := by
    unfold sscanf_one; rw [if_neg (by decide)]
  have e2 : sscanf_one (cstr "animated_gradient_duration=") scan_float
      (cstr "animated_gradient") = none := by
    unfold sscanf_one; rw [if_neg (by decide)]
  rw [e1, e2]
  rw [if_neg (by decide), if_neg (by decide), if_neg (by decide), if_neg (by decide),
    if_neg (by decide), if_neg (by decide)]
  simp only
  rw [if_pos (by decide), if_neg (by decide), if_neg (by decide)]

theorem parse_settings_single (scan_int : List Nat → Option Int)
    (scan_float : List Nat → Option ℚ) (alloc_ok : Nat → Bool) (st st1 : settings)
    (arg : List Nat) (h : parse_argument scan_int scan_float alloc_ok st arg = some st1) :
    parse_settings scan_int scan_float alloc_ok st [arg] = some st1 := by
  simp [parse_settings, h]


/-- The product `1.0f * 1000000.0` is exact. -/
theorem double_mul_one_million : double_mul 1 1000000 = 1000000 := by
  unfold double_mul
  have := round_double_int 1000000 (by norm_num)
  norm_num at this ⊢
  exact this

/-- The step duration of one second in ten steps is a tenth of a second. -/
theorem tenth_step_duration : double_div (double_mul 1 1000000) 10 = 100000 := by
  rw [double_mul_one_million]
  unfold double_div
  have := round_double_int 100000 (by norm_num)
  norm_num at this ⊢
  exact this

/-- The start on the sample settings with a duration of one second. -/
theorem one_second_start (a : animation) (s : gradient_animation_state) :
    gradient_animation_init_and_start a s
        { sample_settings with animated_gradient_duration_sec := 1 } [0, 1, 1, 0]
      = some ({ link := true, proc := some tick_proc.gradient_animation_callback },
          { sample_state with step_duration_usec := 100000 }, []) := by
  simp [gradient_animation_init_and_start, sample_settings, pick_next_random_colors,
    pick_second, animation_start, animation_init, sample_state, tenth_step_duration]

/-- C12, as stated, fails: with 10 steps configured, the option
`animated_gradient_duration=-5` sets the duration to one second for the whole transition,
and the animation then starts with a step duration of `100000` microseconds, a tenth of a
second, not one second per step. -/
theorem negative_duration_not_one_second_per_step :
    parse_settings (fun _ => none) (fun s => if s = cstr "-5" then some (-5) else none)
        (fun _ => true) sample_settings [cstr "animated_gradient_duration=-5"]
        = some { sample_settings with animated_gradient_duration_sec := 1 }
      ∧ gradient_animation_init_and_start { link := false, proc := none } sample_state_late
          { sample_settings with animated_gradient_duration_sec := 1 } [0, 1, 1, 0]
        = some ({ link := true, proc := some tick_proc.gradient_animation_callback },
            { sample_state with step_duration_usec := 100000 }, [])
      ∧ ({ sample_state with step_duration_usec := 100000 } :
          gradient_animation_state).step_duration_usec ≠ 1000000 := by
  refine ⟨?_, one_second_start _ _, by norm_num⟩
  have e : cstr "animated_gradient_duration=-5"
      = cstr "animated_gradient_duration=" ++ cstr "-5" := by decide
  rw [e]
  apply parse_settings_single
  rw [parse_argument_duration _ _ _ _ (cstr "-5") (-5) (by simp)]
  norm_num

/-- C12 (amended): when the option `animated_gradient_duration=<d>` is given with a value
`d ≤ 0`, the duration setting becomes one second, and an animation then started has as
step duration the `double` quotient `1000000.0 / palette_total_steps` microseconds, with
`palette_total_steps = max animated_gradient_steps 1`: one second for the whole
transition, which is one second per step when at most one step is configured.  For a
step count that is an `int` the quotient differs from `1000000 / palette_total_steps` by
at most the fraction `2 ^ (-53)` of it. -/
theorem nonpositive_duration_gives_one_second_transition (scan_int : List Nat → Option Int)
    (scan_float : List Nat → Option ℚ) (alloc_ok : Nat → Bool) (st : settings)
    (rest : List Nat) (d : ℚ) (hscan : scan_float rest = some d) (hd : d ≤ 0) :
    parse_settings scan_int scan_float alloc_ok st
        [cstr "animated_gradient_duration=" ++ rest]
        = some { st with animated_gradient_duration_sec := 1 }
      ∧ ∀ (animator : animation) (anim_state : gradient_animation_state) (rng : List Nat)
          (a1 : animation) (s1 : gradient_animation_state) (rng1 : List Nat),
          start_conditions st →
          gradient_animation_init_and_start animator anim_state
            { st with animated_gradient_duration_sec := 1 } rng = some (a1, s1, rng1) →
          s1.palette_total_steps = max st.animated_gradient_steps 1
            ∧ s1.step_duration_usec = double_div 1000000 (s1.palette_total_steps : ℚ)
            ∧ (st.animated_gradient_steps ≤ 1 → s1.step_duration_usec = 1000000)
            ∧ (st.animated_gradient_steps < 2 ^ 31 →
                |s1.step_duration_usec - 1000000 / (s1.palette_total_steps : ℚ)|
                  ≤ 1000000 / (s1.palette_total_steps : ℚ) / 2 ^ 53) := by
  constructor
  · apply parse_settings_single
    rw [parse_argument_duration _ _ _ _ rest d hscan, if_pos hd]
  · intro animator anim_state rng a1 s1 rng1 hc h
    have hc2 : start_conditions { st with animated_gradient_duration_sec := 1 } := hc
    obtain ⟨hT, hdur, _, _⟩ := init_fields animator anim_state _ rng a1 s1 rng1 hc2 h
    simp only at hT hdur
    rw [if_pos (by norm_num), double_mul_one_million] at hdur
    refine ⟨hT, hdur, ?_, ?_⟩
    · intro hsteps
      have h1 : s1.palette_total_steps = 1 := by rw [hT]; omega
      rw [hdur, h1]
      unfold double_div
      have := round_double_int 1000000 (by norm_num)
      norm_num at this ⊢
      exact this
    · intro hint
      have hT1 : (1 : ℚ) ≤ (s1.palette_total_steps : ℚ) := by
        have : (1 : Int) ≤ s1.palette_total_steps := by rw [hT]; omega
        exact_mod_cast this
      have hT31 : (s1.palette_total_steps : ℚ) < 2 ^ (31 : Nat) := by
        have : s1.palette_total_steps < 2 ^ 31 := by rw [hT]; omega
        exact_mod_cast this
      have hq : (0 : ℚ) < 1000000 / (s1.palette_total_steps : ℚ) := by positivity
      have hlow : (2 : ℚ) ^ (-1022 : Int) ≤ |1000000 / (s1.palette_total_steps : ℚ)| := by
        rw [abs_of_pos hq, le_div_iff₀ (by linarith)]
        have h1 : (2 : ℚ) ^ (-1022 : Int) * (s1.palette_total_steps : ℚ)
            ≤ 2 ^ (-1022 : Int) * 2 ^ (31 : Nat) :=
          mul_le_mul_of_nonneg_left hT31.le (zpow_pos (by norm_num) _).le
        have h2 : (2 : ℚ) ^ (-1022 : Int) * 2 ^ (31 : Nat) = 2 ^ (-991 : Int) := by
          rw [← zpow_natCast, ← zpow_add₀ (by norm_num)]
          norm_num
        have h3 : (2 : ℚ) ^ (-991 : Int) ≤ 1 := zpow_le_one_of_nonpos₀ (by norm_num) (by norm_num)
        rw [h2] at h1
        linarith
      have herr := round_double_error _ hlow
      rw [abs_of_pos hq] at herr
      rw [hdur]
      exact herr

/-- Witness for `nonpositive_duration_gives_one_second_transition`: the option
`animated_gradient_duration=-5` on the sample settings (10 steps), and the start that
follows: the step duration is a tenth of a second. -/
theorem nonpositive_duration_gives_one_second_transition_witness :
    ((fun s : List Nat => if s = cstr "-5" then some (-5 : ℚ) else none) (cstr "-5")
          = some (-5)
        ∧ (-5 : ℚ) ≤ 0 ∧ start_conditions sample_settings
        ∧ gradient_animation_init_and_start { link := false, proc := none } sample_state_late
            { sample_settings with animated_gradient_duration_sec := 1 } [0, 1, 1, 0]
          = some ({ link := true, proc := some tick_proc.gradient_animation_callback },
              { sample_state with step_duration_usec := 100000 }, []))
      ∧ parse_settings (fun _ => none) (fun s => if s = cstr "-5" then some (-5) else none)
          (fun _ => true) sample_settings [cstr "animated_gradient_duration=" ++ cstr "-5"]
        = some { sample_settings with animated_gradient_duration_sec := 1 }
      ∧ ({ sample_state with step_duration_usec := 100000 } :
          gradient_animation_state).step_duration_usec
        = double_div 1000000
            ((({ sample_state with step_duration_usec := 100000 } :
              gradient_animation_state).palette_total_steps : Int) : ℚ) :=
  ⟨⟨by simp, by norm_num, ⟨rfl, by simp [sample_settings], by decide⟩, one_second_start _ _⟩,
   (nonpositive_duration_gives_one_second_transition (fun _ => none)
      (fun s => if s = cstr "-5" then some (-5) else none) (fun _ => true) sample_settings
      (cstr "-5") (-5) (by simp) (by norm_num)).1,
   ((nonpositive_duration_gives_one_second_transition (fun _ => none)
      (fun s => if s = cstr "-5" then some (-5) else none) (fun _ => true) sample_settings
      (cstr "-5") (-5) (by simp) (by norm_num)).2 { link := false, proc := none }
      sample_state_late [0, 1, 1, 0] _ _ _ ⟨rfl, by simp [sample_settings], by decide⟩
      (one_second_start _ _)).2.1⟩

/-- C13, as stated, fails: the bare argument `animated_gradient` does not set the enabled
flag; with the flag off before, it is off afterwards. -/
theorem bare_enable_option_does_not_enable :
    parse_settings (fun _ => none) (fun _ => none) (fun _ => true)
        { sample_settings with animated_gradient_enabled := false } [cstr "animated_gradient"]
        = some { sample_settings with animated_gradient_enabled := false }
      ∧ ({ sample_settings with animated_gradient_enabled := false } :
          settings).animated_gradient_enabled ≠ true := by
  refine ⟨?_, by decide⟩
  apply parse_settings_single
  exact parse_argument_enable_bare _ _ _ _

/-- C13 (amended): `parse_settings` sets `animated_gradient_enabled` to true on the
argument `animated_gradient=on` and to false on `animated_gradient=off`; on the bare
argument `animated_gradient` the value is empty, which is neither `on` nor `off`, and all
animation settings stay as they are. -/
theorem enable_option_needs_on_or_off (scan_int : List Nat → Option Int)
    (scan_float : List Nat → Option ℚ) (alloc_ok : Nat → Bool) (st : settings) :
    parse_settings scan_int scan_float alloc_ok st [cstr "animated_gradient=on"]
        = some { st with animated_gradient_enabled := true }
      ∧ parse_settings scan_int scan_float alloc_ok st [cstr "animated_gradient=off"]
        = some { st with animated_gradient_enabled := false }
      ∧ parse_settings scan_int scan_float alloc_ok st [cstr "animated_gradient"]
        = some st :=
  ⟨parse_settings_single _ _ _ _ _ _ (parse_argument_enable_on _ _ _ _),
   parse_settings_single _ _ _ _ _ _ (parse_argument_enable_off _ _ _ _),
   parse_settings_single _ _ _ _ _ _ (parse_argument_enable_bare _ _ _ _)⟩

/-! ## Totality of the channel interpolation -/

/-- C23: `interpolate_channel` is total for all integer `step` and `max_steps`: the
division by `max_steps` is evaluated only in the branch where `0 < step < max_steps`, so
its divisor is never 0 and the checked function always has the result of
`interpolate_channel`; when `max_steps ≤ 0` that result is `c1` for `step ≤ 0` and `c2`
for `step > 0`. -/
theorem interpolate_channel_total (c1 c2 : Nat) (step max_steps : Int) :
    interpolate_channel_checked c1 c2 step max_steps
        = some (interpolate_channel c1 c2 step max_steps)
      ∧ ((¬ step ≤ 0 ∧ ¬ step ≥ max_steps) ↔ (0 < step ∧ step < max_steps))
      ∧ (0 < step ∧ step < max_steps → max_steps ≠ 0)
      ∧ (max_steps ≤ 0 → step ≤ 0 → interpolate_channel c1 c2 step max_steps = c1)
      ∧ (max_steps ≤ 0 → 0 < step → interpolate_channel c1 c2 step max_steps = c2) := by
  refine ⟨?_, ?_, ?_, ?_, ?_⟩
  · unfold interpolate_channel_checked interpolate_channel
    split_ifs with h1 h2 h3
    · rfl
    · rfl
    · omega
    · rfl
  · constructor <;> intro h <;> constructor <;> omega
  · intro h; omega
  · intro _ hs
    unfold interpolate_channel
    rw [if_pos hs]
  · intro hm hs
    unfold interpolate_channel
    rw [if_neg (by omega), if_pos (by omega)]

/-- Witness for `interpolate_channel_total`: with `max_steps = 0` and `max_steps = -3`
the result is `c1` at step 0 and `c2` at step 5. -/
theorem interpolate_channel_total_witness :
    interpolate_channel_checked 10 200 5 0 = some (interpolate_channel 10 200 5 0)
      ∧ interpolate_channel 10 200 0 0 = 10
      ∧ interpolate_channel 10 200 5 (-3) = 200 :=
  ⟨(interpolate_channel_total 10 200 5 0).1,
   (interpolate_channel_total 10 200 0 0).2.2.2.1 (by decide) (by decide),
   (interpolate_channel_total 10 200 5 (-3)).2.2.2.2 (by decide) (by decide)⟩

/-! ## The loop as repeated passes of its body -/

/-- A palette selection on a palette with a count of at least 2 that returns has stored
the entries at two different indices of the palette. -/
theorem pick_entries (s : gradient_animation_state) (pal : List Nat) (rng : List Nat)
    (s2 : gradient_animation_state) (rng2 : List Nat)
    (hpal : s.color_palette = some pal) (hnum : 2 ≤ s.num_palette_colors)
    (h : pick_next_random_colors s rng = some (s2, rng2)) :
    ∃ i j : Nat, i ≠ j ∧ pal[i]? = some s2.next_tl_color ∧ pal[j]? = some s2.next_br_color := by
  have hn2 : ¬ s.num_palette_colors < 2 := by omega
  have hpos : 0 < s.num_palette_colors.toNat := by omega
  unfold pick_next_random_colors at h
  rw [hpal] at h
  simp only [if_neg hn2] at h
  match rng, h with
  | r1 :: rest, h =>
    simp only at h
    split at h
    · exact absurd h (by simp)
    · rename_i idx2 rng3 hps
      obtain ⟨_, hne⟩ := pick_second_spec _ _ hpos _ _ _ hps
      split at h
      · rename_i c1 c2 h1 h2
        simp only [Option.some.injEq, Prod.mk.injEq] at h
        refine ⟨r1 % s.num_palette_colors.toNat, idx2, hne, ?_, ?_⟩
        · rw [h1, ← h.1]
        · rw [h2, ← h.1]
      · exact absurd h (by simp)

/-- An entry found by an index lookup is a member of the list. -/
theorem mem_of_lookup (pal : List Nat) (i c : Nat) (h : pal[i]? = some c) : c ∈ pal := by
  rw [List.getElem?_eq_some_iff] at h
  obtain ⟨hi, he⟩ := h
  rw [← he]
  exact List.getElem_mem hi

/-- A start that goes ahead on the palette `pal` ends in a state whose colours come from
`pal`. -/
theorem init_colours_from_palette (animator : animation) (anim_state : gradient_animation_state)
    (st : settings) (rng : List Nat) (a1 : animation) (s1 : gradient_animation_state)
    (rng1 : List Nat) (pal : List Nat) (hc : start_conditions st)
    (hpal : st.parsed_gradient_colors = some pal)
    (h : gradient_animation_init_and_start animator anim_state st rng = some (a1, s1, rng1)) :
    colours_from_palette pal s1 ∧ s1.num_palette_colors = st.num_parsed_gradient_colors := by
  obtain ⟨p1, rngA, hp1, hp2, _⟩ := init_started animator anim_state st rng a1 s1 rng1 hc h
  have f1 := pick_next_random_colors_frame _ _ _ _ hp1
  have f2 := pick_next_random_colors_frame _ _ _ _ hp2
  have c1 : (configured anim_state st).color_palette = some pal := by
    simp only [configured]; exact hpal
  have n1 : 2 ≤ (configured anim_state st).num_palette_colors := by
    simp only [configured]; exact hc.2.2
  obtain ⟨i, j, _, hi, hj⟩ := pick_entries _ pal rng p1 rngA c1 n1 hp1
  have c2 : p1.color_palette = some pal := by rw [f1]; exact c1
  have n2 : 2 ≤ p1.num_palette_colors := by rw [f1]; exact n1
  have hsel := pick_entries
    { p1 with current_tl_color := p1.next_tl_color, current_br_color := p1.next_br_color }
    pal rngA s1 rng1 c2 n2 hp2
  have hnum : s1.num_palette_colors = st.num_parsed_gradient_colors := by
    rw [f2]; simp only; rw [f1]; simp only [configured]
  refine ⟨⟨by rw [f2]; exact c2, by rw [hnum]; exact hc.2.2, ?_, ?_, hsel⟩, hnum⟩
  · rw [f2]; exact mem_of_lookup pal i _ hi
  · rw [f2]; exact mem_of_lookup pal j _ hj

/-- Every tick that returns keeps the colours in the palette. -/
theorem callback_colours_from_palette (pal : List Nat) (dt : ℚ) (s : gradient_animation_state)
    (rng : List Nat) (s1 : gradient_animation_state) (rng1 : List Nat)
    (upd : Option gradient_update) (hs : colours_from_palette pal s)
    (h : gradient_animation_callback dt s rng = some (s1, rng1, upd)) :
    colours_from_palette pal s1 := by
  obtain ⟨u1, hl⟩ := callback_state dt s rng s1 rng1 upd h
  refine tick_loop_preserves (colours_from_palette pal) ?_ ?_ _
    { s with time_accumulator_usec := double_add s.time_accumulator_usec dt }
    rng false s1 rng1 u1 (le_refl _) hs hl
  · intro x _ _ _ hx
    exact hx
  · intro x r x2 r2 _ _ _ hx hp
    obtain ⟨hp1, hp2, _, _, i, j, _, hi, hj⟩ := hx
    have hf := pick_next_random_colors_frame _ _ _ _ hp
    have hsel := pick_entries _ pal r x2 r2 (by simpa using hp1) (by simpa using hp2) hp
    refine ⟨by rw [hf]; exact hp1, by rw [hf]; exact hp2, ?_, ?_, hsel⟩
    · rw [hf]; exact mem_of_lookup pal i _ hi
    · rw [hf]; exact mem_of_lookup pal j _ hj

/-- Every tick that returns leaves the palette, its count, the step count and the step
duration as they were. -/
theorem callback_keeps_configuration (dt : ℚ) (s : gradient_animation_state) (rng : List Nat)
    (s1 : gradient_animation_state) (rng1 : List Nat) (upd : Option gradient_update)
    (h : gradient_animation_callback dt s rng = some (s1, rng1, upd)) :
    s1.color_palette = s.color_palette ∧ s1.num_palette_colors = s.num_palette_colors
      ∧ s1.palette_total_steps = s.palette_total_steps
      ∧ s1.step_duration_usec = s.step_duration_usec := by
  obtain ⟨u1, hl⟩ := callback_state dt s rng s1 rng1 upd h
  refine tick_loop_preserves
    (fun x => x.color_palette = s.color_palette ∧ x.num_palette_colors = s.num_palette_colors
      ∧ x.palette_total_steps = s.palette_total_steps
      ∧ x.step_duration_usec = s.step_duration_usec) ?_ ?_ _
    { s with time_accumulator_usec := double_add s.time_accumulator_usec dt }
    rng false s1 rng1 u1 (le_refl _) ⟨rfl, rfl, rfl, rfl⟩ hl
  · intro x _ _ _ hx
    exact hx
  · intro x r x2 r2 _ _ _ hx hp
    have hf := pick_next_random_colors_frame _ _ _ _ hp
    rw [hf]
    exact hx

/-- Any number of ticks that return keep the colours in the palette and the
configuration unchanged. -/
theorem run_ticks_colours_from_palette (pal : List Nat) (ds : List ℚ) :
    ∀ (s : gradient_animation_state) (rng : List Nat) (s2 : gradient_animation_state)
      (rng2 : List Nat), colours_from_palette pal s →
      run_ticks ds s rng = some (s2, rng2) →
      colours_from_palette pal s2
        ∧ s2.num_palette_colors = s.num_palette_colors
        ∧ s2.palette_total_steps = s.palette_total_steps
        ∧ s2.step_duration_usec = s.step_duration_usec := by
  induction ds with
  | nil =>
    intro s rng s2 rng2 hs h
    simp only [run_ticks, Option.some.injEq, Prod.mk.injEq] at h
    rw [← h.1]
    exact ⟨hs, rfl, rfl, rfl⟩
  | cons d ds ih =>
    intro s rng s2 rng2 hs h
    rw [run_ticks] at h
    cases hc : gradient_animation_callback d s rng with
    | none => rw [hc] at h; simp at h
    | some p =>
      obtain ⟨s1, rng1, upd⟩ := p
      rw [hc] at h
      simp only at h
      have h1 := callback_colours_from_palette pal d s rng s1 rng1 upd hs hc
      obtain ⟨_, k2, k3, k4⟩ := callback_keeps_configuration d s rng s1 rng1 upd hc
      obtain ⟨i1, i2, i3, i4⟩ := ih s1 rng1 s2 rng2 h1 h
      exact ⟨i1, by rw [i2, k2], by rw [i3, k3], by rw [i4, k4]⟩


/-- The start on the sample settings with draws `0, 1, 1, 0` followed by further draws. -/
theorem sample_start_more (a : animation) (s : gradient_animation_state) (more : List Nat) :
    gradient_animation_init_and_start a s sample_settings (0 :: 1 :: 1 :: 0 :: more)
      = some ({ link := true, proc := some tick_proc.gradient_animation_callback },
          sample_state, more) := by
  simp [gradient_animation_init_and_start, sample_settings, pick_next_random_colors,
    pick_second, animation_start, animation_init, sample_state, sample_step_duration]

/-- Ticks of 4 and 7 seconds on the sample state with draws `1, 1, 0`: one full
transition and a rollover. -/
theorem sample_full_cycle :
    run_ticks [4000000, 7000000] sample_state [1, 1, 0] = some (sample_state_next, []) := by
  apply run_ticks_until_rollover 0 (by norm_num) [4000000, 7000000] sample_state [1, 1, 0]
    sample_state_next []
    (by norm_num [sample_state]) (by decide) (by decide) (by decide)
    (by norm_num [sample_state]) (by norm_num [sample_state])
    ⟨0, by norm_num [sample_state]⟩ ⟨1000000, by norm_num [sample_state]⟩
    (by norm_num [sample_state]) ticks_4_7_whole
  · norm_num [sample_state]
  · simp [pick_next_random_colors, pick_second, sample_state, promoted, sample_state_next]

/-- C22: in every state reached from a start that goes ahead on the palette `pal` by any
number of ticks, each of the four colours is an entry of `pal`, `next_tl_color` and
`next_br_color` are the entries at two different indices of `pal`, and the state still
points to `pal` with the count, step count and step duration the start gave it; and no
tick, from any state, changes `color_palette`, `num_palette_colors`,
`palette_total_steps` or `step_duration_usec`. -/
theorem colours_stay_in_palette (animator : animation) (anim_state : gradient_animation_state)
    (st : settings) (rng : List Nat) (a1 : animation) (s1 : gradient_animation_state)
    (rng1 : List Nat) (pal : List Nat) (hc : start_conditions st)
    (hpal : st.parsed_gradient_colors = some pal)
    (hinit : gradient_animation_init_and_start animator anim_state st rng
      = some (a1, s1, rng1)) :
    (∀ (ds : List ℚ) (s2 : gradient_animation_state) (rng2 : List Nat),
        run_ticks ds s1 rng1 = some (s2, rng2) →
        (s2.current_tl_color ∈ pal ∧ s2.current_br_color ∈ pal
          ∧ s2.next_tl_color ∈ pal ∧ s2.next_br_color ∈ pal)
        ∧ (∃ i j : Nat, i ≠ j ∧ pal[i]? = some s2.next_tl_color
            ∧ pal[j]? = some s2.next_br_color)
        ∧ (s2.color_palette = some pal
          ∧ s2.num_palette_colors = st.num_parsed_gradient_colors
          ∧ s2.palette_total_steps = s1.palette_total_steps
          ∧ s2.step_duration_usec = s1.step_duration_usec))
    ∧ (∀ (dt : ℚ) (s : gradient_animation_state) (r : List Nat)
        (s2 : gradient_animation_state) (r2 : List Nat) (upd : Option gradient_update),
        gradient_animation_callback dt s r = some (s2, r2, upd) →
        s2.color_palette = s.color_palette ∧ s2.num_palette_colors = s.num_palette_colors
          ∧ s2.palette_total_steps = s.palette_total_steps
          ∧ s2.step_duration_usec = s.step_duration_usec) := by
  obtain ⟨h1, hnum⟩ :=
    init_colours_from_palette animator anim_state st rng a1 s1 rng1 pal hc hpal hinit
  constructor
  · intro ds s2 rng2 hrun
    obtain ⟨⟨c1, _, c3, c4, i, j, hij, hi, hj⟩, k2, k3, k4⟩ :=
      run_ticks_colours_from_palette pal ds s1 rng1 s2 rng2 h1 hrun
    exact ⟨⟨c3, c4, mem_of_lookup pal i _ hi, mem_of_lookup pal j _ hj⟩,
      ⟨i, j, hij, hi, hj⟩, c1, by rw [k2, hnum], k3, k4⟩
  · intro dt s r s2 r2 upd h
    exact callback_keeps_configuration dt s r s2 r2 upd h

/-- Witness for `colours_stay_in_palette`: the start on the sample settings, then ticks
of 4 and 7 seconds with a rollover; the colours are again blue and red, entries 1 and 0
of the palette. -/
theorem colours_stay_in_palette_witness :
    (start_conditions sample_settings
        ∧ sample_settings.parsed_gradient_colors = some [0xFFFF0000, 0xFF0000FF]
        ∧ gradient_animation_init_and_start { link := false, proc := none } sample_state_late
            sample_settings [0, 1, 1, 0, 1, 1, 0]
          = some ({ link := true, proc := some tick_proc.gradient_animation_callback },
              sample_state, [1, 1, 0])
        ∧ run_ticks [4000000, 7000000] sample_state [1, 1, 0] = some (sample_state_next, []))
      ∧ (sample_state_next.current_tl_color ∈ [0xFFFF0000, 0xFF0000FF]
          ∧ sample_state_next.current_br_color ∈ [0xFFFF0000, 0xFF0000FF]
          ∧ sample_state_next.next_tl_color ∈ [0xFFFF0000, 0xFF0000FF]
          ∧ sample_state_next.next_br_color ∈ [0xFFFF0000, 0xFF0000FF])
      ∧ (∃ i j : Nat, i ≠ j
          ∧ ([0xFFFF0000, 0xFF0000FF] : List Nat)[i]? = some sample_state_next.next_tl_color
          ∧ ([0xFFFF0000, 0xFF0000FF] : List Nat)[j]? = some sample_state_next.next_br_color)
      ∧ (sample_state_next.color_palette = some [0xFFFF0000, 0xFF0000FF]
          ∧ sample_state_next.num_palette_colors = sample_settings.num_parsed_gradient_colors
          ∧ sample_state_next.palette_total_steps = sample_state.palette_total_steps
          ∧ sample_state_next.step_duration_usec = sample_state.step_duration_usec) :=
  ⟨⟨⟨rfl, by simp [sample_settings], by decide⟩, rfl, sample_start_more _ _ _,
      sample_full_cycle⟩,
   (colours_stay_in_palette { link := false, proc := none } sample_state_late sample_settings
      [0, 1, 1, 0, 1, 1, 0]
      { link := true, proc := some tick_proc.gradient_animation_callback } sample_state
      [1, 1, 0] [0xFFFF0000, 0xFF0000FF] ⟨rfl, by simp [sample_settings], by decide⟩ rfl
      (sample_start_more _ _ _)).1 [4000000, 7000000] sample_state_next [] sample_full_cycle⟩

end JankyBorders
